import Mathlib

/-!
# nettune: snapshot store, history journal, middleware and handlers

A shallow embedding of `internal/server/service/snapshot.go`,
`internal/server/service/history.go`, `internal/shared/utils/hash.go`,
`internal/shared/utils/file.go`, `internal/shared/types/snapshot.go`,
`internal/server/api/middleware/ratelimit.go`, `internal/server/api/middleware/auth.go`,
`internal/server/api/handlers/probe.go` and `internal/server/api/handlers/system.go`, with the
standard library routines they call (`time.Format`, `crypto/sha256`, `encoding/hex`,
`fmt.Sprintf`, `encoding/json`, `os`, `path/filepath`, `sort.Slice`, `bufio.Scanner`,
`strings.SplitN`, `subtle.ConstantTimeCompare`, `strconv.ParseInt`) written out as functions.

Conventions of the embedding.

* A Go `string` is the list of its bytes (`GoString`); Go compares strings bytewise, which
  is the lexicographic order of these lists.
* A `time.Time` is a UTC wall-clock instant, held as the number of nanoseconds since
  January 1 of year 1 (Go keeps the seconds since that day and the nanosecond within the
  second). Zone and monotonic reading are not held.
* A JSON text is held by the value it denotes (`Json`): the byte-level rendering and parsing
  of well-formed JSON is not modelled, what `encoding/json` does to Go values is (coercion of
  strings to valid UTF-8, `omitempty`, `null`, type errors, RFC 3339 timestamps).
* A Go map with string keys is the list of its entries in increasing key order; a nil map
  and an empty map are the same list.
* A file system is a finite list of nodes by cleaned absolute path. Steps that the operating
  system may refuse (disk full, permissions) fail when the environment record says so.
* The journal file is the list of its lines, each within the token limit of `bufio.Scanner`;
  where the length of a line matters, the file is the list of its lines with their lengths.
* A handler is held by the response it writes and the calls it makes; the clock reading of a
  call is passed in.
-/

namespace Nettune

/-! ## Strings -/

/-- Go string: its bytes. -/
abbrev GoString := List Nat

/-- Bytes of an ASCII literal. -/
def ascii (s : String) : GoString := s.toList.map Char.toNat

/-- Go's `<` on strings: bytewise lexicographic comparison. -/
def strLess : GoString → GoString → Bool
  | [], [] => false
  | [], _ :: _ => true
  | _ :: _, [] => false
  | a :: as, b :: bs => decide (a < b) || (a == b && strLess as bs)

/-! ## SHA-256 (`crypto/sha256`), on 32-bit words kept as naturals below `2^32` -/

/-- Modulus of 32-bit words. -/
def mask32 : Nat := 4294967296

/-- Rotate a 32-bit word right by `n` bits. -/
def rotr (x n : Nat) : Nat := ((x >>> n) ||| (x <<< (32 - n))) % mask32

/-- Round constants of SHA-256. -/
def sha256K : List Nat := [
  0x428a2f98, 0x71374491, 0xb5c0fbcf, 0xe9b5dba5, 0x3956c25b, 0x59f111f1, 0x923f82a4, 0xab1c5ed5,
  0xd807aa98, 0x12835b01, 0x243185be, 0x550c7dc3, 0x72be5d74, 0x80deb1fe, 0x9bdc06a7, 0xc19bf174,
  0xe49b69c1, 0xefbe4786, 0x0fc19dc6, 0x240ca1cc, 0x2de92c6f, 0x4a7484aa, 0x5cb0a9dc, 0x76f988da,
  0x983e5152, 0xa831c66d, 0xb00327c8, 0xbf597fc7, 0xc6e00bf3, 0xd5a79147, 0x06ca6351, 0x14292967,
  0x27b70a85, 0x2e1b2138, 0x4d2c6dfc, 0x53380d13, 0x650a7354, 0x766a0abb, 0x81c2c92e, 0x92722c85,
  0xa2bfe8a1, 0xa81a664b, 0xc24b8b70, 0xc76c51a3, 0xd192e819, 0xd6990624, 0xf40e3585, 0x106aa070,
  0x19a4c116, 0x1e376c08, 0x2748774c, 0x34b0bcb5, 0x391c0cb3, 0x4ed8aa4a, 0x5b9cca4f, 0x682e6ff3,
  0x748f82ee, 0x78a5636f, 0x84c87814, 0x8cc70208, 0x90befffa, 0xa4506ceb, 0xbef9a3f7, 0xc67178f2]

/-- Message padding: a `0x80` byte, zeros, and the bit length as 8 big-endian bytes. -/
def sha256Pad (msg : List Nat) : List Nat :=
  let l := msg.length
  let z := (119 - l % 64) % 64
  msg ++ [128] ++ List.replicate z 0 ++
    (List.range 8).map (fun i => ((8 * l) >>> (8 * (7 - i))) % 256)

/-- Group bytes into big-endian 32-bit words. -/
def beWords : List Nat → List Nat
  | a :: b :: c :: d :: rest => (((a * 256 + b) * 256 + c) * 256 + d) :: beWords rest
  | _ => []

/-- Message schedule: `win` is the sliding window of the last 16 words; `n` more are produced. -/
def schedule : Nat → List Nat → List Nat
  | 0, win => win
  | n + 1, win =>
    match win with
    | w0 :: rest =>
      let w1 := win.getD 1 0
      let w9 := win.getD 9 0
      let w14 := win.getD 14 0
      let s0 := (rotr w1 7) ^^^ (rotr w1 18) ^^^ (w1 >>> 3)
      let s1 := (rotr w14 17) ^^^ (rotr w14 19) ^^^ (w14 >>> 10)
      w0 :: schedule n (rest ++ [(w0 + s0 + w9 + s1) % mask32])
    | [] => []

/-- Working variables of the compression function. -/
structure ShaSt where
  a : Nat
  b : Nat
  c : Nat
  d : Nat
  e : Nat
  f : Nat
  g : Nat
  h : Nat
deriving DecidableEq, Repr

/-- One round of the compression function. -/
def shaRound (s : ShaSt) (k w : Nat) : ShaSt :=
  let S1 := (rotr s.e 6) ^^^ (rotr s.e 11) ^^^ (rotr s.e 25)
  let ch := (s.e &&& s.f) ^^^ ((s.e ^^^ (mask32 - 1)) &&& s.g)
  let t1 := (s.h + S1 + ch + k + w) % mask32
  let S0 := (rotr s.a 2) ^^^ (rotr s.a 13) ^^^ (rotr s.a 22)
  let maj := (s.a &&& s.b) ^^^ (s.a &&& s.c) ^^^ (s.b &&& s.c)
  let t2 := (S0 + maj) % mask32
  ⟨(t1 + t2) % mask32, s.a, s.b, s.c, (s.d + t1) % mask32, s.e, s.f, s.g⟩

/-- The 64 rounds, over the constants and the schedule. -/
def shaRounds : ShaSt → List Nat → List Nat → ShaSt
  | s, k :: ks, w :: ws => shaRounds (shaRound s k w) ks ws
  | s, _, _ => s

/-- Compress one 64-byte block into the chaining value. -/
def shaBlock (h : ShaSt) (block : List Nat) : ShaSt :=
  let w := schedule 48 (beWords block)
  let r := shaRounds h sha256K w
  ⟨(h.a + r.a) % mask32, (h.b + r.b) % mask32, (h.c + r.c) % mask32, (h.d + r.d) % mask32,
   (h.e + r.e) % mask32, (h.f + r.f) % mask32, (h.g + r.g) % mask32, (h.h + r.h) % mask32⟩

/-- Compress `n` consecutive blocks. -/
def shaBlocks : Nat → ShaSt → List Nat → ShaSt
  | 0, h, _ => h
  | n + 1, h, bs => shaBlocks n (shaBlock h (bs.take 64)) (bs.drop 64)

/-- The function `sha256.Sum256`: the 32-byte digest of a byte string. -/
def sha256 (msg : List Nat) : List Nat :=
  let p := sha256Pad msg
  let r := shaBlocks (p.length / 64)
    ⟨0x6a09e667, 0xbb67ae85, 0x3c6ef372, 0xa54ff53a, 0x510e527f, 0x9b05688c, 0x1f83d9ab, 0x5be0cd19⟩ p
  [r.a, r.b, r.c, r.d, r.e, r.f, r.g, r.h].flatMap
    (fun w => [w >>> 24 % 256, w >>> 16 % 256, w >>> 8 % 256, w % 256])

/-- One lower-case hexadecimal digit, as a byte. -/
def hexDigit (n : Nat) : Nat := if n < 10 then 48 + n else 87 + n

/-- The function `hex.EncodeToString`. -/
def hexEncode (bs : List Nat) : GoString := bs.flatMap (fun b => [hexDigit (b / 16), hexDigit (b % 16)])

/-- HashString of `utils/hash.go`: the hex form of the SHA-256 digest. -/
def HashString (s : GoString) : GoString := hexEncode (sha256 s)

/-! ## Time (`time.Time` in UTC) and its formatting -/

/-- UTC instant: nanoseconds since January 1 of year 1, 00:00:00. -/
abbrev Time := Nat

/-- Seconds from January 1 of year 1 to the Unix epoch. -/
def unixToInternal : Nat := 62135596800

/-- The instant `sec` seconds and `nsec` nanoseconds after the Unix epoch (`time.Unix`). -/
def unixTime (sec nsec : Nat) : Time := (unixToInternal + sec) * 1000000000 + nsec

/-- Two's-complement wrap of an integer into the `int64` range. -/
def wrapInt64 (x : Int) : Int := (x + 9223372036854775808) % 18446744073709551616 - 9223372036854775808

/-- Time.UnixNano: nanoseconds since the Unix epoch, as an `int64`. -/
def UnixNano (t : Time) : Int :=
  wrapInt64 ((((t / 1000000000 : Nat) : Int) - (unixToInternal : Int)) * 1000000000
    + ((t % 1000000000 : Nat) : Int))

/-- Decimal digits of a natural number, as bytes. -/
def decimal (n : Nat) : GoString := (Nat.toDigits 10 n).map Char.toNat

/-- The verb `%d` of `fmt.Sprintf` on an integer. -/
def sprintfD (x : Int) : GoString :=
  if x < 0 then 45 :: decimal x.natAbs else decimal x.natAbs

/-- Cumulative days before each month of a common year (`daysBefore`). -/
def daysBefore : List Nat := [0, 31, 59, 90, 120, 151, 181, 212, 243, 273, 304, 334, 365]

/-- Leap-year test of the `time` package. -/
def isLeap (year : Nat) : Bool := year % 4 == 0 && (year % 100 != 0 || year % 400 == 0)

/-- Month and day of month from the day of the year, the second half of `absDate`. -/
def monthDay (leap : Bool) (yday : Nat) : Nat × Nat :=
  if leap && yday == 31 + 29 - 1 then (2, 29)
  else
    let day := if leap && yday > 31 + 29 - 1 then yday - 1 else yday
    let month := day / 31
    let e := daysBefore.getD (month + 1) 0
    if day ≥ e then (month + 2, day - e + 1)
    else (month + 1, day - daysBefore.getD month 0 + 1)

/-- Year and day of the year from the day count since January 1 of year 1: the first half of
`absDate`, cutting 400-year, 100-year, 4-year and 1-year cycles. -/
def yearDay (days : Nat) : Nat × Nat :=
  let n400 := days / 146097
  let d1 := days - 146097 * n400
  let n100 := d1 / 36524 - (d1 / 36524) / 4
  let d2 := d1 - 36524 * n100
  let n4 := d2 / 1461
  let d3 := d2 - 1461 * n4
  let n1 := d3 / 365 - (d3 / 365) / 4
  let d4 := d3 - 365 * n1
  (400 * n400 + 100 * n100 + 4 * n4 + n1 + 1, d4)

/-- Calendar date and clock of an instant. -/
structure Civil where
  year : Nat
  month : Nat
  day : Nat
  hour : Nat
  minute : Nat
  second : Nat
deriving DecidableEq, Repr

/-- The date (`Time.Date`) and clock (`Time.Clock`) of a UTC instant. -/
def civil (t : Time) : Civil :=
  let s := t / 1000000000
  let yd := yearDay (s / 86400)
  let md := monthDay (isLeap yd.1) yd.2
  let c := s % 86400
  ⟨yd.1, md.1, md.2, c / 3600, c % 3600 / 60, c % 60⟩

/-- The `width` low decimal digits of `x`, most significant first, as bytes. -/
def padDigits : Nat → Nat → GoString
  | 0, _ => []
  | w + 1, x => padDigits w (x / 10) ++ [48 + x % 10]

/-- The helper `appendInt` of `time.Format` on a non-negative number: its decimal digits,
zero-padded on the left to at least `width` digits. -/
def appendInt (x width : Nat) : GoString :=
  if x < 10 ^ width then padDigits width x else decimal x

/-- Time.Format with the layout `2006-01-02T15-04-05Z`. -/
def formatStamp (t : Time) : GoString :=
  let c := civil t
  appendInt c.year 4 ++ 45 :: (appendInt c.month 2 ++ 45 :: (appendInt c.day 2 ++ 84 ::
    (appendInt c.hour 2 ++ 45 :: (appendInt c.minute 2 ++ 45 :: (appendInt c.second 2 ++ [90])))))

/-- The snapshot id that `SnapshotService.Create` builds for the instant `timestamp`:
`fmt.Sprintf("%s_%s", stamp, HashString(fmt.Sprintf("%d", timestamp.UnixNano()))[:8])`. -/
def snapshotID (timestamp : Time) : GoString :=
  formatStamp timestamp ++ 95 :: (HashString (sprintfD (UnixNano timestamp))).take 8


/-- Lexicographic comparison of two calendar readings, field by field. -/
def Civil.before (a b : Civil) : Prop :=
  a.year < b.year ∨ (a.year = b.year ∧ (a.month < b.month ∨ (a.month = b.month ∧
    (a.day < b.day ∨ (a.day = b.day ∧ (a.hour < b.hour ∨ (a.hour = b.hour ∧
      (a.minute < b.minute ∨ (a.minute = b.minute ∧ a.second < b.second)))))))))


/-! ## UTF-8 and the coercion `encoding/json` applies to strings -/

/-- Continuation byte of a UTF-8 sequence. -/
def isCont (b : Nat) : Bool := 0x80 ≤ b && b ≤ 0xBF

/-- Width (1 to 4) of the well-formed UTF-8 sequence at the head of `s`, or 0 when the head is
not one: the sequences `utf8.DecodeRuneInString` accepts (no overlong forms, no surrogates,
nothing above U+10FFFF). -/
def utf8Width : GoString → Nat
  | [] => 0
  | b0 :: rest =>
    if b0 < 0x80 then 1
    else if 0xC2 ≤ b0 ∧ b0 ≤ 0xDF then
      match rest with
      | b1 :: _ => if isCont b1 then 2 else 0
      | _ => 0
    else if 0xE0 ≤ b0 ∧ b0 ≤ 0xEF then
      match rest with
      | b1 :: b2 :: _ =>
        if (if b0 = 0xE0 then 0xA0 else 0x80) ≤ b1 ∧ b1 ≤ (if b0 = 0xED then 0x9F else 0xBF)
          ∧ isCont b2 then 3 else 0
      | _ => 0
    else if 0xF0 ≤ b0 ∧ b0 ≤ 0xF4 then
      match rest with
      | b1 :: b2 :: b3 :: _ =>
        if (if b0 = 0xF0 then 0x90 else 0x80) ≤ b1 ∧ b1 ≤ (if b0 = 0xF4 then 0x8F else 0xBF)
          ∧ isCont b2 ∧ isCont b3 then 4 else 0
      | _ => 0
    else 0

/-- Scan of a string with `pending` bytes of the current sequence still to copy: every byte
that does not start or continue a well-formed sequence is replaced by U+FFFD (`EF BF BD`). -/
def toValidUTF8Aux : Nat → GoString → GoString
  | _, [] => []
  | k + 1, b :: rest => b :: toValidUTF8Aux k rest
  | 0, b :: rest =>
    match utf8Width (b :: rest) with
    | 0 => 0xEF :: 0xBF :: 0xBD :: toValidUTF8Aux 0 rest
    | w + 1 => b :: toValidUTF8Aux w rest

/-- The string `encoding/json` writes for a Go string, as the decoder reads it back: "coerced
to valid UTF-8, replacing invalid bytes with the Unicode replacement rune". -/
def toValidUTF8 (s : GoString) : GoString := toValidUTF8Aux 0 s

/-- Scan deciding whether every byte belongs to a well-formed sequence. -/
def validUTF8Aux : Nat → GoString → Bool
  | _, [] => true
  | k + 1, _ :: rest => validUTF8Aux k rest
  | 0, b :: rest =>
    match utf8Width (b :: rest) with
    | 0 => false
    | w + 1 => validUTF8Aux w rest

/-- The predicate `utf8.ValidString`. -/
def validUTF8 (s : GoString) : Bool := validUTF8Aux 0 s

/-! ## JSON values

A JSON text is held by the value it denotes. Strings are the bytes the decoder hands out
after unquoting; a number is kept as its literal. -/

/-- JSON value. -/
inductive Json
  | null
  | bool (b : Bool)
  | num (lit : GoString)
  | str (s : GoString)
  | arr (xs : List Json)
  | obj (kvs : List (GoString × Json))
deriving Repr, Inhabited

mutual
/-- Structural equality test on JSON values. -/
def Json.beq : Json → Json → Bool
  | .null, .null => true
  | .bool a, .bool b => a == b
  | .num a, .num b => a == b
  | .str a, .str b => a == b
  | .arr a, .arr b => Json.beqList a b
  | .obj a, .obj b => Json.beqMembers a b
  | _, _ => false
/-- Structural equality test on lists of JSON values. -/
def Json.beqList : List Json → List Json → Bool
  | [], [] => true
  | x :: xs, y :: ys => Json.beq x y && Json.beqList xs ys
  | _, _ => false
/-- Structural equality test on object members. -/
def Json.beqMembers : List (GoString × Json) → List (GoString × Json) → Bool
  | [], [] => true
  | (k, x) :: xs, (l, y) :: ys => k == l && Json.beq x y && Json.beqMembers xs ys
  | _, _ => false
end

mutual
theorem Json.beq_iff : ∀ a b : Json, Json.beq a b = true ↔ a = b
  | .null, b => by cases b <;> simp [Json.beq]
  | .bool a, b => by cases b <;> simp [Json.beq]
  | .num a, b => by cases b <;> simp [Json.beq]
  | .str a, b => by cases b <;> simp [Json.beq]
  | .arr a, b => by cases b <;> simp [Json.beq, Json.beqList_iff a]
  | .obj a, b => by cases b <;> simp [Json.beq, Json.beqMembers_iff a]
theorem Json.beqList_iff : ∀ a b : List Json, Json.beqList a b = true ↔ a = b
  | [], b => by cases b <;> simp [Json.beqList]
  | x :: xs, b => by cases b <;> simp [Json.beqList, Json.beq_iff x, Json.beqList_iff xs]
theorem Json.beqMembers_iff :
    ∀ a b : List (GoString × Json), Json.beqMembers a b = true ↔ a = b
  | [], b => by cases b <;> simp [Json.beqMembers]
  | (k, x) :: xs, b => by
    cases b with
    | nil => simp [Json.beqMembers]
    | cons y ys =>
      obtain ⟨l, y⟩ := y
      simp [Json.beqMembers, Json.beq_iff x, Json.beqMembers_iff xs, and_assoc]
end

instance : DecidableEq Json := fun a b => decidable_of_iff _ (Json.beq_iff a b)

mutual
/-- Encoding of a value held in an `interface{}`: every string and every member name goes
through the UTF-8 coercion. -/
def Json.coerce : Json → Json
  | .null => .null
  | .bool b => .bool b
  | .num l => .num l
  | .str s => .str (toValidUTF8 s)
  | .arr xs => .arr (Json.coerceList xs)
  | .obj kvs => .obj (Json.coerceMembers kvs)
/-- Coercion of the elements of an array. -/
def Json.coerceList : List Json → List Json
  | [] => []
  | x :: xs => Json.coerce x :: Json.coerceList xs
/-- Coercion of the members of an object. -/
def Json.coerceMembers : List (GoString × Json) → List (GoString × Json)
  | [] => []
  | (k, v) :: kvs => (toValidUTF8 k, Json.coerce v) :: Json.coerceMembers kvs
end

mutual
/-- Every string and member name inside the value is valid UTF-8. -/
def Json.wellFormed : Json → Bool
  | .null => true
  | .bool _ => true
  | .num _ => true
  | .str s => validUTF8 s
  | .arr xs => Json.wellFormedList xs
  | .obj kvs => Json.wellFormedMembers kvs
/-- Every element is well formed. -/
def Json.wellFormedList : List Json → Bool
  | [] => true
  | x :: xs => Json.wellFormed x && Json.wellFormedList xs
/-- Every member is well formed. -/
def Json.wellFormedMembers : List (GoString × Json) → Bool
  | [] => true
  | (k, v) :: kvs => validUTF8 k && Json.wellFormed v && Json.wellFormedMembers kvs
end

/-- ASCII lower-casing of one byte. -/
def lowerByte (b : Nat) : Nat := if 65 ≤ b ∧ b ≤ 90 then b + 32 else b

/-- The member an object supplies for the struct field tagged `name`: the last member whose
name equals the tag up to ASCII case, or `null` when there is none (the decoder leaves the
field at its zero value in both cases). -/
def Json.field (kvs : List (GoString × Json)) (name : GoString) : Json :=
  match (kvs.reverse.find? (fun kv => kv.1.map lowerByte == name.map lowerByte)) with
  | some kv => kv.2
  | none => .null

/-! ## Maps

A Go map with string keys is held as its entries in strictly increasing key order, the order in
which `encoding/json` writes them; a nil map and an empty map are both the empty list. -/

/-- Go map with string keys. -/
abbrev GoMap (V : Type) := List (GoString × V)

/-- Assignment `m[k] = v`. -/
def GoMap.insert {V : Type} (k : GoString) (v : V) : GoMap V → GoMap V
  | [] => [(k, v)]
  | (k', v') :: rest =>
    if strLess k k' then (k, v) :: (k', v') :: rest
    else if k = k' then (k, v) :: rest
    else (k', v') :: GoMap.insert k v rest

/-- Lookup `m[k]`. -/
def GoMap.get? {V : Type} (m : GoMap V) (k : GoString) : Option V :=
  (m.find? (fun kv => kv.1 == k)).map Prod.snd

/-- Keys in strictly increasing order. -/
def GoMap.sorted {V : Type} (m : GoMap V) : Prop :=
  List.Pairwise (fun a b => strLess a.1 b.1 = true) m

instance {V : Type} (m : GoMap V) : Decidable (GoMap.sorted m) := by
  unfold GoMap.sorted
  infer_instance

/-- Encoding of a map: one member per entry, the key coerced to valid UTF-8. -/
def encMap {V : Type} (enc : V → Json) (m : GoMap V) : Json :=
  .obj (m.map (fun kv => (toValidUTF8 kv.1, enc kv.2)))

/-- Decoding of the members of an object into a map, in document order. -/
def decMembers {V : Type} (dec : Json → Option V) :
    List (GoString × Json) → GoMap V → Option (GoMap V)
  | [], m => some m
  | (k, j) :: rest, m =>
    match dec j with
    | none => none
    | some v => decMembers dec rest (m.insert k v)

/-- Decoding into a map field: an object, or `null` for no map; anything else is a type error. -/
def decMap {V : Type} (dec : Json → Option V) : Json → Option (GoMap V)
  | .obj kvs => decMembers dec kvs []
  | .null => some []
  | _ => none

/-- Decoding into a `string` (`null` leaves the zero value). -/
def decString : Json → Option GoString
  | .str s => some s
  | .null => some []
  | _ => none

/-- Decoding into a `bool` (`null` leaves the zero value). -/
def decBool : Json → Option Bool
  | .bool b => some b
  | .null => some false
  | _ => none

/-- Decoding into an `interface{}`: the value itself. -/
def decAny (j : Json) : Option Json := some j

/-! ## Timestamps in JSON: RFC 3339 text (`Time.MarshalJSON`, `Time.UnmarshalJSON`)

Instants are written in UTC with the zone letter `Z`. Texts are read by the library's
RFC 3339 reader for fixed-position fields; an instant before January 1 of year 1 has no
representation here and is reported as unreadable. -/

/-- Decimal digit byte. -/
def isDigit (b : Nat) : Bool := 48 ≤ b && b ≤ 57

/-- Drop trailing `0` digits. -/
def trimZeros (s : GoString) : GoString := (s.reverse.dropWhile (fun b => b == 48)).reverse

/-- The helper `appendNano` for the layout fraction `.999999999`: nothing for a whole second,
else a period and the nine-digit nanosecond count without trailing zeros. -/
def appendNano (nsec : Nat) : GoString :=
  if nsec = 0 then [] else 46 :: trimZeros (appendInt nsec 9)

/-- Time.MarshalJSON, without the quotes: the RFC 3339 text with nanoseconds; an error (`none`)
when the year is outside `[0,9999]`. -/
def formatRFC3339Nano (t : Time) : Option GoString :=
  let c := civil t
  if c.year ≥ 10000 then none
  else some (appendInt c.year 4 ++ 45 :: (appendInt c.month 2 ++ 45 :: (appendInt c.day 2 ++ 84 ::
    (appendInt c.hour 2 ++ 58 :: (appendInt c.minute 2 ++ 58 :: (appendInt c.second 2 ++
      (appendNano (t % 1000000000) ++ [90])))))))

/-- Number of days in a month (`daysIn`). -/
def daysIn (month year : Nat) : Nat :=
  if month = 2 ∧ isLeap year = true then 29
  else daysBefore.getD month 0 - daysBefore.getD (month - 1) 0

/-- Unsigned decimal field within `[min, max]` (`parseUint` of the RFC 3339 reader). -/
def parseUint (s : GoString) (min max : Nat) : Option Nat :=
  if s.all isDigit then
    let x := s.foldl (fun a b => a * 10 + (b - 48)) 0
    if min ≤ x ∧ x ≤ max then some x else none
  else none

/-- Days from January 1 of year 1 to January 1 of `year` (`daysSinceEpoch`), by 400-year,
100-year and 4-year cycles; year 0 lies 366 days before. -/
def daysSinceEpoch (year : Nat) : Int :=
  if year = 0 then -366
  else
    let y := year - 1
    let n400 := y / 400
    let y1 := y - 400 * n400
    let n100 := y1 / 100
    let y2 := y1 - 100 * n100
    let n4 := y2 / 4
    let y3 := y2 - 4 * n4
    ((146097 * n400 + 36524 * n100 + 1461 * n4 + 365 * y3 : Nat) : Int)

/-- Seconds from January 1 of year 1 to the given UTC date and clock (`time.Date`). -/
def dateSeconds (year month day hour minute second : Nat) : Int :=
  let d := daysSinceEpoch year + ((daysBefore.getD (month - 1) 0 : Nat) : Int)
    + (if isLeap year = true ∧ month ≥ 3 then 1 else 0) + ((day : Int) - 1)
  d * 86400 + ((hour * 3600 + minute * 60 + second : Nat) : Int)

/-- Fractional second `.ddd…` at the head of `s`: nanoseconds from at most nine digits, and the
text after all the digits (`parseNanoseconds`). -/
def parseFraction (s : GoString) : Nat × GoString :=
  match s with
  | 46 :: d :: rest =>
    if isDigit d then
      let ds := (d :: rest).takeWhile isDigit
      let used := ds.take 9
      (used.foldl (fun a b => a * 10 + (b - 48)) 0 * 10 ^ (9 - used.length),
        (d :: rest).dropWhile isDigit)
    else (0, s)
  | _ => (0, s)

/-- Zone suffix: `Z`, or a signed `hh:mm` offset, in seconds east of UTC. -/
def parseZone (s : GoString) : Option Int :=
  if s = [90] then some 0
  else if s.length = 6 then
    match parseUint ((s.drop 1).take 2) 0 23, parseUint ((s.drop 4).take 2) 0 59 with
    | some hr, some mm =>
      if (s.getD 0 0 = 45 ∨ s.getD 0 0 = 43) ∧ s.getD 3 0 = 58 then
        some (if s.getD 0 0 = 45 then -(((hr * 60 + mm) * 60 : Nat) : Int)
          else (((hr * 60 + mm) * 60 : Nat) : Int))
      else none
    | _, _ => none
  else none

/-- The RFC 3339 reader behind `Time.UnmarshalJSON` (`parseRFC3339`). -/
def parseRFC3339 (s : GoString) : Option Time :=
  if s.length < 19 then none
  else
    match parseUint (s.take 4) 0 9999, parseUint ((s.drop 5).take 2) 1 12 with
    | some year, some month =>
      match parseUint ((s.drop 8).take 2) 1 (daysIn month year),
        parseUint ((s.drop 11).take 2) 0 23, parseUint ((s.drop 14).take 2) 0 59,
        parseUint ((s.drop 17).take 2) 0 59 with
      | some day, some hour, some minute, some second =>
        if s.getD 4 0 = 45 ∧ s.getD 7 0 = 45 ∧ s.getD 10 0 = 84 ∧ s.getD 13 0 = 58
            ∧ s.getD 16 0 = 58 then
          let fr := parseFraction (s.drop 19)
          match parseZone fr.2 with
          | some off =>
            let secs := dateSeconds year month day hour minute second - off
            if secs < 0 then none else some (secs.toNat * 1000000000 + fr.1)
          | none => none
        else none
      | _, _, _, _ => none
    | _, _ => none

/-! ## Data model (`types/snapshot.go`, `types/apply.go`, `service/history.go`) and its JSON form -/

/-- QdiscInfo: qdisc of one interface (the Go field `Type` is `QType` here). -/
structure QdiscInfo where
  QType : GoString
  Handle : GoString
  Params : GoMap Json
deriving DecidableEq, Repr

/-- SystemState: the observed configuration. -/
structure SystemState where
  Sysctl : GoMap GoString
  Qdisc : GoMap (Option QdiscInfo)
  SystemdUnits : GoMap Bool
  FileHashes : GoMap GoString
deriving DecidableEq, Repr

/-- Snapshot: `State` is a pointer (`none` is nil); `Backups` maps a file path to its content. -/
structure Snapshot where
  ID : GoString
  CreatedAt : Time
  State : Option SystemState
  Backups : GoMap GoString
  Metadata : GoMap Json
deriving DecidableEq, Repr

/-- SnapshotMeta: the listing entry of a snapshot. -/
structure SnapshotMeta where
  ID : GoString
  CreatedAt : Time
  Size : Nat
deriving DecidableEq, Repr

/-- Snapshot.ToMeta: id and creation time, size zero. -/
def Snapshot.ToMeta (s : Snapshot) : SnapshotMeta := ⟨s.ID, s.CreatedAt, 0⟩

/-- HistoryEntry: one journal record. -/
structure HistoryEntry where
  Timestamp : Time
  Action : GoString
  ProfileID : GoString
  SnapshotID : GoString
  Success : Bool
  Details : GoMap Json
deriving DecidableEq, Repr

/-- LastApplyInfo: the last successful apply. -/
structure LastApplyInfo where
  ProfileID : GoString
  AppliedAt : Time
  Success : Bool
deriving DecidableEq, Repr

/-- Encoding of a `string`. -/
def encString (s : GoString) : Json := .str (toValidUTF8 s)

/-- Encoding of a pointer: `null` for nil. -/
def encPtr {α : Type} (enc : α → Json) : Option α → Json
  | none => .null
  | some a => enc a

/-- Decoding into a pointer: `null` gives nil. -/
def decPtr {α : Type} (dec : Json → Option α) : Json → Option (Option α)
  | .null => some none
  | j => (dec j).map some

/-- Decoding into a `time.Time`: an RFC 3339 string; `null` leaves the zero time. -/
def decTime : Json → Option Time
  | .str s => parseRFC3339 s
  | .null => some 0
  | _ => none

/-- JSON form of a QdiscInfo; `params` is omitted when empty. -/
def QdiscInfo.toJson (q : QdiscInfo) : Json :=
  .obj ([(ascii "type", encString q.QType), (ascii "handle", encString q.Handle)] ++
    (if q.Params.isEmpty then [] else [(ascii "params", encMap Json.coerce q.Params)]))

/-- Decoding of a QdiscInfo from an object (`null` leaves the zero value). -/
def QdiscInfo.fromJson : Json → Option QdiscInfo
  | .obj kvs =>
    match decString (Json.field kvs (ascii "type")), decString (Json.field kvs (ascii "handle")),
      decMap decAny (Json.field kvs (ascii "params")) with
    | some t, some h, some p => some ⟨t, h, p⟩
    | _, _, _ => none
  | .null => some ⟨[], [], []⟩
  | _ => none

/-- JSON form of a SystemState. -/
def SystemState.toJson (s : SystemState) : Json :=
  .obj [(ascii "sysctl", encMap encString s.Sysctl),
    (ascii "qdisc", encMap (encPtr QdiscInfo.toJson) s.Qdisc),
    (ascii "systemd_units", encMap Json.bool s.SystemdUnits),
    (ascii "file_hashes", encMap encString s.FileHashes)]

/-- Decoding of a SystemState from an object (`null` leaves the zero value). -/
def SystemState.fromJson : Json → Option SystemState
  | .obj kvs =>
    match decMap decString (Json.field kvs (ascii "sysctl")),
      decMap (decPtr QdiscInfo.fromJson) (Json.field kvs (ascii "qdisc")),
      decMap decBool (Json.field kvs (ascii "systemd_units")),
      decMap decString (Json.field kvs (ascii "file_hashes")) with
    | some a, some b, some c, some d => some ⟨a, b, c, d⟩
    | _, _, _, _ => none
  | .null => some ⟨[], [], [], []⟩
  | _ => none

/-- The function `json.MarshalIndent` on a Snapshot: `none` when the timestamp cannot be encoded;
`metadata` is omitted when empty. -/
def Snapshot.toJson (s : Snapshot) : Option Json :=
  match formatRFC3339Nano s.CreatedAt with
  | none => none
  | some ts =>
    some (.obj ([(ascii "id", encString s.ID), (ascii "created_at", .str ts),
      (ascii "state", encPtr SystemState.toJson s.State),
      (ascii "backups", encMap encString s.Backups)] ++
      (if s.Metadata.isEmpty then [] else [(ascii "metadata", encMap Json.coerce s.Metadata)])))

/-- The function `json.Unmarshal` into a Snapshot: `none` on a type error. -/
def Snapshot.fromJson : Json → Option Snapshot
  | .obj kvs =>
    match decString (Json.field kvs (ascii "id")), decTime (Json.field kvs (ascii "created_at")),
      decPtr SystemState.fromJson (Json.field kvs (ascii "state")),
      decMap decString (Json.field kvs (ascii "backups")),
      decMap decAny (Json.field kvs (ascii "metadata")) with
    | some i, some c, some s, some b, some m => some ⟨i, c, s, b, m⟩
    | _, _, _, _, _ => none
  | .null => some ⟨[], 0, none, [], []⟩
  | _ => none

/-- The function `json.Marshal` on a HistoryEntry: `profile_id`, `snapshot_id` and `details` are
omitted when empty. -/
def HistoryEntry.toJson (e : HistoryEntry) : Option Json :=
  match formatRFC3339Nano e.Timestamp with
  | none => none
  | some ts =>
    some (.obj ([(ascii "timestamp", .str ts), (ascii "action", encString e.Action)] ++
      (if e.ProfileID.isEmpty then [] else [(ascii "profile_id", encString e.ProfileID)]) ++
      (if e.SnapshotID.isEmpty then [] else [(ascii "snapshot_id", encString e.SnapshotID)]) ++
      [(ascii "success", .bool e.Success)] ++
      (if e.Details.isEmpty then [] else [(ascii "details", encMap Json.coerce e.Details)])))

/-- The function `json.Unmarshal` into a HistoryEntry: `none` on a type error. -/
def HistoryEntry.fromJson : Json → Option HistoryEntry
  | .obj kvs =>
    match decTime (Json.field kvs (ascii "timestamp")), decString (Json.field kvs (ascii "action")),
      decString (Json.field kvs (ascii "profile_id")),
      decString (Json.field kvs (ascii "snapshot_id")),
      decBool (Json.field kvs (ascii "success")),
      decMap decAny (Json.field kvs (ascii "details")) with
    | some t, some a, some p, some s, some b, some d => some ⟨t, a, p, s, b, d⟩
    | _, _, _, _, _, _ => none
  | .null => some ⟨0, [], [], [], false, []⟩
  | _ => none

/-- A byte text as `encoding/json` reads it: a JSON text, held by its value, or bytes that are
not a JSON text. -/
inductive Text
  | json (doc : Json)
  | other (bytes : List Nat)
deriving DecidableEq, Repr

instance {ε α : Type} [DecidableEq ε] [DecidableEq α] : DecidableEq (Except ε α) := fun a b =>
  match a, b with
  | .ok x, .ok y => if h : x = y then isTrue (by rw [h]) else isFalse (fun e => h (by cases e; rfl))
  | .error x, .error y =>
    if h : x = y then isTrue (by rw [h]) else isFalse (fun e => h (by cases e; rfl))
  | .ok _, .error _ => isFalse (fun e => by cases e)
  | .error _, .ok _ => isFalse (fun e => by cases e)

/-! ## File system

A file system is the list of its nodes by absolute path; a path is the list of its components
after `filepath.Clean`, the root directory being the empty path. -/

/-- Cleaned absolute path, by components. -/
abbrev Path := List GoString

/-- Split a path string at every `/`. -/
def splitSlash : GoString → List GoString
  | [] => [[]]
  | b :: rest =>
    if b = 47 then [] :: splitSlash rest
    else
      match splitSlash rest with
      | [] => [[b]]
      | c :: cs => (b :: c) :: cs

/-- One component under `filepath.Clean`: empty and `.` vanish, `..` drops the last component
(and is itself dropped at the root), any other name is appended. -/
def cleanStep (stack : Path) (c : GoString) : Path :=
  if c = [] ∨ c = [46] then stack
  else if c = [46, 46] then stack.dropLast
  else stack ++ [c]

/-- The function `filepath.Join(base, elems...)` for a cleaned absolute `base`. -/
def joinPath (base : Path) (elems : List GoString) : Path :=
  (elems.flatMap splitSlash).foldl cleanStep base

/-- File-system node: a directory, or a regular file with its content and length in bytes. -/
inductive Node
  | dir
  | file (content : Text) (size : Nat)
deriving DecidableEq, Repr

/-- File system: nodes by path (the first entry for a path counts). -/
abbrev FS := List (Path × Node)

/-- Error class of a failed system call: `os.IsNotExist`, or anything else. -/
inductive IOErr
  | notExist
  | other
deriving DecidableEq, Repr

/-- Node at a path; the root is a directory. -/
def FS.node (fs : FS) (p : Path) : Option Node :=
  if p = [] then some .dir else (fs.find? (fun e => e.1 == p)).map Prod.snd

/-- Remove the node at a path. -/
def FS.remove (fs : FS) (p : Path) : FS := fs.filter (fun e => e.1 != p)

/-- Set the node at a path. -/
def FS.put (fs : FS) (p : Path) (n : Node) : FS := (p, n) :: fs.remove p

/-- Walk the given ancestor paths: each must be a directory. -/
def FS.checkDirs (fs : FS) : List Path → Option IOErr
  | [] => none
  | q :: qs =>
    match fs.node q with
    | some .dir => FS.checkDirs fs qs
    | some (.file _ _) => some .other
    | none => some .notExist

/-- The call `os.ReadFile`. -/
def FS.readFile (fs : FS) (p : Path) : Except IOErr Text :=
  match fs.checkDirs p.inits.dropLast with
  | some e => .error e
  | none =>
    match fs.node p with
    | some (.file c _) => .ok c
    | some .dir => .error .other
    | none => .error .notExist

/-- Create each listed path that is missing, in order; fail on one that is a regular file. -/
def FS.mkdirAll (fs : FS) : List Path → Option FS
  | [] => some fs
  | q :: qs =>
    match fs.node q with
    | some .dir => FS.mkdirAll fs qs
    | some (.file _ _) => none
    | none => FS.mkdirAll (fs.put q .dir) qs

/-- EnsureDir of `utils/file.go`: `os.MkdirAll`. -/
def EnsureDir (fs : FS) (path : Path) : Option FS := fs.mkdirAll path.inits

/-- The call `os.WriteFile`: create or truncate a regular file inside an existing directory. -/
def FS.writeFile (fs : FS) (p : Path) (bytes : List Nat) : Option FS :=
  if fs.checkDirs p.inits.dropLast = none ∧ fs.node p ≠ some .dir ∧ p ≠ [] then
    some (fs.put p (.file (.other bytes) bytes.length))
  else none

/-- Directory entry as `os.ReadDir` reports it. -/
structure DirEntry where
  Name : GoString
  IsDir : Bool
deriving DecidableEq, Repr

/-- Entries directly inside directory `d`, in file-system order. -/
def FS.children (fs : FS) (d : Path) : List DirEntry :=
  fs.filterMap (fun e =>
    match e.1.reverse with
    | name :: up => if up.reverse = d then some ⟨name, decide (e.2 = .dir)⟩ else none
    | [] => none)

/-- Insert `x` into a list ordered by `less`, after the elements that may stay before it. -/
def insertBy {α : Type} (less : α → α → Bool) (x : α) : List α → List α
  | [] => [x]
  | y :: ys => if less x y then x :: y :: ys else y :: insertBy less x ys

/-- The function `sort.Slice(xs, less)`, as an insertion sort (`sort.Slice` does not fix the
order of elements that `less` does not separate). -/
def sortSlice {α : Type} (less : α → α → Bool) (xs : List α) : List α :=
  xs.foldr (insertBy less) []

/-- The call `os.ReadDir`: the entries of a directory sorted by file name. -/
def FS.readDir (fs : FS) (d : Path) : Except IOErr (List DirEntry) :=
  match fs.checkDirs d.inits.dropLast with
  | some e => .error e
  | none =>
    match fs.node d with
    | some .dir => .ok (sortSlice (fun a b => strLess a.Name b.Name) (fs.children d))
    | some (.file _ _) => .error .other
    | none => .error .notExist

/-- Steps of AtomicWriteFile that the environment makes fail. -/
structure WriteFaults where
  createTemp : Bool
  write : Bool
  sync : Bool
  close : Bool
  chmod : Bool
  rename : Bool
  remove : Bool
deriving DecidableEq, Repr

/-- No injected failure. -/
def WriteFaults.none : WriteFaults := ⟨false, false, false, false, false, false, false⟩

/-- AtomicWriteFile of `utils/file.go`: write to a fresh `.tmp-*` file in the target directory,
then rename it over the target; on any failure after its creation the temporary file is removed.
Returns whether the write succeeded, and the file system afterwards. -/
def AtomicWriteFile (wf : WriteFaults) (tmpSuffix : GoString) (fs : FS) (path : Path)
    (content : Text) (size : Nat) : Bool × FS :=
  match EnsureDir fs path.dropLast with
  | none => (false, fs)
  | some fs0 =>
    let tmpPath := path.dropLast ++ [ascii ".tmp-" ++ tmpSuffix]
    if wf.createTemp = true ∨ (fs0.node tmpPath).isSome = true then (false, fs0)
    else
      let fs1 := fs0.put tmpPath (.file (.other []) 0)
      if wf.write = true then (false, if wf.remove = true then fs1 else fs1.remove tmpPath)
      else
        let fs2 := fs1.put tmpPath (.file content size)
        if wf.sync = true ∨ wf.close = true ∨ wf.chmod = true ∨ wf.rename = true
            ∨ fs2.node path = some .dir then
          (false, if wf.remove = true then fs2 else fs2.remove tmpPath)
        else (true, (fs2.remove tmpPath).put path (.file content size))

/-! ## Snapshot service (`service/snapshot.go`) -/

/-- Errors of the services: the sentinel ErrSnapshotNotFound, and one case per wrapped error
message of the source. -/
inductive SvcError
  | ErrSnapshotNotFound
  | readSnapshot
  | parseSnapshot
  | createSnapshotDir
  | marshalSnapshot
  | writeSnapshot
  | listSnapshots
deriving DecidableEq, Repr

/-- A managed host file as the service finds it. -/
inductive HostFile
  | absent
  | unreadable
  | content (bytes : List Nat)
deriving DecidableEq, Repr

/-- What the adapters and the managed files report while a snapshot is taken. -/
structure Host where
  sysctl : GoMap GoString
  qdisc : GoMap (Option QdiscInfo)
  unitActive : Bool
  file : GoString → HostFile

/-- Environment of one Create call: the clock, the host, the random suffix of the temporary
file, the length of the indented JSON text of a document, and the steps that fail. -/
structure Env where
  now : Time
  host : Host
  tmpSuffix : GoString
  jsonLen : Json → Nat
  mkdirSnapshotFails : Bool
  mkdirBackupsFails : Bool
  writeBackupFails : Bool
  write : WriteFaults

/-- SnapshotService: the snapshot root (lock, adapter and logger left out). -/
structure SnapshotService where
  snapshotsDir : Path

/-- Path of the managed sysctl configuration file. -/
def sysctlConfPath : GoString := ascii "/etc/sysctl.d/99-nettune.conf"

/-- NettuneQdiscScriptPath of `adapter/systemd.go`. -/
def NettuneQdiscScriptPath : GoString := ascii "/usr/local/bin/nettune-qdisc-setup.sh"

/-- NettuneQdiscServiceName of `adapter/systemd.go`. -/
def NettuneQdiscServiceName : GoString := ascii "nettune-qdisc.service"

/-- SnapshotService.collectCurrentState: sysctl values, qdiscs, the unit's active flag, and the
hash of each managed file that exists and can be read. It never fails. -/
def collectCurrentState (h : Host) : SystemState :=
  { Sysctl := h.sysctl
    Qdisc := h.qdisc
    SystemdUnits := GoMap.insert NettuneQdiscServiceName h.unitActive []
    FileHashes := [sysctlConfPath].foldl (fun m f =>
      match h.file f with
      | .content b => GoMap.insert f (hexEncode (sha256 b)) m
      | _ => m) [] }

/-- SnapshotService.createBackups: the content of each managed file that exists goes into the
map and, when the write succeeds, into `backups/<name>` under the snapshot directory. When the
`backups` directory cannot be made the map is nil. -/
def createBackups (env : Env) (fs : FS) (snapshotDir : Path) : GoMap GoString × FS :=
  let backupsDir := joinPath snapshotDir [ascii "backups"]
  match (if env.mkdirBackupsFails = true then none else EnsureDir fs backupsDir) with
  | none => ([], fs)
  | some fs1 =>
    [sysctlConfPath, NettuneQdiscScriptPath].foldl (fun (acc : GoMap GoString × FS) f =>
      match env.host.file f with
      | .content b =>
        let backupName := f.map (fun c => if c = 47 then 95 else c)
        let backupPath := joinPath backupsDir [backupName]
        (GoMap.insert f b acc.1,
          match (if env.writeBackupFails = true then none else acc.2.writeFile backupPath b) with
          | some fs2 => fs2
          | none => acc.2)
      | _ => acc) ([], fs1)

/-- SnapshotService.saveSnapshot: marshal the snapshot and write `state.json` atomically. -/
def SnapshotService.saveSnapshot (s : SnapshotService) (env : Env) (fs : FS)
    (snapshot : Snapshot) : Option SvcError × FS :=
  let snapshotDir := joinPath s.snapshotsDir [snapshot.ID]
  let stateFile := joinPath snapshotDir [ascii "state.json"]
  match snapshot.toJson with
  | none => (some .marshalSnapshot, fs)
  | some doc =>
    match AtomicWriteFile env.write env.tmpSuffix fs stateFile (.json doc) (env.jsonLen doc) with
    | (true, fs1) => (none, fs1)
    | (false, fs1) => (some .writeSnapshot, fs1)

/-- SnapshotService.Create: make the directory for a fresh id, collect the state, back up the
managed files, write `state.json`. -/
def SnapshotService.Create (s : SnapshotService) (env : Env) (fs : FS) :
    Except SvcError Snapshot × FS :=
  let timestamp := env.now
  let id := snapshotID timestamp
  let snapshotDir := joinPath s.snapshotsDir [id]
  match (if env.mkdirSnapshotFails = true then none else EnsureDir fs snapshotDir) with
  | none => (.error .createSnapshotDir, fs)
  | some fs1 =>
    let state := collectCurrentState env.host
    let bk := createBackups env fs1 snapshotDir
    let snapshot : Snapshot :=
      ⟨id, timestamp, some state, bk.1, [(ascii "created_by", .str (ascii "nettune"))]⟩
    match s.saveSnapshot env bk.2 snapshot with
    | (some e, fs3) => (.error e, fs3)
    | (none, fs3) => (.ok snapshot, fs3)

/-- SnapshotService.Get: read and parse `state.json` of the snapshot directory. -/
def SnapshotService.Get (s : SnapshotService) (fs : FS) (id : GoString) :
    Except SvcError Snapshot :=
  let snapshotDir := joinPath s.snapshotsDir [id]
  let stateFile := joinPath snapshotDir [ascii "state.json"]
  match fs.readFile stateFile with
  | .error .notExist => .error .ErrSnapshotNotFound
  | .error .other => .error .readSnapshot
  | .ok (.other _) => .error .parseSnapshot
  | .ok (.json doc) =>
    match Snapshot.fromJson doc with
    | none => .error .parseSnapshot
    | some snapshot => .ok snapshot

/-- SnapshotService.calculateSnapshotSize: total length of the regular files under `dir`. -/
def calculateSnapshotSize (fs : FS) (dir : Path) : Nat :=
  fs.foldl (fun size e =>
    match e.2 with
    | .file _ n => if dir.isPrefixOf e.1 then size + n else size
    | .dir => size) 0

/-- The loop of SnapshotService.List over the directory entries: sub-directories whose snapshot
loads contribute their meta, everything else is skipped. -/
def SnapshotService.collectMetas (s : SnapshotService) (fs : FS) :
    List DirEntry → List SnapshotMeta → List SnapshotMeta
  | [], snapshots => snapshots
  | entry :: entries, snapshots =>
    if entry.IsDir = false then s.collectMetas fs entries snapshots
    else
      match s.Get fs entry.Name with
      | .error _ => s.collectMetas fs entries snapshots
      | .ok snapshot =>
        let m : SnapshotMeta :=
          { snapshot.ToMeta with
            Size := calculateSnapshotSize fs (joinPath s.snapshotsDir [entry.Name]) }
        s.collectMetas fs entries (snapshots ++ [m])

/-- SnapshotService.List (`List` names the list type here): the metas of all loadable snapshot
directories, newest first; no snapshots when the root does not exist. -/
def SnapshotService.listSnapshots (s : SnapshotService) (fs : FS) :
    Except SvcError (List SnapshotMeta) :=
  match fs.readDir s.snapshotsDir with
  | .error .notExist => .ok []
  | .error .other => .error .listSnapshots
  | .ok entries =>
    .ok (sortSlice (fun a b => decide (a.CreatedAt > b.CreatedAt)) (s.collectMetas fs entries []))

/-- SnapshotService.GetLatest: the snapshot named by the first listed meta. -/
def SnapshotService.GetLatest (s : SnapshotService) (fs : FS) : Except SvcError Snapshot :=
  match s.listSnapshots fs with
  | .error e => .error e
  | .ok snapshots =>
    match snapshots with
    | [] => .error .ErrSnapshotNotFound
    | m :: _ => s.Get fs m.ID

/-- The meta that the loop of SnapshotService.List produces for one directory entry, if any:
none for a non-directory and for a directory whose snapshot does not load. -/
def SnapshotService.metaOf (s : SnapshotService) (fs : FS) (entry : DirEntry) :
    Option SnapshotMeta :=
  if entry.IsDir = false then none
  else
    match s.Get fs entry.Name with
    | .error _ => none
    | .ok snapshot =>
      some ⟨snapshot.ID, snapshot.CreatedAt,
        calculateSnapshotSize fs (joinPath s.snapshotsDir [entry.Name])⟩

/-- Store invariant of the data model: the id recorded in a snapshot's `state.json` is the name
of its directory (saveSnapshot writes under `filepath.Join(root, snapshot.ID)`). -/
def SnapshotService.idsMatchDirs (s : SnapshotService) (fs : FS) : Prop :=
  ∀ entry ∈ fs.children s.snapshotsDir, ∀ snapshot,
    s.Get fs entry.Name = .ok snapshot → snapshot.ID = entry.Name

/-- A snapshot document with the given id and creation time and nothing else. -/
def exampleDoc (id ts : String) : Json :=
  .obj [(ascii "id", .str (ascii id)), (ascii "created_at", .str (ascii ts)),
    (ascii "state", .null), (ascii "backups", .obj [])]

/-- Example store under `/snap`: snapshots `a` (older) and `b` (newer), a directory `c` whose
`state.json` is not JSON, a directory `d` without `state.json`, and a stray regular file `e`. -/
def exampleStore : FS :=
  [([ascii "snap"], .dir),
    ([ascii "snap", ascii "a"], .dir),
    ([ascii "snap", ascii "a", ascii "state.json"],
      .file (.json (exampleDoc "a" "2024-01-01T00:00:00Z")) 90),
    ([ascii "snap", ascii "b"], .dir),
    ([ascii "snap", ascii "b", ascii "state.json"],
      .file (.json (exampleDoc "b" "2024-01-02T00:00:00Z")) 90),
    ([ascii "snap", ascii "c"], .dir),
    ([ascii "snap", ascii "c", ascii "state.json"], .file (.other (ascii "\x7b\"id\": \"c")) 10),
    ([ascii "snap", ascii "d"], .dir),
    ([ascii "snap", ascii "e"], .file (.other (ascii "notes")) 5)]

/-- Example environment: New Year 2024, a host with one sysctl value, an active unit and a
managed sysctl file, and the given failures of the atomic write. -/
def exampleEnv (wf : WriteFaults) : Env :=
  { now := unixTime 1704067200 0
    host := ⟨[(ascii "net.core.default_qdisc", ascii "fq")], [], true,
      fun f => if f = sysctlConfPath then .content (ascii "net.core.default_qdisc = fq\n")
        else .absent⟩
    tmpSuffix := ascii "1234567"
    jsonLen := fun _ => 512
    mkdirSnapshotFails := false
    mkdirBackupsFails := false
    writeBackupFails := false
    write := wf }

/-- A map is held canonically and is textual: keys strictly increasing and valid UTF-8, every
value satisfying `good`. -/
def GoMap.textual {V : Type} (good : V → Prop) (m : GoMap V) : Prop :=
  GoMap.sorted m ∧ ∀ kv ∈ m, validUTF8 kv.1 = true ∧ good kv.2

/-- All strings of a QdiscInfo are valid UTF-8. -/
def QdiscInfo.textual (q : QdiscInfo) : Prop :=
  validUTF8 q.QType = true ∧ validUTF8 q.Handle = true ∧
    GoMap.textual (fun v => Json.wellFormed v = true) q.Params

/-- All strings of a SystemState are valid UTF-8. -/
def SystemState.textual (st : SystemState) : Prop :=
  GoMap.textual (fun v => validUTF8 v = true) st.Sysctl ∧
  GoMap.textual (fun oq => ∀ q, oq = some q → q.textual) st.Qdisc ∧
  GoMap.textual (fun _ => True) st.SystemdUnits ∧
  GoMap.textual (fun v => validUTF8 v = true) st.FileHashes

/-- All strings of a Snapshot (id, map keys, values, backup contents, strings inside metadata
and qdisc parameters) are valid UTF-8, its maps being held in key order. -/
def Snapshot.textual (s : Snapshot) : Prop :=
  validUTF8 s.ID = true ∧ (∀ st, s.State = some st → st.textual) ∧
  GoMap.textual (fun v => validUTF8 v = true) s.Backups ∧
  GoMap.textual (fun v => Json.wellFormed v = true) s.Metadata

/-- Example snapshot whose only backup holds the given file content. -/
def exampleSnapshot (content : List Nat) : Snapshot :=
  { ID := ascii "2024-01-01T00-00-00Z_7c3efd4a"
    CreatedAt := unixTime 1704067200 0
    State := some
      { Sysctl := [(ascii "net.core.default_qdisc", ascii "fq")]
        Qdisc := [(ascii "eth0", some ⟨ascii "fq", ascii "8001:", []⟩)]
        SystemdUnits := [(NettuneQdiscServiceName, true)]
        FileHashes := [] }
    Backups := [(sysctlConfPath, content)]
    Metadata := [(ascii "created_by", .str (ascii "nettune"))] }

/-! ## History journal (`service/history.go`)

The journal file `journal.jsonl` is the list of its lines, or absent. Every line is complete
(it ends with its newline, as each line that appendEntry writes does) and within the token
limit of `bufio.Scanner`, so the scanner yields the lines one by one; opening an existing
journal for reading succeeds. -/

/-- Journal file: `none` when it does not exist, else its lines in file order. -/
abbrev Journal := Option (List Text)

/-- HistoryService: the cached last apply (directory, lock and logger left out). -/
structure HistoryService where
  lastApply : Option LastApplyInfo
deriving DecidableEq, Repr

/-- The function `json.Unmarshal` of one scanned line into a HistoryEntry. -/
def unmarshalEntry : Text → Option HistoryEntry
  | .json doc => HistoryEntry.fromJson doc
  | .other _ => none

/-- The scan loop of GetRecentEntries: lines that do not parse are skipped, the others are
appended in file order. -/
def scanEntries : List Text → List HistoryEntry → List HistoryEntry
  | [], entries => entries
  | line :: rest, entries =>
    match unmarshalEntry line with
    | none => scanEntries rest entries
    | some entry => scanEntries rest (entries ++ [entry])

/-- Exchange the elements at positions `i` and `j`. -/
def swapAt {α : Type} (l : List α) (i j : Nat) : List α :=
  match l.get? i, l.get? j with
  | some a, some b => (l.set i b).set j a
  | _, _ => l

/-- The reversal loop `for i, j := 0, len-1; i < j; i, j = i+1, j-1`, with the iteration count
bounded by `fuel`. -/
def reverseLoop {α : Type} : Nat → Int → Int → List α → List α
  | 0, _, _, l => l
  | fuel + 1, i, j, l =>
    if i < j then reverseLoop fuel (i + 1) (j - 1) (swapAt l i.toNat j.toNat) else l

/-- HistoryService.GetRecentEntries: the parsed entries, cut to the last `limit` when
`limit > 0`, newest first; nothing when the journal does not exist. -/
def GetRecentEntries (journal : Journal) (limit : Int) : List HistoryEntry :=
  match journal with
  | none => []
  | some lines =>
    let entries := scanEntries lines []
    let entries :=
      if limit > 0 ∧ (entries.length : Int) > limit then
        entries.drop ((entries.length : Int) - limit).toNat
      else entries
    reverseLoop entries.length 0 ((entries.length : Int) - 1) entries

/-- The loop of loadLastApply: the first successful apply in the given order. -/
def firstSuccessfulApply : List HistoryEntry → Option LastApplyInfo
  | [] => none
  | entry :: rest =>
    if entry.Action = ascii "apply" ∧ entry.Success = true then
      some ⟨entry.ProfileID, entry.Timestamp, entry.Success⟩
    else firstSuccessfulApply rest

/-- HistoryService.loadLastApply: scan the 100 most recent entries, newest first. -/
def HistoryService.loadLastApply (s : HistoryService) (journal : Journal) : HistoryService :=
  match firstSuccessfulApply (GetRecentEntries journal 100) with
  | some info => { s with lastApply := some info }
  | none => s

/-- NewHistoryService: `none` when the history directory cannot be made, else a service whose
last apply is loaded from the journal. -/
def NewHistoryService (mkdirFails : Bool) (journal : Journal) : Option HistoryService :=
  if mkdirFails = true then none
  else some (HistoryService.loadLastApply ⟨none⟩ journal)

/-- Steps of appendEntry that the environment makes fail. -/
structure AppendFaults where
  openFails : Bool
  writeFails : Bool
deriving DecidableEq, Repr

/-- HistoryService.appendEntry: open the journal for appending (creating it), marshal the entry,
write it as one line. Returns whether it succeeded, and the journal afterwards. -/
def appendEntry (af : AppendFaults) (journal : Journal) (entry : HistoryEntry) : Bool × Journal :=
  if af.openFails = true then (false, journal)
  else
    let lines := journal.getD []
    match entry.toJson with
    | none => (false, some lines)
    | some doc =>
      if af.writeFails = true then (false, some lines)
      else (true, some (lines ++ [.json doc]))

/-- HistoryService.GetLastApply. -/
def HistoryService.GetLastApply (s : HistoryService) : Option LastApplyInfo := s.lastApply

/-- HistoryService.RecordApply at instant `now`: the entry is appended (a failure is only
logged), and a successful apply replaces the cached last apply. -/
def HistoryService.RecordApply (s : HistoryService) (af : AppendFaults) (now : Time)
    (journal : Journal) (profileID snapshotID : GoString) (success : Bool) :
    HistoryService × Journal :=
  let entry : HistoryEntry := ⟨now, ascii "apply", profileID, snapshotID, success, []⟩
  let j := (appendEntry af journal entry).2
  if success = true then (⟨some ⟨profileID, entry.Timestamp, success⟩⟩, j) else (s, j)

/-- HistoryService.RecordRollback at instant `now`. -/
def HistoryService.RecordRollback (s : HistoryService) (af : AppendFaults) (now : Time)
    (journal : Journal) (snapshotID : GoString) (success : Bool) : HistoryService × Journal :=
  let entry : HistoryEntry := ⟨now, ascii "rollback", [], snapshotID, success, []⟩
  (s, (appendEntry af journal entry).2)

/-- HistoryService.RecordSnapshot at instant `now`. -/
def HistoryService.RecordSnapshot (s : HistoryService) (af : AppendFaults) (now : Time)
    (journal : Journal) (snapshotID : GoString) : HistoryService × Journal :=
  let entry : HistoryEntry := ⟨now, ascii "snapshot", [], snapshotID, true, []⟩
  (s, (appendEntry af journal entry).2)

/-- One recording call on a HistoryService, with the instant at which it runs. -/
inductive Call
  | apply (now : Time) (profileID snapshotID : GoString) (success : Bool)
  | rollback (now : Time) (snapshotID : GoString) (success : Bool)
  | snapshot (now : Time) (snapshotID : GoString)
deriving DecidableEq, Repr

/-- Run one call with no injected failure. -/
def HistoryService.step (st : HistoryService × Journal) (c : Call) : HistoryService × Journal :=
  match c with
  | .apply now p sn ok => st.1.RecordApply ⟨false, false⟩ now st.2 p sn ok
  | .rollback now sn ok => st.1.RecordRollback ⟨false, false⟩ now st.2 sn ok
  | .snapshot now sn => st.1.RecordSnapshot ⟨false, false⟩ now st.2 sn

/-- Run a sequence of calls, in order. -/
def HistoryService.run (st : HistoryService × Journal) (calls : List Call) :
    HistoryService × Journal :=
  calls.foldl HistoryService.step st

/-- The journal entry that a call records. -/
def Call.entry : Call → HistoryEntry
  | .apply now p sn ok => ⟨now, ascii "apply", p, sn, ok, []⟩
  | .rollback now sn ok => ⟨now, ascii "rollback", [], sn, ok, []⟩
  | .snapshot now sn => ⟨now, ascii "snapshot", [], sn, true, []⟩

/-- Whether the call is a RecordApply with `success = true`. -/
def Call.isSuccessfulApply : Call → Bool
  | .apply _ _ _ ok => ok
  | _ => false

/-- Whether an entry is an apply that succeeded (the test of loadLastApply). -/
def HistoryEntry.isSuccessfulApply (e : HistoryEntry) : Bool :=
  decide (e.Action = ascii "apply" ∧ e.Success = true)

/-- The entry as it reads back from its journal line: its strings after the UTF-8 coercion. -/
def HistoryEntry.readBack (e : HistoryEntry) : HistoryEntry :=
  ⟨e.Timestamp, toValidUTF8 e.Action, toValidUTF8 e.ProfileID, toValidUTF8 e.SnapshotID,
    e.Success, []⟩

/-- The instant at which a call runs. -/
def Call.now (c : Call) : Time := c.entry.Timestamp

/-- First instant of year 10000: timestamps before it can be written as JSON. -/
def year10000 : Time := 315537897600000000000

/-! ## The journal as bytes: `json.Marshal` of an entry, and `bufio.Scanner`

What appendEntry writes is the compact text of `json.Marshal` followed by a newline; what
GetRecentEntries reads are the lines that a `bufio.Scanner` with its default buffer delivers. -/

/-- What the encoder writes for a byte below `0x80` inside a string (`appendString` with HTML
escaping on): a two-character escape for `\`, `"`, backspace, form feed, newline, carriage
return and tab, `\u00XX` for the other control bytes and for `<`, `>`, `&`, else the byte. -/
def escapeASCII (b : Nat) : GoString :=
  if b = 92 ∨ b = 34 then [92, b]
  else if b = 8 then [92, 98]
  else if b = 12 then [92, 102]
  else if b = 10 then [92, 110]
  else if b = 13 then [92, 114]
  else if b = 9 then [92, 116]
  else if b < 0x20 ∨ b = 60 ∨ b = 62 ∨ b = 38 then
    [92, 117, 48, 48, hexDigit (b / 16), hexDigit (b % 16)]
  else [b]

/-- Scan of `appendString` with `pending` bytes of the current sequence still to pass (copied
when `keep`, dropped otherwise): an invalid byte becomes the six-character escape of U+FFFD,
the separators U+2028 and U+2029 become their six-character escapes, any other sequence is
copied. -/
def appendStringAux : Nat → Bool → GoString → GoString
  | _, _, [] => []
  | k + 1, keep, b :: rest => (if keep then [b] else []) ++ appendStringAux k keep rest
  | 0, _, b :: rest =>
    if b < 0x80 then escapeASCII b ++ appendStringAux 0 true rest
    else
      match utf8Width (b :: rest) with
      | 0 => [92, 117, 102, 102, 102, 100] ++ appendStringAux 0 true rest
      | w + 1 =>
        if (b :: rest).take 3 = [0xE2, 0x80, 0xA8] then
          [92, 117, 50, 48, 50, 56] ++ appendStringAux w false rest
        else if (b :: rest).take 3 = [0xE2, 0x80, 0xA9] then
          [92, 117, 50, 48, 50, 57] ++ appendStringAux w false rest
        else b :: appendStringAux w true rest

/-- The text `json.Marshal` writes for a Go string: quoted and escaped. -/
def marshalString (s : GoString) : GoString := 34 :: appendStringAux 0 true s ++ [34]

mutual
/-- The compact text `json.Marshal` writes for a value held in an `interface{}` (a number is
written by its literal). -/
def Json.marshal : Json → GoString
  | .null => ascii "null"
  | .bool b => if b then ascii "true" else ascii "false"
  | .num lit => lit
  | .str s => marshalString s
  | .arr xs => 91 :: Json.marshalList xs ++ [93]
  | .obj kvs => 123 :: Json.marshalMembers kvs ++ [125]
/-- Elements of an array, separated by commas. -/
def Json.marshalList : List Json → GoString
  | [] => []
  | x :: xs => x.marshal ++ (if xs.isEmpty then [] else [44]) ++ Json.marshalList xs
/-- Members of an object, separated by commas. -/
def Json.marshalMembers : List (GoString × Json) → GoString
  | [] => []
  | (k, v) :: kvs =>
    marshalString k ++ 58 :: v.marshal ++ (if kvs.isEmpty then [] else [44])
      ++ Json.marshalMembers kvs
end

/-- The function `json.Marshal` on a HistoryEntry, as bytes: the members in field order, the
timestamp as quoted RFC 3339 text, `profile_id`, `snapshot_id` and `details` omitted when
empty; an error (`none`) when the timestamp cannot be written. -/
def HistoryEntry.marshal (e : HistoryEntry) : Option GoString :=
  match formatRFC3339Nano e.Timestamp with
  | none => none
  | some ts =>
    some (ascii "\x7b\"timestamp\":\"" ++ ts ++ ascii "\",\"action\":" ++ marshalString e.Action
      ++ (if e.ProfileID.isEmpty then [] else ascii ",\"profile_id\":" ++ marshalString e.ProfileID)
      ++ (if e.SnapshotID.isEmpty then []
          else ascii ",\"snapshot_id\":" ++ marshalString e.SnapshotID)
      ++ ascii ",\"success\":" ++ (if e.Success then ascii "true" else ascii "false")
      ++ (if e.Details.isEmpty then []
          else ascii ",\"details\":" ++ Json.marshal (encMap Json.coerce e.Details))
      ++ ascii "\x7d")

/-- The bytes that appendEntry hands to `file.WriteString`: `string(data) + "\n"`. -/
def HistoryEntry.line (e : HistoryEntry) : Option GoString :=
  (e.marshal).map (fun data => data ++ [10])

/-- Run one recording call, with the given failures of the append. -/
def HistoryService.record (af : AppendFaults) (st : HistoryService × Journal) (c : Call) :
    HistoryService × Journal :=
  match c with
  | .apply now p sn ok => st.1.RecordApply af now st.2 p sn ok
  | .rollback now sn ok => st.1.RecordRollback af now st.2 sn ok
  | .snapshot now sn => st.1.RecordSnapshot af now st.2 sn

/-- One operation on the history service of a history directory: a recording call, a read, or
the construction of a new service over the directory. -/
inductive Op
  | record (c : Call)
  | getRecentEntries (limit : Int)
  | getLastApply
  | construct (mkdirFails : Bool)
deriving DecidableEq, Repr

/-- Service and journal after one operation. The reads and the construction only open the
journal for reading (`os.Open`); the construction replaces the service when it succeeds. -/
def HistoryService.exec (af : AppendFaults) (st : HistoryService × Journal) :
    Op → HistoryService × Journal
  | .record c => HistoryService.record af st c
  | .getRecentEntries _ => st
  | .getLastApply => st
  | .construct mkdirFails => ((NewHistoryService mkdirFails st.2).getD st.1, st.2)

/-- MaxScanTokenSize of `bufio`: the size of the largest buffer a Scanner allocates. -/
def MaxScanTokenSize : Nat := 64 * 1024

/-- One line of the journal file: what it holds, and its length in bytes without the newline. -/
structure FileLine where
  text : Text
  size : Nat
deriving DecidableEq, Repr

/-- The tokens `scanner.Scan()` delivers with the default buffer: the lines in file order up
to the first one that, with its newline, does not fit into `MaxScanTokenSize` bytes; there Scan
returns false (ErrTooLong) and the loop of GetRecentEntries ends. -/
def scanLines : List FileLine → List Text
  | [] => []
  | l :: rest => if l.size < MaxScanTokenSize then l.text :: scanLines rest else []

/-- HistoryService.GetRecentEntries on the journal file: the scan loop runs over the lines the
scanner delivers; `scanner.Err()` is not consulted. -/
def GetRecentEntriesOfFile (file : Option (List FileLine)) (limit : Int) : List HistoryEntry :=
  GetRecentEntries (file.map scanLines) limit

/-- The line that appendEntry writes for an entry: its JSON encoding, with the length of the
bytes of `json.Marshal`. -/
def FileLine.ofEntry (e : HistoryEntry) : FileLine :=
  ⟨.json ((e.toJson).getD .null), ((e.marshal).getD []).length⟩

/-- A line holding the given bytes, which are not a JSON text. -/
def FileLine.ofBytes (bytes : List Nat) : FileLine := ⟨.other bytes, bytes.length⟩

/-! ## Sysctl value normalisation (apply service)

The apply service is not part of the sources at hand; its value normalisation is taken from
the specification. White space is the ASCII white space of `strings.Fields`: tab, line feed,
vertical tab, form feed, carriage return and space. -/

/-- ASCII white space (`asciiSpace` of package `strings`). -/
def isSpace (b : Nat) : Bool := b == 32 || (decide (9 ≤ b) && decide (b ≤ 13))

/-- Replace every run of white space by a single space; `inRun` says that the byte before
was white space already. -/
def collapseRuns : Bool → GoString → GoString
  | _, [] => []
  | inRun, b :: rest =>
    if isSpace b then
      if inRun then collapseRuns true rest else 32 :: collapseRuns true rest
    else b :: collapseRuns false rest

/-- Drop leading white space. -/
def trimLeft (s : GoString) : GoString := s.dropWhile isSpace

/-- Drop trailing white space. -/
def trimRight : GoString → GoString
  | [] => []
  | b :: rest => if (trimRight rest).isEmpty ∧ isSpace b = true then [] else b :: trimRight rest

/-- Drop leading and trailing white space. -/
def trimSpace (s : GoString) : GoString := trimLeft (trimRight s)

/-- Modelled from the spec: normalizeSysctlValue of the apply service, whose source is not
among the files at hand (only TestNormalizeSysctlValue calls it). The specification says:
"Normalise both the profile value and the observed value by collapsing interior runs of
whitespace to a single space and trimming." -/
def normalizeSysctlValue (s : GoString) : GoString := trimSpace (collapseRuns false s)

/-- Scan of `strings.Fields` with the field under way in `cur`: white space ends a field, any
other byte extends it. -/
def fieldsAux : GoString → GoString → List GoString
  | cur, [] => if cur.isEmpty then [] else [cur]
  | cur, b :: rest =>
    if isSpace b then
      if cur.isEmpty then fieldsAux [] rest else cur :: fieldsAux [] rest
    else fieldsAux (cur ++ [b]) rest

/-- The function `strings.Fields`: the maximal runs of bytes that are not white space. -/
def fields (s : GoString) : List GoString := fieldsAux [] s

/-- The function `strings.Join`. -/
def joinWith (sep : GoString) : List GoString → GoString
  | [] => []
  | [a] => a
  | a :: b :: rest => a ++ sep ++ joinWith sep (b :: rest)

/-! ## Rate limiter (`api/middleware/ratelimit.go`)

The instant of a call is the reading of `time.Now()` inside the lock; it is passed in. -/

/-- Time.Sub: the duration `t - u`, saturated to the range of an `int64`. -/
def Time.Sub (t u : Time) : Int :=
  max (-9223372036854775808) (min 9223372036854775807 ((t : Int) - (u : Int)))

/-- The `bucket` of one key. -/
structure Bucket where
  tokens : Int
  lastReset : Time
deriving DecidableEq, Repr

/-- RateLimiter: the buckets by key, the number of requests per interval, the interval in
nanoseconds (the lock is left out). -/
structure RateLimiter where
  requests : GoMap Bucket
  rate : Int
  interval : Int
deriving DecidableEq, Repr

/-- NewRateLimiter. -/
def NewRateLimiter (rate : Int) (interval : Int) : RateLimiter := ⟨[], rate, interval⟩

/-- RateLimiter.Allow at the instant `now`: whether the request is allowed, and the limiter
afterwards. -/
def RateLimiter.Allow (r : RateLimiter) (now : Time) (key : GoString) : Bool × RateLimiter :=
  match r.requests.get? key with
  | none =>
    (true, { r with requests := r.requests.insert key ⟨wrapInt64 (r.rate - 1), now⟩ })
  | some b =>
    if Time.Sub now b.lastReset ≥ r.interval then
      (true, { r with requests := r.requests.insert key ⟨wrapInt64 (r.rate - 1), now⟩ })
    else if b.tokens > 0 then
      (true, { r with requests := r.requests.insert key ⟨wrapInt64 (b.tokens - 1), b.lastReset⟩ })
    else (false, r)

/-- Successive Allow calls for one key at the given instants: the answers in order, and the
limiter afterwards. -/
def RateLimiter.allowAll (r : RateLimiter) (key : GoString) : List Time → List Bool × RateLimiter
  | [] => ([], r)
  | now :: rest =>
    let a := r.Allow now key
    let b := RateLimiter.allowAll a.2 key rest
    (a.1 :: b.1, b.2)

/-- Successive Allow calls for the given keys at the given instants. -/
def RateLimiter.serve (r : RateLimiter) : List (Time × GoString) → List (GoString × Bool) × RateLimiter
  | [] => ([], r)
  | (now, key) :: rest =>
    let a := r.Allow now key
    let b := RateLimiter.serve a.2 rest
    ((key, a.1) :: b.1, b.2)

/-! ## HTTP middleware and handlers (`api/middleware/auth.go`, `api/handlers`)

A handler is held by what it does with the request: the JSON response it writes with `c.JSON`
(status and body, the body by its value), and the calls it makes. -/

/-- Response written with `c.JSON(status, body)`. -/
structure JSONResponse where
  status : Nat
  body : Json
deriving DecidableEq, Repr

/-- The body `gin.H{"success": false, "error": gin.H{"code": code, "message": message}}`; the
encoder writes the members of a map in key order. -/
def errorBody (code message : GoString) : Json :=
  .obj [(ascii "error", .obj [(ascii "code", encString code), (ascii "message", encString message)]),
    (ascii "success", .bool false)]

/-- The body `gin.H{"success": true, "data": data}`. -/
def successBody (data : Json) : Json :=
  .obj [(ascii "data", data), (ascii "success", .bool true)]

/-- The helper `badRequest` of the handlers. -/
def badRequest (message : GoString) : JSONResponse :=
  ⟨400, errorBody (ascii "INVALID_REQUEST") message⟩

/-- The helper `notFound` of the handlers. -/
def notFound (message : GoString) : JSONResponse :=
  ⟨404, errorBody (ascii "NOT_FOUND") message⟩

/-- The helper `internalError` of the handlers. -/
def internalError (message : GoString) : JSONResponse :=
  ⟨500, errorBody (ascii "INTERNAL_ERROR") message⟩

/-- The helper `errorResponse` of the handlers. -/
def errorResponse (statusCode : Nat) (code message : GoString) : JSONResponse :=
  ⟨statusCode, errorBody code message⟩

/-- The helper `success` of the handlers. -/
def success (data : Json) : JSONResponse := ⟨200, successBody data⟩

/-- The call `strings.SplitN(s, sep, 2)` for a one-byte separator: the text before the first
separator and the text after it, or the whole text when there is no separator. -/
def SplitN2 (s : GoString) (sep : Nat) : List GoString :=
  match s.dropWhile (fun c => c != sep) with
  | [] => [s]
  | _ :: after => [s.takeWhile (fun c => c != sep), after]

/-- The function `subtle.ConstantTimeCompare`: 1 when the slices have the same length and the
bitwise or of the bytewise differences is zero, else 0. -/
def ConstantTimeCompare (x y : List Nat) : Nat :=
  if x.length ≠ y.length then 0
  else if (List.zipWith (fun a b => a ^^^ b) x y).foldl (fun v d => v ||| d) 0 = 0 then 1 else 0

/-- What a middleware did: the response it wrote, whether it aborted the chain (`c.Abort()`),
whether it passed the request on (`c.Next()`). -/
structure MiddlewareOutcome where
  response : Option JSONResponse
  aborted : Bool
  next : Bool
deriving DecidableEq, Repr

/-- The 401 answer of BearerAuth, followed by `c.Abort()`. -/
def unauthorized (message : GoString) : MiddlewareOutcome :=
  ⟨some ⟨401, errorBody (ascii "UNAUTHORIZED") message⟩, true, false⟩

/-- BearerAuth(expectedKey) on a request whose `Authorization` header is `authorization`
(`none` when the request has no such header, for which `c.GetHeader` returns the empty
string). -/
def BearerAuth (expectedKey : GoString) (authorization : Option GoString) : MiddlewareOutcome :=
  let authHeader := authorization.getD []
  if authHeader = [] then unauthorized (ascii "missing authorization header")
  else
    let parts := SplitN2 authHeader 32
    if parts.length ≠ 2 ∨ parts.getD 0 [] ≠ ascii "Bearer" then
      unauthorized (ascii "invalid authorization header format")
    else if ConstantTimeCompare (parts.getD 1 []) expectedKey ≠ 1 then
      unauthorized (ascii "invalid api key")
    else ⟨none, false, true⟩

/-! ## Probe download handler (`api/handlers/probe.go`) and `strconv.ParseInt` -/

/-- The two errors of package `strconv`: ErrSyntax and ErrRange. -/
inductive NumError
  | ErrSyntax
  | ErrRange
deriving DecidableEq, Repr

/-- The digit loop of `strconv.ParseUint(s, 10, 64)` with the value read so far in `n`: a byte
that is not a decimal digit gives ErrSyntax; a product or sum that leaves the range of a
`uint64` gives ErrRange. -/
def parseUintLoop : GoString → Nat → Except NumError Nat
  | [], n => .ok n
  | c :: rest, n =>
    if 48 ≤ c ∧ c ≤ 57 then
      if n ≥ 18446744073709551615 / 10 + 1 then .error .ErrRange
      else
        let n10 := n * 10 % 18446744073709551616
        let n1 := (n10 + (c - 48)) % 18446744073709551616
        if n1 < n10 ∨ n1 > 18446744073709551615 then .error .ErrRange
        else parseUintLoop rest n1
    else .error .ErrSyntax

/-- The function `strconv.ParseUint(s, 10, 64)`. -/
def ParseUint (s : GoString) : Except NumError Nat :=
  if s = [] then .error .ErrSyntax else parseUintLoop s 0

/-- The function `strconv.ParseInt(s, 10, 64)`: an optional sign, then the digits read by
ParseUint; a magnitude outside the range of an `int64` gives ErrRange. -/
def ParseInt (s : GoString) : Except NumError Int :=
  match s with
  | [] => .error .ErrSyntax
  | c :: rest =>
    let neg := decide (c = 45)
    let digits := if c = 43 ∨ c = 45 then rest else s
    match ParseUint digits with
    | .error .ErrSyntax => .error .ErrSyntax
    | .error .ErrRange => .error .ErrRange
    | .ok un =>
      if neg = false ∧ un ≥ 9223372036854775808 then .error .ErrRange
      else if neg = true ∧ un > 9223372036854775808 then .error .ErrRange
      else .ok (if neg then -(un : Int) else (un : Int))

/-- MaxDownloadBytes: 500 MB. -/
def MaxDownloadBytes : Int := 500 * 1024 * 1024

/-- How the streaming loop of the download handler ended. -/
inductive LoopEnd
  | done
  | failed
  | outOfFuel
deriving DecidableEq, Repr

/-- The loop `for written < bytes` of the download handler. `sink i n` is what the `i`-th
iteration meets when it hands `n` random bytes to `c.Writer.Write`: `none` when `rand.Read` or
the write fails (the handler returns), else the number of bytes that Write reports. The result
is how the loop ended, the final `written`, and the lengths of the chunks handed to Write.
`fuel` bounds the number of iterations. -/
def streamLoop (sink : Nat → Int → Option Int) (bytes : Int) :
    Nat → Nat → Int → List Int → LoopEnd × Int × List Int
  | fuel, i, written, chunks =>
    if written < bytes then
      match fuel with
      | 0 => (.outOfFuel, written, chunks)
      | fuel + 1 =>
        let bufSize : Int := 64 * 1024
        let toWrite := if bytes - written < bufSize then bytes - written else bufSize
        match sink i toWrite with
        | none => (.failed, written, chunks)
        | some n => streamLoop sink bytes fuel (i + 1) (wrapInt64 (written + n)) (chunks ++ [toWrite])
    else (.done, written, chunks)

/-- What the download handler did: the 400 answer, or the headers' Content-Length and the
outcome of the streaming loop. -/
inductive DownloadOutcome
  | rejected (response : JSONResponse)
  | streamed (contentLength : GoString) (ending : LoopEnd) (written : Int) (chunks : List Int)
deriving DecidableEq, Repr

/-- ProbeHandler.Download for a request whose query has the value `bytes` for the key `bytes`
(`none` when the key is absent, for which `c.DefaultQuery` gives `10485760`). -/
def ProbeHandler.Download (fuel : Nat) (sink : Nat → Int → Option Int) (bytes : Option GoString) :
    DownloadOutcome :=
  let bytesStr := bytes.getD (ascii "10485760")
  match ParseInt bytesStr with
  | .error _ => .rejected (badRequest (ascii "invalid bytes parameter"))
  | .ok n =>
    if n ≤ 0 then .rejected (badRequest (ascii "invalid bytes parameter"))
    else if n > MaxDownloadBytes then
      .rejected (badRequest (ascii "bytes exceeds maximum allowed (500MB)"))
    else
      let r := streamLoop sink n fuel 0 0 []
      .streamed (sprintfD n) r.1 r.2.1 r.2.2

/-- Text of a base-10 integer, as the claim words it: an optional sign followed by one or more
decimal digits; `decimalValue` is the number the digits denote. -/
def decimalValue (digits : GoString) : Nat := digits.foldl (fun a c => a * 10 + (c - 48)) 0

/-- The text `s` is a base-10 signed 64-bit integer with value `v`. -/
def IsInt64Text (s : GoString) (v : Int) : Prop :=
  ∃ digits : GoString, digits ≠ [] ∧ digits.all isDigit = true ∧
    ((s = digits ∨ s = 43 :: digits) ∧ v = (decimalValue digits : Int)
      ∨ s = 45 :: digits ∧ v = -(decimalValue digits : Int)) ∧
    -9223372036854775808 ≤ v ∧ v ≤ 9223372036854775807

/-- A writer that accepts every chunk in full. -/
def fullSink : Nat → Int → Option Int := fun _ n => some n

/-! ## Apply handler (`api/handlers/system.go`)

The apply service is not part of the sources at hand; the handler takes it as a function. The
body of a request is held as `encoding/json` reads it: `Text.json doc` when the decoder finds
a JSON text with value `doc`, `Text.other` when it does not (also for an empty body). -/

/-- ApplyRequest of `types/apply.go`. -/
structure ApplyRequest where
  ProfileID : GoString
  Mode : GoString
  AutoRollbackSeconds : Int
deriving DecidableEq, Repr

/-- Decoding into an `int`: the number literal must be a base-10 integer in range (`null`
leaves the zero value). -/
def decInt : Json → Option Int
  | .num lit =>
    match ParseInt lit with
    | .ok n => some n
    | .error _ => none
  | .null => some 0
  | _ => none

/-- The function `json.Unmarshal` into an ApplyRequest: `none` on a type error. -/
def ApplyRequest.fromJson : Json → Option ApplyRequest
  | .obj kvs =>
    match decString (Json.field kvs (ascii "profile_id")), decString (Json.field kvs (ascii "mode")),
      decInt (Json.field kvs (ascii "auto_rollback_seconds")) with
    | some p, some m, some a => some ⟨p, m, a⟩
    | _, _, _ => none
  | .null => some ⟨[], [], 0⟩
  | _ => none

/-- The call `c.ShouldBindJSON(&req)` for an ApplyRequest: the decoded request, or `none` when
the decoder reports an error. The struct has no `binding` tags, so nothing is validated. -/
def ShouldBindJSON (body : Text) : Option ApplyRequest :=
  match body with
  | .json doc => ApplyRequest.fromJson doc
  | .other _ => none

/-- The sentinel errors of package types that the handlers look for with `errors.Is`. -/
inductive Sentinel
  | ErrProfileNotFound
  | ErrSnapshotNotFound
  | ErrApplyInProgress
deriving DecidableEq, Repr

/-- An error returned by the apply service: for each sentinel whether the error's chain holds
it, and the text of `err.Error()`. -/
structure ApplyError where
  isProfileNotFound : Bool
  isSnapshotNotFound : Bool
  isApplyInProgress : Bool
  message : GoString
deriving DecidableEq, Repr

/-- The call `errors.Is(err, target)` for a sentinel target. -/
def errorsIs (err : ApplyError) : Sentinel → Bool
  | .ErrProfileNotFound => err.isProfileNotFound
  | .ErrSnapshotNotFound => err.isSnapshotNotFound
  | .ErrApplyInProgress => err.isApplyInProgress

/-- The sentinel itself as an error value, with the text of its `errors.New`. -/
def Sentinel.toError : Sentinel → ApplyError
  | .ErrProfileNotFound => ⟨true, false, false, ascii "profile not found"⟩
  | .ErrSnapshotNotFound => ⟨false, true, false, ascii "snapshot not found"⟩
  | .ErrApplyInProgress => ⟨false, false, true, ascii "another apply operation is in progress"⟩

/-- What the apply handler did: the response it wrote, and the requests it handed to the apply
service, in order. -/
structure ApplyOutcome where
  response : JSONResponse
  calls : List ApplyRequest
deriving DecidableEq, Repr

/-- SystemHandler.Apply. `applyService` is `h.applyService.Apply` with its result already
encoded; `errText` is the text of the binding error, when there is one. -/
def SystemHandler.Apply (applyService : ApplyRequest → Except ApplyError Json)
    (errText : GoString) (body : Text) : ApplyOutcome :=
  match ShouldBindJSON body with
  | none => ⟨badRequest errText, []⟩
  | some req =>
    if req.Mode ≠ ascii "dry_run" ∧ req.Mode ≠ ascii "commit" then
      ⟨badRequest (ascii "mode must be \x27dry_run\x27 or \x27commit\x27"), []⟩
    else
      match applyService req with
      | .error err =>
        if errorsIs err .ErrProfileNotFound = true then
          ⟨notFound (ascii "profile not found"), [req]⟩
        else if errorsIs err .ErrApplyInProgress = true then
          ⟨errorResponse 409 (ascii "APPLY_IN_PROGRESS")
            (ascii "another apply operation is in progress"), [req]⟩
        else ⟨internalError err.message, [req]⟩
      | .ok result => ⟨success result, [req]⟩

/-! ## Rollback handler (`api/handlers/system.go`) -/

/-- RollbackRequest of `types/apply.go`. -/
structure RollbackRequest where
  SnapshotID : GoString
  RollbackLast : Bool
deriving DecidableEq, Repr

/-- The function `json.Unmarshal` into a RollbackRequest: `none` on a type error. -/
def RollbackRequest.fromJson : Json → Option RollbackRequest
  | .obj kvs =>
    match decString (Json.field kvs (ascii "snapshot_id")),
      decBool (Json.field kvs (ascii "rollback_last")) with
    | some id, some last => some ⟨id, last⟩
    | _, _ => none
  | .null => some ⟨[], false⟩
  | _ => none

/-- The call `c.ShouldBindJSON(&req)` for a RollbackRequest. -/
def bindRollbackRequest (body : Text) : Option RollbackRequest :=
  match body with
  | .json doc => RollbackRequest.fromJson doc
  | .other _ => none

/-- The encoding of `types.RollbackResult{SnapshotID, Success: true, CurrentState}`; the empty
`errors` list is omitted. -/
def rollbackResultJson (snapshotID : GoString) (currentState : SystemState) : Json :=
  .obj [(ascii "snapshot_id", encString snapshotID), (ascii "success", .bool true),
    (ascii "current_state", currentState.toJson)]

/-- What the rollback handler did: the response it wrote, and the snapshot ids it handed to
`applyService.Rollback`, in order. -/
structure RollbackOutcome where
  response : JSONResponse
  calls : List GoString
deriving DecidableEq, Repr

/-- The part of SystemHandler.Rollback after the snapshot id is chosen: call the apply
service, map its error, or answer with the state collected after the rollback. -/
def rollbackTo (rollback : GoString → Option ApplyError) (host : Host) (snapshotID : GoString) :
    RollbackOutcome :=
  match rollback snapshotID with
  | some err =>
    if errorsIs err .ErrSnapshotNotFound = true then
      ⟨notFound (ascii "snapshot not found"), [snapshotID]⟩
    else if errorsIs err .ErrApplyInProgress = true then
      ⟨errorResponse 409 (ascii "APPLY_IN_PROGRESS") (ascii "another operation is in progress"),
        [snapshotID]⟩
    else ⟨internalError err.message, [snapshotID]⟩
  | none => ⟨success (rollbackResultJson snapshotID (collectCurrentState host)), [snapshotID]⟩

/-- SystemHandler.Rollback over the snapshot store `fs`. `rollback` is
`h.applyService.Rollback`, `host` what GetCurrentState finds after the rollback, `errText` the
text of the binding error and `storeText` the text of an error of GetLatest. -/
def SystemHandler.Rollback (s : SnapshotService) (fs : FS)
    (rollback : GoString → Option ApplyError) (host : Host) (errText : GoString)
    (storeText : SvcError → GoString) (body : Text) : RollbackOutcome :=
  match bindRollbackRequest body with
  | none => ⟨badRequest errText, []⟩
  | some req =>
    if req.RollbackLast = true then
      match s.GetLatest fs with
      | .error .ErrSnapshotNotFound => ⟨notFound (ascii "no snapshots available"), []⟩
      | .error e => ⟨internalError (storeText e), []⟩
      | .ok snapshot => rollbackTo rollback host snapshot.ID
    else if req.SnapshotID ≠ [] then rollbackTo rollback host req.SnapshotID
    else ⟨badRequest (ascii "either snapshot_id or rollback_last is required"), []⟩
/-! ## Sysctl adapter (`adapter/sysctl.go`) -/

/-- The call `strings.ReplaceAll(s, old, new)` for one-byte `old` and `new`. -/
def ReplaceAll (s : GoString) (old new : Nat) : GoString :=
  s.map (fun c => if c = old then new else c)

/-- Text of a cleaned absolute path: `/` for the root, otherwise `/` before each component. -/
def renderPath (p : Path) : GoString :=
  if p = [] then [47] else p.flatMap (fun c => 47 :: c)

/-- SysctlManager.keyToPath: every `.` of the key becomes `/`, and the result is joined to
`/proc/sys` with `filepath.Join`. -/
def keyToPath (key : GoString) : GoString :=
  let pathKey := ReplaceAll key 46 47
  renderPath (joinPath [ascii "proc", ascii "sys"] [pathKey])

/-- What the host answers to the two system calls of Set, for a state `σ` of the host:
`os.WriteFile(path, value, 0644)` gives the text of its error, if any, and the state after it;
running `sysctl -w arg` gives, when it fails, the text of the error and the combined output,
and the state after it. -/
structure SysctlHost (σ : Type) where
  writeFile : σ → GoString → GoString → Option GoString × σ
  sysctlW : σ → GoString → Option (GoString × GoString) × σ

/-- SysctlManager.setViaSysctl: run `sysctl -w key=value`. -/
def setViaSysctl {σ : Type} (h : SysctlHost σ) (st : σ) (key value : GoString) :
    Option GoString × σ :=
  match h.sysctlW st (key ++ ascii "=" ++ value) with
  | (some (err, output), st1) =>
    (some (ascii "sysctl -w " ++ key ++ ascii "=" ++ value ++ ascii " failed: " ++ err
      ++ ascii "\noutput: " ++ output), st1)
  | (none, st1) => (none, st1)

/-- SysctlManager.Set: write the value under `/proc/sys`, and fall back to the `sysctl` command
when the write fails. The result is the text of the error, if any, and the state after. -/
def SysctlManager.Set {σ : Type} (h : SysctlHost σ) (st : σ) (key value : GoString) :
    Option GoString × σ :=
  let path := keyToPath key
  match h.writeFile st path value with
  | (some _, st1) => setViaSysctl h st1 key value
  | (none, st1) => (none, st1)

/-- State of the loop of SetMultiple: the host, the `errors` slice, and the Set calls made so
far, in order. -/
structure SetLoop (σ : Type) where
  state : σ
  errors : List GoString
  calls : List (GoString × GoString)

/-- One pass of the loop of SetMultiple, for the entry `key`, `value`. -/
def SysctlManager.setEntry {σ : Type} (h : SysctlHost σ) (l : SetLoop σ)
    (entry : GoString × GoString) : SetLoop σ :=
  match SysctlManager.Set h l.state entry.1 entry.2 with
  | (some err, st1) =>
    ⟨st1, l.errors ++ [entry.1 ++ ascii ": " ++ err], l.calls ++ [entry]⟩
  | (none, st1) => ⟨st1, l.errors, l.calls ++ [entry]⟩

/-- What SetMultiple did: the text of the error it returned, if any, the state of the host
after it, and the Set calls it made, in order. -/
structure SetMultipleOutcome (σ : Type) where
  err : Option GoString
  state : σ
  calls : List (GoString × GoString)

/-- SysctlManager.SetMultiple. `values` holds the entries of the map in the order in which the
`range` loop visits them: each entry once, in an order the runtime chooses. -/
def SysctlManager.SetMultiple {σ : Type} (h : SysctlHost σ) (st : σ)
    (values : List (GoString × GoString)) : SetMultipleOutcome σ :=
  let l := values.foldl (SysctlManager.setEntry h) ⟨st, [], []⟩
  if l.errors.length > 0 then
    ⟨some (ascii "failed to set some sysctl values: " ++ joinWith (ascii "; ") l.errors),
      l.state, l.calls⟩
  else ⟨none, l.state, l.calls⟩

/-- Example host: the state is the list of the values in force; a write under `/proc/sys`
succeeds for the two buffer-size keys only, and the `sysctl` command refuses every key but
`net.ipv4.tcp_congestion_control`. -/
def exampleSysctlHost : SysctlHost (List (GoString × GoString)) where
  writeFile := fun st path value =>
    if path = ascii "/proc/sys/net/core/rmem_max" ∨ path = ascii "/proc/sys/net/core/wmem_max"
    then (none, st ++ [(path, value)])
    else (some (ascii "open " ++ path ++ ascii ": permission denied"), st)
  sysctlW := fun st arg =>
    if (ascii "net.ipv4.tcp_congestion_control=").isPrefixOf arg = true
    then (none, st ++ [(ascii "sysctl", arg)])
    else (some (ascii "exit status 255", ascii "sysctl: cannot stat\n"), st)

/-- The state of the host after Set has been called for each of the entries in turn. -/
def stateAfter {σ : Type} (h : SysctlHost σ) : σ → List (GoString × GoString) → σ
  | st, [] => st
  | st, entry :: rest => stateAfter h (SysctlManager.Set h st entry.1 entry.2).2 rest

/-- The item that the composite error holds for one entry whose Set is called in state `st`:
`key: error` when that Set fails, nothing when it succeeds. -/
def failedItem {σ : Type} (h : SysctlHost σ) (st : σ) (entry : GoString × GoString) :
    List GoString :=
  match (SysctlManager.Set h st entry.1 entry.2).1 with
  | some err => [entry.1 ++ ascii ": " ++ err]
  | none => []

/-- The items of the composite error for a run of Set calls over the entries from state `st`,
each call made in the state that the calls before it left. -/
def failedItems {σ : Type} (h : SysctlHost σ) : σ → List (GoString × GoString) → List GoString
  | _, [] => []
  | st, entry :: rest =>
    failedItem h st entry ++ failedItems h (SysctlManager.Set h st entry.1 entry.2).2 rest
/-- Example environment whose host has both managed files: the sysctl configuration file and
the generated qdisc setup script. -/
def scriptEnv : Env :=
  { exampleEnv WriteFaults.none with
    host := ⟨[(ascii "net.core.default_qdisc", ascii "fq")], [], true,
      fun f => if f = sysctlConfPath then .content (ascii "net.core.default_qdisc = fq\n")
        else if f = NettuneQdiscScriptPath then
          .content (ascii "#!/bin/sh\ntc qdisc replace dev eth0 root fq\n")
        else .absent⟩ }

/-! ## Throughput test (`client/probe/throughput.go`) -/

/-- The values of `bytes`, `parallel` and `bytesPerConnection` after the first lines of
TestDownload and TestUpload: the defaults for arguments that are not positive, and the
truncating division of int64. -/
structure ThroughputPlan where
  bytes : Int
  parallel : Int
  bytesPerConnection : Int
deriving DecidableEq, Repr

/-- The first lines shared by TestDownload and TestUpload. -/
def throughputPlan (bytes parallel : Int) : ThroughputPlan :=
  let bytes := if bytes ≤ 0 then 100 * 1024 * 1024 else bytes
  let parallel := if parallel ≤ 0 then 1 else parallel
  ⟨bytes, parallel, Int.tdiv bytes parallel⟩

/-- The loop `for i := 0; i < parallel; i++` that starts the connections: the argument of
each call started, in order of `i`. -/
def startLoop (parallel : Int) (arg : Int) : Nat → Int → List Int
  | 0, _ => []
  | fuel + 1, i => if i < parallel then arg :: startLoop parallel arg fuel (i + 1) else []

/-- ThroughputTester.TestDownload, by the calls `ProbeDownload(bytesPerConnection)` that it
starts: the number of bytes each connection asks for. -/
def TestDownload (bytes parallel : Int) : List Int :=
  let plan := throughputPlan bytes parallel
  startLoop plan.parallel plan.bytesPerConnection plan.parallel.toNat 0

/-- ThroughputTester.TestUpload, by the calls `ProbeUpload(data)` that it starts: the length of
the data each connection sends, `data` being `make([]byte, bytesPerConnection)`. -/
def TestUpload (bytes parallel : Int) : List Int :=
  let plan := throughputPlan bytes parallel
  startLoop plan.parallel plan.bytesPerConnection plan.parallel.toNat 0
/-! ## Request size limit (`api/middleware/ratelimit.go`)

A reader is held by its state and the function that a call `Read(p)` computes from the state
and `len(p)`: the count `n` it reports, the bytes it stored at the start of `p`, the error, and
the state after the call. -/

/-- Error value of a Read: `io.EOF`, the `requestTooLargeError` of the middleware (whose text is
`request body too large`), or any other error. -/
inductive ReadErr
  | EOF
  | requestTooLarge
  | other (text : GoString)
deriving DecidableEq, Repr

/-- The method `requestTooLargeError.Error`. -/
def requestTooLargeError.Error : GoString := ascii "request body too large"

/-- Result of a call `Read(p)`: the count, the bytes stored into `p`, the error. -/
structure ReadResult where
  n : Nat
  data : List Nat
  err : Option ReadErr
deriving DecidableEq, Repr

/-- The method `Read` of a reader with state `σ`, as a function of the state and `len(p)`. -/
abbrev Reader (σ : Type) := σ → Nat → ReadResult × σ

/-- The struct limitedReader: the underlying reader (by its state) and the bytes remaining. -/
structure limitedReader (σ : Type) where
  r : σ
  remaining : Int

/-- The function newLimitedReader. -/
def newLimitedReader {σ : Type} (r : σ) (limit : Int) : limitedReader σ := ⟨r, limit⟩

/-- What a call of limitedReader.Read did: its result, the limitedReader after it, and the
length of the buffer it handed to the underlying reader (`none` when it did not call it). -/
structure ReadOutcome (σ : Type) where
  result : ReadResult
  reader : limitedReader σ
  underlying : Option Nat

/-- The method limitedReader.Read for a buffer of `p` bytes. -/
def limitedReader.Read {σ : Type} (read : Reader σ) (l : limitedReader σ) (p : Nat) :
    ReadOutcome σ :=
  if l.remaining ≤ 0 then ⟨⟨0, [], some .requestTooLarge⟩, l, none⟩
  else
    let p1 := if (p : Int) > l.remaining then l.remaining.toNat else p
    let res := read l.r p1
    ⟨res.1, ⟨res.2, wrapInt64 (l.remaining - (res.1.n : Int))⟩, some p1⟩

/-- A sequence of Read calls with buffers of the given lengths: the outcome of each call. -/
def limitedReader.readAll {σ : Type} (read : Reader σ) :
    limitedReader σ → List Nat → List (ReadOutcome σ)
  | _, [] => []
  | l, p :: ps => l.Read read p :: limitedReader.readAll read (l.Read read p).reader ps

/-- The limitedReader after a sequence of Read calls with buffers of the given lengths. -/
def limitedReader.after {σ : Type} (read : Reader σ) :
    limitedReader σ → List Nat → limitedReader σ
  | l, [] => l
  | l, p :: ps => limitedReader.after read (l.Read read p).reader ps

/-- Total of the counts that a sequence of Read calls returned. -/
def totalRead {σ : Type} (outs : List (ReadOutcome σ)) : Nat :=
  (outs.map (fun o => o.result.n)).sum

/-- A request body as a reader: the state is the bytes not yet read. A call with an empty
buffer reads nothing; a call at the end of the body reports `io.EOF`; any other call delivers
the next bytes, as many as fit the buffer and at most `grain`, and reports `io.EOF` with the
last bytes when `eofWithData` is set (an `io.Reader` may do either). -/
def bodyRead (grain : Nat) (eofWithData : Bool) : Reader (List Nat) := fun data p =>
  if data = [] then (⟨0, [], some .EOF⟩, data)
  else if p = 0 then (⟨0, [], none⟩, data)
  else
    let n := min p (min grain data.length)
    (⟨n, data.take n, if eofWithData = true ∧ n = data.length then some .EOF else none⟩,
      data.drop n)

/-- Read through the limitedReader with buffers of `p` bytes until a Read returns an error, at
most `fuel` times: the bytes delivered, and the error that ended the reading (`none` when the
calls ran out first). -/
def readToEnd {σ : Type} (read : Reader σ) (p : Nat) :
    Nat → limitedReader σ → List Nat → List Nat × Option ReadErr
  | 0, _, acc => (acc, none)
  | fuel + 1, l, acc =>
    match (l.Read read p).result.err with
    | some e => (acc ++ (l.Read read p).result.data, some e)
    | none => readToEnd read p fuel (l.Read read p).reader (acc ++ (l.Read read p).result.data)
/-! ## API response helpers (`api/response.go`) -/

/-- The struct types.APIError. -/
structure APIError where
  Code : GoString
  Message : GoString
  Details : GoString
deriving DecidableEq, Repr

/-- The struct api.ErrorInfo. -/
structure ErrorInfo where
  Code : GoString
  Message : GoString
  Details : GoString
deriving DecidableEq, Repr

/-- The struct api.Response; `Data` is `none` for the nil interface value and otherwise the
encoding of the value, `Error` is `none` for the nil pointer. -/
structure Response where
  Success : Bool
  Data : Option Json
  Error : Option ErrorInfo
deriving DecidableEq, Repr

/-- Encoding of an ErrorInfo: `code`, `message`, and `details` unless it is empty
(`omitempty`). -/
def ErrorInfo.toJson (e : ErrorInfo) : Json :=
  .obj ([(ascii "code", encString e.Code), (ascii "message", encString e.Message)]
    ++ (if e.Details = [] then [] else [(ascii "details", encString e.Details)]))

/-- Encoding of a Response: `success`, then `data` unless it is nil, then `error` unless it is
nil (`omitempty`). -/
def Response.toJson (r : Response) : Json :=
  .obj ([(ascii "success", .bool r.Success)]
    ++ (match r.Data with
        | some data => [(ascii "data", data)]
        | none => [])
    ++ (match r.Error with
        | some e => [(ascii "error", e.toJson)]
        | none => []))

/-- What a call `c.JSON(status, response)` of a helper writes. -/
structure Written where
  status : Int
  body : Response
deriving DecidableEq, Repr

/-- The helper api.Success. -/
def api.Success (data : Option Json) : Written := ⟨200, ⟨true, data, none⟩⟩

/-- The helper api.SuccessWithStatus. -/
def api.SuccessWithStatus (status : Int) (data : Option Json) : Written :=
  ⟨status, ⟨true, data, none⟩⟩

/-- The helper api.Error. -/
def api.Error (statusCode : Int) (code message : GoString) : Written :=
  ⟨statusCode, ⟨false, none, some ⟨code, message, []⟩⟩⟩

/-- The helper api.ErrorWithDetails. -/
def api.ErrorWithDetails (statusCode : Int) (code message details : GoString) : Written :=
  ⟨statusCode, ⟨false, none, some ⟨code, message, details⟩⟩⟩

/-- The helper api.ErrorFromAPIError; a nil `err` makes it fail (nil pointer dereference) before
anything is written. -/
def api.ErrorFromAPIError (statusCode : Int) (err : Option APIError) : Option Written :=
  match err with
  | none => none
  | some e => some ⟨statusCode, ⟨false, none, some ⟨e.Code, e.Message, e.Details⟩⟩⟩

/-- The helper api.Unauthorized. -/
def api.Unauthorized (message : GoString) : Written := api.Error 401 (ascii "UNAUTHORIZED") message

/-- The helper api.BadRequest. -/
def api.BadRequest (message : GoString) : Written :=
  api.Error 400 (ascii "INVALID_REQUEST") message

/-- The helper api.NotFound. -/
def api.NotFound (message : GoString) : Written := api.Error 404 (ascii "NOT_FOUND") message

/-- The helper api.InternalError. -/
def api.InternalError (message : GoString) : Written :=
  api.Error 500 (ascii "INTERNAL_ERROR") message

/-- The envelope of the interface description, on the encoded body: an object whose members
are `success` (a boolean), then possibly `data`, then possibly `error`, the error being an
object with the strings `code` and `message` and possibly the string `details`. -/
def standardEnvelope : Json → Prop
  | .obj members =>
    ∃ (success : Bool) (data : Option Json)
        (error : Option (GoString × GoString × Option GoString)),
      members = [(ascii "success", .bool success)]
        ++ (match data with
            | some d => [(ascii "data", d)]
            | none => [])
        ++ (match error with
            | some (code, message, details) =>
              [(ascii "error", .obj ([(ascii "code", .str code), (ascii "message", .str message)]
                ++ (match details with
                    | some d => [(ascii "details", .str d)]
                    | none => [])))]
            | none => [])
  | _ => False

/-- A written response is a success envelope: the given status, `success` true, the given data
and no error, in the struct and in the encoded body. -/
def Written.isSuccess (w : Written) (status : Int) (data : Option Json) : Prop :=
  w.status = status ∧ w.body.Success = true ∧ w.body.Data = data ∧ w.body.Error = none ∧
  w.body.toJson = .obj ([(ascii "success", .bool true)]
    ++ (match data with
        | some d => [(ascii "data", d)]
        | none => [])) ∧
  standardEnvelope w.body.toJson

/-- A written response is an error envelope: the given status, `success` false, no data, and an
error object with exactly the given code, message and details, in the struct; in the encoded
body the members `success` and `error` only, the error with `code`, `message`, and `details`
when it is not empty. -/
def Written.isError (w : Written) (status : Int) (code message details : GoString) : Prop :=
  w.status = status ∧ w.body.Success = false ∧ w.body.Data = none ∧
  w.body.Error = some ⟨code, message, details⟩ ∧
  w.body.toJson = .obj [(ascii "success", .bool false),
    (ascii "error", .obj ([(ascii "code", encString code), (ascii "message", encString message)]
      ++ (if details = [] then [] else [(ascii "details", encString details)])))] ∧
  standardEnvelope w.body.toJson
/-! ## Deleting a snapshot (`SnapshotService.Delete`, `utils.DirExists`) -/

/-- The call `os.Stat(p)` succeeding on a directory: DirExists of `utils/file.go`. -/
def DirExists (fs : FS) (p : Path) : Bool :=
  decide (fs.checkDirs p.inits.dropLast = none) && decide (fs.node p = some .dir)

/-- The call `os.RemoveAll(p)`: `p` and everything below it is removed, except the nodes that
the system refuses to remove (`stuck`) and the directories above such a node. The call
succeeds when nothing at or below `p` is left. -/
def FS.removeAll (stuck : Path → Bool) (fs : FS) (p : Path) : Bool × FS :=
  let stays : Path → Bool := fun q =>
    !(p.isPrefixOf q) || fs.any (fun e => q.isPrefixOf e.1 && p.isPrefixOf e.1 && stuck e.1)
  let fs1 := fs.filter (fun e => stays e.1)
  (fs1.all (fun e => !(p.isPrefixOf e.1)), fs1)

/-- Errors of Delete: the sentinel ErrSnapshotNotFound, or the wrapped error of RemoveAll
(`failed to delete snapshot`). -/
inductive DeleteError
  | ErrSnapshotNotFound
  | deleteSnapshot
deriving DecidableEq, Repr

/-- SnapshotService.Delete: remove the directory `filepath.Join(snapshotsDir, id)` when it
exists. -/
def SnapshotService.Delete (stuck : Path → Bool) (s : SnapshotService) (fs : FS)
    (id : GoString) : Option DeleteError × FS :=
  let snapshotDir := joinPath s.snapshotsDir [id]
  if DirExists fs snapshotDir = false then (some .ErrSnapshotNotFound, fs)
  else
    match fs.removeAll stuck snapshotDir with
    | (false, fs1) => (some .deleteSnapshot, fs1)
    | (true, fs1) => (none, fs1)

/-- A snapshot id that is a plain directory name: not empty, without `/`, and neither `.` nor
`..`. -/
def plainName (id : GoString) : Prop :=
  id ≠ [] ∧ 47 ∉ id ∧ id ≠ [46] ∧ id ≠ [46, 46]
/-- Example store under `/snap` with one directory, named `x`, whose `state.json` records the
id `a`: the recorded id is not the name of the directory. -/
def renamedStore : FS :=
  [([ascii "snap"], .dir),
    ([ascii "snap", ascii "x"], .dir),
    ([ascii "snap", ascii "x", ascii "state.json"],
      .file (.json (exampleDoc "a" "2024-01-01T00:00:00Z")) 90)]

/-! ## Auxiliary lemmas -/

theorem strLess_cons_of_lt {a b : Nat} (xs ys : List Nat) (h : a < b) :
    strLess (a :: xs) (b :: ys) = true := by
  simp [strLess, h]

theorem strLess_cons_same {a : Nat} {xs ys : List Nat} (h : strLess xs ys = true) :
    strLess (a :: xs) (a :: ys) = true := by
  simp [strLess, h]

theorem strLess_append_same (p : List Nat) {xs ys : List Nat} (h : strLess xs ys = true) :
    strLess (p ++ xs) (p ++ ys) = true := by
  induction p with
  | nil => simpa using h
  | cons a p ih => exact strLess_cons_same ih

theorem appendInt2_less {a b : Nat} {r1 r2 : List Nat} (ha : a < 100) (hb : b < 100)
    (h : a < b ∨ (a = b ∧ strLess r1 r2 = true)) :
    strLess (appendInt a 2 ++ r1) (appendInt b 2 ++ r2) = true := by
  have ea : appendInt a 2 = [48 + a / 10 % 10, 48 + a % 10] := by
    simp [appendInt, padDigits, ha]
  have eb : appendInt b 2 = [48 + b / 10 % 10, 48 + b % 10] := by
    simp [appendInt, padDigits, hb]
  rw [ea, eb]
  rcases h with h | ⟨rfl, h⟩
  · by_cases h1 : a / 10 % 10 < b / 10 % 10
    · exact strLess_cons_of_lt _ _ (by omega)
    · have e : a / 10 % 10 = b / 10 % 10 := by omega
      rw [e]
      exact strLess_cons_same (strLess_cons_of_lt _ _ (by omega))
  · exact strLess_append_same _ h

theorem appendInt4_less {a b : Nat} {r1 r2 : List Nat} (ha : a < 10000) (hb : b < 10000)
    (h : a < b ∨ (a = b ∧ strLess r1 r2 = true)) :
    strLess (appendInt a 4 ++ r1) (appendInt b 4 ++ r2) = true := by
  have ea : appendInt a 4 =
      [48 + a / 10 / 10 / 10 % 10, 48 + a / 10 / 10 % 10, 48 + a / 10 % 10, 48 + a % 10] := by
    simp [appendInt, padDigits, ha]
  have eb : appendInt b 4 =
      [48 + b / 10 / 10 / 10 % 10, 48 + b / 10 / 10 % 10, 48 + b / 10 % 10, 48 + b % 10] := by
    simp [appendInt, padDigits, hb]
  rw [ea, eb]
  rcases h with h | ⟨rfl, h⟩
  · by_cases h1 : a / 10 / 10 / 10 % 10 < b / 10 / 10 / 10 % 10
    · exact strLess_cons_of_lt _ _ (by omega)
    · have e1 : a / 10 / 10 / 10 % 10 = b / 10 / 10 / 10 % 10 := by omega
      rw [e1]
      refine strLess_cons_same ?_
      by_cases h2 : a / 10 / 10 % 10 < b / 10 / 10 % 10
      · exact strLess_cons_of_lt _ _ (by omega)
      · have e2 : a / 10 / 10 % 10 = b / 10 / 10 % 10 := by omega
        rw [e2]
        refine strLess_cons_same ?_
        by_cases h3 : a / 10 % 10 < b / 10 % 10
        · exact strLess_cons_of_lt _ _ (by omega)
        · have e3 : a / 10 % 10 = b / 10 % 10 := by omega
          rw [e3]
          exact strLess_cons_same (strLess_cons_of_lt _ _ (by omega))
  · exact strLess_append_same _ h

set_option maxRecDepth 100000 in
theorem monthDay_step : ∀ leap : Bool, ∀ y : Fin 366,
    (monthDay leap y.val).1 < (monthDay leap (y.val + 1)).1 ∨
    ((monthDay leap y.val).1 = (monthDay leap (y.val + 1)).1 ∧
      (monthDay leap y.val).2 < (monthDay leap (y.val + 1)).2) := by
  decide

set_option maxRecDepth 100000 in
theorem monthDay_range : ∀ leap : Bool, ∀ y : Fin 367,
    (monthDay leap y.val).1 < 100 ∧ (monthDay leap y.val).2 < 100 := by
  decide

theorem yearDay_decomp (x : Nat) : ∃ n400 n100 n4 n1 d4 r1 r2 r3 : Nat,
    yearDay x = (400 * n400 + 100 * n100 + 4 * n4 + n1 + 1, d4) ∧
    (x = 146097 * n400 + r1 ∧ r1 < 146097) ∧
    (r1 = 36524 * n100 + r2 ∧ n100 ≤ 3 ∧ r2 ≤ 36524 ∧ (r2 = 36524 → n100 = 3)) ∧
    (r2 = 1461 * n4 + r3 ∧ r3 < 1461 ∧ n4 ≤ 24) ∧
    (r3 = 365 * n1 + d4 ∧ n1 ≤ 3 ∧ d4 ≤ 365 ∧ (d4 = 365 → n1 = 3)) := by
  simp only [yearDay]
  generalize h400 : x / 146097 = n400
  generalize hd1 : x - 146097 * n400 = d1
  generalize hn100 : d1 / 36524 - d1 / 36524 / 4 = n100
  generalize hd2 : d1 - 36524 * n100 = d2
  generalize hn4 : d2 / 1461 = n4
  generalize hd3 : d2 - 1461 * n4 = d3
  generalize hn1 : d3 / 365 - d3 / 365 / 4 = n1
  generalize hd4 : d3 - 365 * n1 = d4
  have f1 : x = 146097 * n400 + d1 ∧ d1 < 146097 := by omega
  have f2 : d1 = 36524 * n100 + d2 ∧ n100 ≤ 3 ∧ d2 ≤ 36524 ∧ (d2 = 36524 → n100 = 3) := by omega
  have f3 : d2 = 1461 * n4 + d3 ∧ d3 < 1461 ∧ n4 ≤ 24 := by omega
  have f4 : d3 = 365 * n1 + d4 ∧ n1 ≤ 3 ∧ d4 ≤ 365 ∧ (d4 = 365 → n1 = 3) := by omega
  exact ⟨n400, n100, n4, n1, d4, d1, d2, d3, rfl, f1, f2, f3, f4⟩

theorem yearDay_mono {a b : Nat} (h : a < b) :
    (yearDay a).1 < (yearDay b).1 ∨
      ((yearDay a).1 = (yearDay b).1 ∧ (yearDay a).2 < (yearDay b).2) := by
  obtain ⟨p400, p100, p4, p1, pd, pr1, pr2, pr3, ea, ha1, ha2, ha3, ha4⟩ := yearDay_decomp a
  obtain ⟨q400, q100, q4, q1, qd, qr1, qr2, qr3, eb, hb1, hb2, hb3, hb4⟩ := yearDay_decomp b
  rw [ea, eb]
  simp only
  have s1 : p400 < q400 ∨ (p400 = q400 ∧ pr1 < qr1) := by omega
  rcases s1 with s1 | ⟨s1, t1⟩
  · left; omega
  have s2 : p100 < q100 ∨ (p100 = q100 ∧ pr2 < qr2) := by omega
  rcases s2 with s2 | ⟨s2, t2⟩
  · left; omega
  have s3 : p4 < q4 ∨ (p4 = q4 ∧ pr3 < qr3) := by omega
  rcases s3 with s3 | ⟨s3, t3⟩
  · left; omega
  have s4 : p1 < q1 ∨ (p1 = q1 ∧ pd < qd) := by omega
  rcases s4 with s4 | ⟨s4, t4⟩
  · left; omega
  · right; omega

theorem yearDay_snd_le (x : Nat) : (yearDay x).2 ≤ 365 := by
  obtain ⟨p400, p100, p4, p1, pd, pr1, pr2, pr3, ea, ha1, ha2, ha3, ha4⟩ := yearDay_decomp x
  rw [ea]; exact ha4.2.2.1

theorem yearDay_fst_lt (x : Nat) (h : x < 3652059) : (yearDay x).1 < 10000 := by
  obtain ⟨p400, p100, p4, p1, pd, pr1, pr2, pr3, ea, ha1, ha2, ha3, ha4⟩ := yearDay_decomp x
  rw [ea]; simp only; omega

theorem monthDay_key_lt (leap : Bool) {a b : Nat} (h : a < b) (hb : b ≤ 366) :
    (monthDay leap a).1 * 100 + (monthDay leap a).2 <
      (monthDay leap b).1 * 100 + (monthDay leap b).2 := by
  induction b with
  | zero => omega
  | succ n ih =>
    have st := monthDay_step leap ⟨n, by omega⟩
    have r1 := monthDay_range leap ⟨n, by omega⟩
    have r2 := monthDay_range leap ⟨n + 1, by omega⟩
    simp only at st r1 r2
    rcases Nat.lt_succ_iff_lt_or_eq.mp h with h1 | h1
    · have := ih h1 (by omega)
      omega
    · subst h1
      omega

theorem civil_before {t1 t2 : Time} (h : t1 / 1000000000 < t2 / 1000000000) :
    (civil t1).before (civil t2) := by
  simp only [civil, Civil.before]
  obtain ⟨s1, hs1⟩ : ∃ s : Nat, s = t1 / 1000000000 := ⟨_, rfl⟩
  obtain ⟨s2, hs2⟩ : ∃ s : Nat, s = t2 / 1000000000 := ⟨_, rfl⟩
  rw [← hs1, ← hs2] at h ⊢
  replace h : @LT.lt Nat _ s1 s2 := h
  rcases Nat.lt_or_ge (s1 / 86400) (s2 / 86400) with hd | hd
  · rcases yearDay_mono hd with hy | ⟨hy, hyd⟩
    · exact Or.inl hy
    · refine Or.inr ⟨hy, ?_⟩
      rw [hy]
      have k := monthDay_key_lt (isLeap (yearDay (s2 / 86400)).1) hyd
        (by have := yearDay_snd_le (s2 / 86400); omega)
      have r1 := monthDay_range (isLeap (yearDay (s2 / 86400)).1)
        ⟨(yearDay (s1 / 86400)).2, by have := yearDay_snd_le (s1 / 86400); omega⟩
      have r2 := monthDay_range (isLeap (yearDay (s2 / 86400)).1)
        ⟨(yearDay (s2 / 86400)).2, by have := yearDay_snd_le (s2 / 86400); omega⟩
      simp only at r1 r2
      omega
  · have e : s1 / 86400 = s2 / 86400 := by omega
    rw [e]
    refine Or.inr ⟨rfl, Or.inr ⟨rfl, Or.inr ⟨rfl, ?_⟩⟩⟩
    omega

theorem civil_ranges (t : Time) :
    (civil t).month < 100 ∧ (civil t).day < 100 ∧ (civil t).hour < 100 ∧
      (civil t).minute < 100 ∧ (civil t).second < 100 := by
  simp only [civil]
  have r := monthDay_range (isLeap (yearDay (t / 1000000000 / 86400)).1)
    ⟨(yearDay (t / 1000000000 / 86400)).2, by
      have := yearDay_snd_le (t / 1000000000 / 86400); omega⟩
  simp only at r
  refine ⟨r.1, r.2, ?_, ?_, ?_⟩ <;> omega

theorem civil_year_lt {t : Time} (h : t < 315537897600000000000) : (civil t).year < 10000 := by
  simp only [civil]
  replace h : @LT.lt Nat _ t 315537897600000000000 := h
  exact yearDay_fst_lt _ (by omega)

theorem formatStamp_less {t1 t2 : Time} (r1 r2 : GoString)
    (h : t1 / 1000000000 < t2 / 1000000000) (hy : t2 < 315537897600000000000) :
    strLess (formatStamp t1 ++ r1) (formatStamp t2 ++ r2) = true := by
  have hb := civil_before h
  have hy2 := civil_year_lt hy
  have hy1 : (civil t1).year < 10000 := by
    apply civil_year_lt
    replace h : @LT.lt Nat _ (t1 / 1000000000) (t2 / 1000000000) := h
    replace hy : @LT.lt Nat _ t2 315537897600000000000 := hy
    show @LT.lt Nat _ t1 315537897600000000000
    omega
  obtain ⟨a1, a2, a3, a4, a5⟩ := civil_ranges t1
  obtain ⟨b1, b2, b3, b4, b5⟩ := civil_ranges t2
  simp only [formatStamp, List.append_assoc, List.cons_append]
  simp only [Civil.before] at hb
  apply appendInt4_less hy1 hy2
  refine hb.imp id (And.imp id fun hb => strLess_cons_same ?_)
  apply appendInt2_less a1 b1
  refine hb.imp id (And.imp id fun hb => strLess_cons_same ?_)
  apply appendInt2_less a2 b2
  refine hb.imp id (And.imp id fun hb => strLess_cons_same ?_)
  apply appendInt2_less a3 b3
  refine hb.imp id (And.imp id fun hb => strLess_cons_same ?_)
  apply appendInt2_less a4 b4
  refine hb.imp id (And.imp id fun hb => strLess_cons_same ?_)
  apply appendInt2_less a5 b5
  exact Or.inl hb

set_option maxRecDepth 100000 in
theorem monthDay_inverse : ∀ leap : Bool, ∀ y : Fin 366,
    (y.val < 365 ∨ leap = true) →
    1 ≤ (monthDay leap y.val).1 ∧ (monthDay leap y.val).1 ≤ 12 ∧
    1 ≤ (monthDay leap y.val).2 ∧
    (monthDay leap y.val).2 ≤
      (if (monthDay leap y.val).1 = 2 ∧ leap = true then 29
        else daysBefore.getD (monthDay leap y.val).1 0
          - daysBefore.getD ((monthDay leap y.val).1 - 1) 0) ∧
    daysBefore.getD ((monthDay leap y.val).1 - 1) 0
      + (if leap = true ∧ (monthDay leap y.val).1 ≥ 3 then 1 else 0)
      + (monthDay leap y.val).2 = y.val + 1 := by
  decide

/-- The year is at least 1, the day of the year fits the year's length, and the days before
January 1 of the year are the day count minus the day of the year. -/
theorem yearDay_inverse (x : Nat) :
    1 ≤ (yearDay x).1 ∧ ((yearDay x).2 < 365 ∨ isLeap (yearDay x).1 = true) ∧
      (yearDay x).2 ≤ 365 ∧
      daysSinceEpoch (yearDay x).1 + ((yearDay x).2 : Int) = (x : Int) := by
  obtain ⟨n400, n100, n4, n1, d4, r1, r2, r3, e, h1, h2, h3, h4⟩ := yearDay_decomp x
  rw [e]
  simp only
  refine ⟨by omega, ?_, h4.2.2.1, ?_⟩
  · by_cases hd : d4 < 365
    · exact Or.inl hd
    · right
      have hd' : d4 = 365 := by omega
      have hn1 := h4.2.2.2 hd'
      simp only [isLeap, Bool.and_eq_true, Bool.or_eq_true, beq_iff_eq, bne_iff_ne, ne_eq]
      refine ⟨by omega, ?_⟩
      by_cases hn4 : n4 = 24
      · right
        have : r2 = 36524 := by omega
        have := h2.2.2.2 this
        omega
      · left; omega
  · simp only [daysSinceEpoch]
    rw [if_neg (by omega)]
    have a1 : (400 * n400 + 100 * n100 + 4 * n4 + n1 + 1 - 1) / 400 = n400 := by omega
    have a2 : (400 * n400 + 100 * n100 + 4 * n4 + n1 + 1 - 1) - 400 * n400
        = 100 * n100 + 4 * n4 + n1 := by omega
    simp only [a1, a2]
    have a3 : (100 * n100 + 4 * n4 + n1) / 100 = n100 := by omega
    have a4 : (100 * n100 + 4 * n4 + n1) - 100 * n100 = 4 * n4 + n1 := by omega
    simp only [a3, a4]
    have a5 : (4 * n4 + n1) / 4 = n4 := by omega
    have a6 : (4 * n4 + n1) - 4 * n4 = n1 := by omega
    simp only [a5, a6]
    omega

theorem civil_valid (t : Time) :
    1 ≤ (civil t).month ∧ (civil t).month ≤ 12 ∧ 1 ≤ (civil t).day ∧
      (civil t).day ≤ daysIn (civil t).month (civil t).year ∧
      (civil t).hour ≤ 23 ∧ (civil t).minute ≤ 59 ∧ (civil t).second ≤ 59 ∧
      dateSeconds (civil t).year (civil t).month (civil t).day (civil t).hour (civil t).minute
        (civil t).second = ((t / 1000000000 : Nat) : Int) := by
  obtain ⟨s, hs⟩ : ∃ s : Nat, s = t / 1000000000 := ⟨_, rfl⟩
  obtain ⟨hy1, hleap, hle, hdays⟩ := yearDay_inverse (s / 86400)
  have hm := monthDay_inverse (isLeap (yearDay (s / 86400)).1)
    ⟨(yearDay (s / 86400)).2, by omega⟩ hleap
  simp only at hm
  obtain ⟨m1, m2, m3, m4, m5⟩ := hm
  simp only [civil, ← hs, daysIn, dateSeconds]
  refine ⟨m1, m2, m3, m4, by omega, by omega, by omega, ?_⟩
  have e1 : ((daysBefore.getD ((monthDay (isLeap (yearDay (s / 86400)).1)
      (yearDay (s / 86400)).2).1 - 1) 0 : Nat) : Int)
      + (if isLeap (yearDay (s / 86400)).1 = true ∧
          (monthDay (isLeap (yearDay (s / 86400)).1) (yearDay (s / 86400)).2).1 ≥ 3
          then 1 else 0)
      + (((monthDay (isLeap (yearDay (s / 86400)).1) (yearDay (s / 86400)).2).2 : Nat) : Int)
      = (((yearDay (s / 86400)).2 : Nat) : Int) + 1 := by
    have := congrArg (fun n : Nat => (n : Int)) m5
    simp only [Nat.cast_add, Nat.cast_ite, Nat.cast_one, Nat.cast_zero] at this
    exact this
  omega

/-- Value of a digit string read from the left, starting from `init`. -/
theorem foldl_padDigits (w x init : Nat) :
    (padDigits w x).foldl (fun a b => a * 10 + (b - 48)) init = init * 10 ^ w + x % 10 ^ w := by
  induction w generalizing x init with
  | zero => simp [padDigits, Nat.mod_one]
  | succ n ih =>
    simp only [padDigits, List.foldl_append, List.foldl_cons, List.foldl_nil, ih]
    have e : 48 + x % 10 - 48 = x % 10 := by omega
    rw [e, pow_succ, Nat.mul_comm (10 ^ n) 10, Nat.mod_mul]
    ring

theorem padDigits_length (w x : Nat) : (padDigits w x).length = w := by
  induction w generalizing x with
  | zero => rfl
  | succ n ih => simp [padDigits, ih]

theorem padDigits_all_digit (w x : Nat) : (padDigits w x).all isDigit = true := by
  induction w generalizing x with
  | zero => rfl
  | succ n ih =>
    simp only [padDigits, List.all_append, ih, List.all_cons, List.all_nil, Bool.and_true,
      Bool.true_and]
    simp only [isDigit, Bool.and_eq_true, decide_eq_true_eq]
    omega

theorem parseUint_padDigits (w x lo hi : Nat) (hx : x < 10 ^ w) (h1 : lo ≤ x) (h2 : x ≤ hi) :
    parseUint (padDigits w x) lo hi = some x := by
  simp only [parseUint, padDigits_all_digit, if_true, foldl_padDigits, Nat.zero_mul, Nat.zero_add,
    Nat.mod_eq_of_lt hx]
  rw [if_pos ⟨h1, h2⟩]

theorem appendInt_eq_pad (w x : Nat) (hx : x < 10 ^ w) : appendInt x w = padDigits w x := by
  simp [appendInt, hx]

theorem layout_fields (Y M D h m sec tail : GoString) (hY : Y.length = 4) (hM : M.length = 2)
    (hD : D.length = 2) (hh : h.length = 2) (hm : m.length = 2) (hs : sec.length = 2) :
    let s := Y ++ 45 :: (M ++ 45 :: (D ++ 84 :: (h ++ 58 :: (m ++ 58 :: (sec ++ tail)))))
    ¬ s.length < 19 ∧ s.take 4 = Y ∧ (s.drop 5).take 2 = M ∧ (s.drop 8).take 2 = D ∧
      (s.drop 11).take 2 = h ∧ (s.drop 14).take 2 = m ∧ (s.drop 17).take 2 = sec ∧
      s.getD 4 0 = 45 ∧ s.getD 7 0 = 45 ∧ s.getD 10 0 = 84 ∧ s.getD 13 0 = 58 ∧
      s.getD 16 0 = 58 ∧ s.drop 19 = tail := by
  match Y, hY with
  | [y0, y1, y2, y3], _ =>
  match M, hM with
  | [m0, m1], _ =>
  match D, hD with
  | [d0, d1], _ =>
  match h, hh with
  | [h0, h1], _ =>
  match m, hm with
  | [i0, i1], _ =>
  match sec, hs with
  | [s0, s1], _ =>
    simp

theorem foldl_zeros (k v : Nat) :
    (List.replicate k 48).foldl (fun a b => a * 10 + (b - 48)) v = v * 10 ^ k := by
  induction k generalizing v with
  | zero => simp
  | succ n ih => simp [List.replicate_succ, ih, pow_succ]; ring

theorem trimZeros_split (l : GoString) :
    ∃ k, l = trimZeros l ++ List.replicate k 48 := by
  obtain ⟨zs, hzs⟩ : ∃ zs, zs = l.reverse.takeWhile (fun b => b == 48) := ⟨_, rfl⟩
  have h := List.takeWhile_append_dropWhile (fun b => b == 48) l.reverse
  rw [← hzs] at h
  have hz : zs.reverse = List.replicate zs.length 48 := by
    rw [List.eq_replicate_iff]
    refine ⟨by simp, fun b hb => ?_⟩
    rw [List.mem_reverse, hzs] at hb
    have := List.mem_takeWhile_imp hb
    simpa using this
  have h2 := congrArg List.reverse h
  rw [List.reverse_append, List.reverse_reverse] at h2
  refine ⟨zs.length, ?_⟩
  rw [← hz]
  exact h2.symm

theorem parseFraction_appendNano (n : Nat) (hn : n < 1000000000) :
    parseFraction (appendNano n ++ [90]) = (n, [90]) := by
  by_cases h0 : n = 0
  · subst h0
    simp [appendNano, parseFraction]
  · rw [appendNano, if_neg h0, appendInt_eq_pad 9 n (by simpa using hn)]
    obtain ⟨k, hk⟩ := trimZeros_split (padDigits 9 n)
    have hall := padDigits_all_digit 9 n
    have hval := foldl_padDigits 9 n 0
    have hlen := padDigits_length 9 n
    generalize trimZeros (padDigits 9 n) = ds at hk ⊢
    rw [hk] at hall hval hlen
    rw [List.foldl_append, foldl_zeros] at hval
    simp only [List.all_append, Bool.and_eq_true] at hall
    simp only [List.length_append, List.length_replicate] at hlen
    rw [Nat.zero_mul, Nat.zero_add, Nat.mod_eq_of_lt (by simpa using hn)] at hval
    match ds, hall, hval, hlen with
    | [], _, hval, _ => simp at hval; omega
    | d :: rest, hall, hval, hlen =>
      have hd : isDigit d = true := by
        have := hall.1; simp only [List.all_cons, Bool.and_eq_true] at this; exact this.1
      have hnd : isDigit 90 = false := by decide
      have htw : List.takeWhile isDigit ((d :: rest) ++ [90]) = d :: rest := by
        rw [List.takeWhile_append, if_pos]
        · simp [hnd]
        · rw [List.takeWhile_eq_self_iff.mpr]
          intro b hb
          have := hall.1; rw [List.all_eq_true] at this; exact this b hb
      have hdw : List.dropWhile isDigit ((d :: rest) ++ [90]) = [90] := by
        rw [List.dropWhile_append, if_pos]
        · simp [hnd]
        · rw [List.isEmpty_iff, List.dropWhile_eq_nil_iff]
          intro b hb
          have := hall.1; rw [List.all_eq_true] at this; exact this b hb
      have e : (46 :: (d :: rest)) ++ [90] = 46 :: d :: (rest ++ [90]) := by simp
      rw [e]
      simp only [parseFraction, hd, if_true]
      have e2 : d :: (rest ++ [90]) = (d :: rest) ++ [90] := by simp
      rw [e2, htw, hdw]
      simp only [List.length_cons] at hlen
      have e3 : List.take 9 (d :: rest) = d :: rest := by
        apply List.take_of_length_le; simp only [List.length_cons]; omega
      rw [e3]
      have e4 : 9 - (d :: rest).length = k := by simp only [List.length_cons]; omega
      rw [e4, hval]

theorem parseZone_Z : parseZone [90] = some 0 := by decide

theorem parseRFC3339_format (t : Time) (s : GoString) (h : formatRFC3339Nano t = some s) :
    parseRFC3339 s = some t := by
  obtain ⟨v1, v2, v3, v4, v5, v6, v7, v8⟩ := civil_valid t
  simp only [formatRFC3339Nano] at h
  split at h
  · exact absurd h (by simp)
  · rename_i hy
    have hy' : (civil t).year < 10 ^ 4 := by omega
    have hd31 : (civil t).day < 10 ^ 2 := by
      have := (civil_ranges t).2.1; omega
    rw [appendInt_eq_pad 4 _ hy', appendInt_eq_pad 2 (civil t).month (by omega),
      appendInt_eq_pad 2 (civil t).day hd31, appendInt_eq_pad 2 (civil t).hour (by omega),
      appendInt_eq_pad 2 (civil t).minute (by omega),
      appendInt_eq_pad 2 (civil t).second (by omega)] at h
    have L := layout_fields (padDigits 4 (civil t).year) (padDigits 2 (civil t).month)
      (padDigits 2 (civil t).day) (padDigits 2 (civil t).hour) (padDigits 2 (civil t).minute)
      (padDigits 2 (civil t).second) (appendNano (t % 1000000000) ++ [90])
      (padDigits_length _ _) (padDigits_length _ _) (padDigits_length _ _)
      (padDigits_length _ _) (padDigits_length _ _) (padDigits_length _ _)
    simp only [Option.some.injEq] at h
    rw [h] at L
    obtain ⟨l0, l1, l2, l3, l4, l5, l6, l7, l8, l9, l10, l11, l12⟩ := L
    have hn : t % 1000000000 < 1000000000 := Nat.mod_lt _ (by norm_num)
    simp only [parseRFC3339, if_neg l0, l1, l2, l3, l4, l5, l6, l7, l8, l9, l10, l11, l12,
      parseUint_padDigits 4 _ 0 9999 hy' (Nat.zero_le _) (by omega),
      parseUint_padDigits 2 _ 1 12 (by omega : (civil t).month < 10 ^ 2) v1 v2,
      parseUint_padDigits 2 _ 1 _ hd31 v3 v4,
      parseUint_padDigits 2 _ 0 23 (by omega : (civil t).hour < 10 ^ 2) (Nat.zero_le _) v5,
      parseUint_padDigits 2 _ 0 59 (by omega : (civil t).minute < 10 ^ 2) (Nat.zero_le _) v6,
      parseUint_padDigits 2 _ 0 59 (by omega : (civil t).second < 10 ^ 2) (Nat.zero_le _) v7,
      parseFraction_appendNano _ hn, parseZone_Z, v8, and_self, if_true, sub_zero]
    rw [if_neg (by omega)]
    simp only [Int.toNat_ofNat, Option.some.injEq]
    exact Nat.div_add_mod' t 1000000000

theorem formatRFC3339Nano_isSome (t : Time) (h : t < 315537897600000000000) :
    ∃ s, formatRFC3339Nano t = some s := by
  have := civil_year_lt h
  simp only [formatRFC3339Nano]
  rw [if_neg (by omega)]
  exact ⟨_, rfl⟩

theorem toValidUTF8Aux_of_valid (k : Nat) (s : GoString) (h : validUTF8Aux k s = true) :
    toValidUTF8Aux k s = s := by
  induction s generalizing k with
  | nil => cases k <;> rfl
  | cons b rest ih =>
    cases k with
    | succ n =>
      simp only [validUTF8Aux] at h
      simp only [toValidUTF8Aux, ih n h]
    | zero =>
      simp only [validUTF8Aux] at h
      simp only [toValidUTF8Aux]
      cases hw : utf8Width (b :: rest) with
      | zero => rw [hw] at h; exact absurd h (by simp)
      | succ w =>
        rw [hw] at h
        simp only [ih w h]

theorem toValidUTF8_of_valid (s : GoString) (h : validUTF8 s = true) : toValidUTF8 s = s :=
  toValidUTF8Aux_of_valid 0 s h

theorem toValidUTF8_nil : toValidUTF8 [] = [] := rfl

mutual
theorem Json.coerce_of_wellFormed : ∀ j : Json, j.wellFormed = true → j.coerce = j
  | .null, _ => rfl
  | .bool _, _ => rfl
  | .num _, _ => rfl
  | .str s, h => by
    simp only [Json.wellFormed] at h
    simp only [Json.coerce, toValidUTF8_of_valid s h]
  | .arr xs, h => by
    simp only [Json.wellFormed] at h
    simp only [Json.coerce, Json.coerceList_of_wellFormed xs h]
  | .obj kvs, h => by
    simp only [Json.wellFormed] at h
    simp only [Json.coerce, Json.coerceMembers_of_wellFormed kvs h]
theorem Json.coerceList_of_wellFormed :
    ∀ xs : List Json, Json.wellFormedList xs = true → Json.coerceList xs = xs
  | [], _ => rfl
  | x :: xs, h => by
    simp only [Json.wellFormedList, Bool.and_eq_true] at h
    simp only [Json.coerceList, Json.coerce_of_wellFormed x h.1,
      Json.coerceList_of_wellFormed xs h.2]
theorem Json.coerceMembers_of_wellFormed :
    ∀ kvs : List (GoString × Json), Json.wellFormedMembers kvs = true →
      Json.coerceMembers kvs = kvs
  | [], _ => rfl
  | (k, v) :: kvs, h => by
    simp only [Json.wellFormedMembers, Bool.and_eq_true] at h
    simp only [Json.coerceMembers, toValidUTF8_of_valid k h.1.1,
      Json.coerce_of_wellFormed v h.1.2, Json.coerceMembers_of_wellFormed kvs h.2]
end

theorem strLess_irrefl (a : GoString) : strLess a a = false := by
  induction a with
  | nil => rfl
  | cons x xs ih => simp [strLess, ih]

theorem strLess_asymm {a b : GoString} (h : strLess a b = true) : strLess b a = false := by
  induction a generalizing b with
  | nil => cases b <;> simp [strLess] at h ⊢
  | cons x xs ih =>
    cases b with
    | nil => simp [strLess] at h
    | cons y ys =>
      simp only [strLess, Bool.or_eq_true, decide_eq_true_eq, Bool.and_eq_true, beq_iff_eq] at h
      simp only [strLess, Bool.or_eq_false_iff, decide_eq_false_iff_not, Bool.and_eq_false_imp,
        beq_iff_eq]
      rcases h with h | ⟨h1, h2⟩
      · exact ⟨by omega, fun e => by omega⟩
      · exact ⟨by omega, fun _ => ih h2⟩

theorem strLess_ne {a b : GoString} (h : strLess a b = true) : a ≠ b := by
  intro e
  rw [e, strLess_irrefl] at h
  exact absurd h (by simp)

theorem GoMap.insert_last {V : Type} (k : GoString) (v : V) (m : GoMap V)
    (h : ∀ kv ∈ m, strLess kv.1 k = true) : GoMap.insert k v m = m ++ [(k, v)] := by
  induction m with
  | nil => rfl
  | cons kv rest ih =>
    obtain ⟨k', v'⟩ := kv
    have h1 := h (k', v') (List.mem_cons_self _ _)
    simp only at h1
    simp only [GoMap.insert, strLess_asymm h1, Bool.false_eq_true, if_false,
      if_neg (strLess_ne h1).symm, List.cons_append]
    rw [ih (fun kv hkv => h kv (List.mem_cons_of_mem _ hkv))]

/-- Decoding the encoding of a map gives the map back, when its keys are valid UTF-8 in
strictly increasing order and every value decodes to itself. -/
theorem decMembers_encode {V : Type} (enc : V → Json) (dec : Json → Option V)
    (m acc : GoMap V) (hs : GoMap.sorted (acc ++ m))
    (hk : ∀ kv ∈ m, validUTF8 kv.1 = true) (hv : ∀ kv ∈ m, dec (enc kv.2) = some kv.2) :
    decMembers dec (m.map (fun kv => (toValidUTF8 kv.1, enc kv.2))) acc = some (acc ++ m) := by
  induction m generalizing acc with
  | nil => simp [decMembers]
  | cons kv rest ih =>
    obtain ⟨k, v⟩ := kv
    have hk1 := hk (k, v) (List.mem_cons_self _ _)
    have hv1 := hv (k, v) (List.mem_cons_self _ _)
    simp only at hk1 hv1
    simp only [List.map_cons, decMembers, toValidUTF8_of_valid k hk1, hv1]
    have hlast : GoMap.insert k v acc = acc ++ [(k, v)] := by
      apply GoMap.insert_last
      intro kv hkv
      have := List.pairwise_append.mp hs
      exact this.2.2 kv hkv (k, v) (List.mem_cons_self _ _)
    rw [hlast]
    have := ih (acc ++ [(k, v)]) (by simpa using hs)
      (fun kv hkv => hk kv (List.mem_cons_of_mem _ hkv))
      (fun kv hkv => hv kv (List.mem_cons_of_mem _ hkv))
    simpa using this

theorem decMap_encMap {V : Type} (enc : V → Json) (dec : Json → Option V) (m : GoMap V)
    (hs : GoMap.sorted m) (hk : ∀ kv ∈ m, validUTF8 kv.1 = true)
    (hv : ∀ kv ∈ m, dec (enc kv.2) = some kv.2) :
    decMap dec (encMap enc m) = some m := by
  simp only [encMap, decMap]
  simpa using decMembers_encode enc dec m [] (by simpa using hs) hk hv

theorem fromJson_toJson_entry (e : HistoryEntry) (doc : Json) (hd : e.Details = [])
    (h : e.toJson = some doc) :
    HistoryEntry.fromJson doc = some ⟨e.Timestamp, toValidUTF8 e.Action, toValidUTF8 e.ProfileID,
      toValidUTF8 e.SnapshotID, e.Success, []⟩ := by
  obtain ⟨t, a, p, s, b, d⟩ := e
  simp only at hd
  subst hd
  simp only [HistoryEntry.toJson] at h
  cases hts : formatRFC3339Nano t with
  | none => rw [hts] at h; exact absurd h (by simp)
  | some ts =>
    rw [hts] at h
    have hp := parseRFC3339_format t ts hts
    simp only [Option.some.injEq] at h
    subst h
    cases p <;> cases s <;>
      simp [HistoryEntry.fromJson, Json.field, decTime, hp, decString, encString, decBool,
        decMap, toValidUTF8_nil, ascii, lowerByte]

theorem scanEntries_eq (lines : List Text) (acc : List HistoryEntry) :
    scanEntries lines acc = acc ++ lines.filterMap unmarshalEntry := by
  induction lines generalizing acc with
  | nil => simp [scanEntries]
  | cons l ls ih =>
    simp only [scanEntries, List.filterMap_cons]
    cases h : unmarshalEntry l with
    | none => simp [ih]
    | some e => simp [ih]

theorem swapAt_ends {α : Type} (pre mid post : List α) (a b : α) :
    swapAt (pre ++ (a :: mid ++ [b]) ++ post) pre.length (pre.length + mid.length + 1)
      = (pre ++ [b]) ++ mid ++ (a :: post) := by
  have h1 : (pre ++ (a :: mid ++ [b]) ++ post).get? pre.length = some a := by
    rw [List.get?_eq_getElem?, List.append_assoc, List.getElem?_append_right (le_refl _)]
    simp
  have h2 : (pre ++ (a :: mid ++ [b]) ++ post).get? (pre.length + mid.length + 1) = some b := by
    rw [List.get?_eq_getElem?, List.append_assoc, List.getElem?_append_right (by omega)]
    have : pre.length + mid.length + 1 - pre.length = (a :: mid).length := by simp; omega
    rw [this]
    have e : (a :: mid ++ [b]) ++ post = (a :: mid) ++ (b :: post) := by simp
    rw [e, List.getElem?_append_right (le_refl _)]
    simp
  simp only [swapAt, h1, h2]
  have e1 : (pre ++ (a :: mid ++ [b]) ++ post).set pre.length b
      = pre ++ (b :: mid ++ [b]) ++ post := by
    simp [List.set_append]
  rw [e1]
  have e2 : pre ++ (b :: mid ++ [b]) ++ post = (pre ++ b :: mid) ++ (b :: post) := by simp
  rw [e2]
  have e3 : pre.length + mid.length + 1 = (pre ++ b :: mid).length := by simp; omega
  rw [e3, List.set_append_right _ _ (le_refl _)]
  simp

theorem reverseLoop_spec {α : Type} (fuel : Nat) (pre mid post : List α)
    (h : mid.length ≤ 2 * fuel + 1) :
    reverseLoop fuel (pre.length : Int) ((pre.length : Int) + mid.length - 1)
      (pre ++ mid ++ post) = pre ++ mid.reverse ++ post := by
  induction fuel generalizing pre mid post with
  | zero =>
    simp only [reverseLoop]
    match mid, h with
    | [], _ => rfl
    | [x], _ => rfl
  | succ n ih =>
    match mid, h with
    | [], _ => simp [reverseLoop]
    | [x], _ => simp [reverseLoop]
    | a :: c :: rest, h =>
      obtain ⟨mid', b, hb⟩ : ∃ m b, c :: rest = m ++ [b] :=
        ⟨(c :: rest).dropLast, (c :: rest).getLast (by simp),
          (List.dropLast_append_getLast (by simp)).symm⟩
      have hl : (c :: rest).length = mid'.length + 1 := by rw [hb]; simp
      rw [hb] at h ⊢
      simp only [List.length_cons, List.length_append, List.length_nil] at h hl
      have hlt : (pre.length : Int) < (pre.length : Int) + ((a :: (mid' ++ [b])).length : Int) - 1 := by
        simp only [List.length_cons, List.length_append, List.length_nil]; omega
      rw [reverseLoop, if_pos hlt]
      have ei : ((pre.length : Int)).toNat = pre.length := by simp
      have ej : ((pre.length : Int) + ((a :: (mid' ++ [b])).length : Int) - 1).toNat
          = pre.length + mid'.length + 1 := by
        simp only [List.length_cons, List.length_append, List.length_nil]; omega
      rw [ei, ej]
      have sw := swapAt_ends pre mid' post a b
      have e0 : pre ++ a :: (mid' ++ [b]) ++ post = pre ++ (a :: mid' ++ [b]) ++ post := by simp
      rw [e0, sw]
      have := ih (pre ++ [b]) mid' (a :: post) (by omega)
      have e1 : ((pre ++ [b]).length : Int) = (pre.length : Int) + 1 := by simp
      have e2 : ((pre ++ [b]).length : Int) + (mid'.length : Int) - 1
          = (pre.length : Int) + ((a :: (mid' ++ [b])).length : Int) - 1 - 1 := by
        simp only [List.length_cons, List.length_append, List.length_nil]; push_cast; omega
      rw [e1] at e2
      rw [e1, e2] at this
      rw [this]
      simp

theorem reverseLoop_full {α : Type} (l : List α) :
    reverseLoop l.length 0 ((l.length : Int) - 1) l = l.reverse := by
  have := reverseLoop_spec l.length [] l [] (by omega)
  simpa using this

theorem GetRecentEntries_eq (lines : List Text) (limit : Int) :
    GetRecentEntries (some lines) limit =
      if limit > 0 then
        ((lines.filterMap unmarshalEntry).drop
          ((lines.filterMap unmarshalEntry).length - limit.toNat)).reverse
      else (lines.filterMap unmarshalEntry).reverse := by
  simp only [GetRecentEntries, scanEntries_eq, List.nil_append]
  generalize lines.filterMap unmarshalEntry = es
  by_cases hl : limit > 0
  · by_cases hn : (es.length : Int) > limit
    · rw [if_pos ⟨hl, hn⟩, if_pos hl, reverseLoop_full]
      have e : ((es.length : Int) - limit).toNat = es.length - limit.toNat := by omega
      rw [e]
    · rw [if_neg (fun h => hn h.2), if_pos hl, reverseLoop_full]
      have hk : es.length - limit.toNat = 0 := by omega
      rw [hk, List.drop_zero]
  · rw [if_neg (fun h => hl h.1), if_neg hl, reverseLoop_full]

theorem firstSuccessfulApply_none (l : List HistoryEntry)
    (h : ∀ e ∈ l, e.isSuccessfulApply = false) : firstSuccessfulApply l = none := by
  induction l with
  | nil => rfl
  | cons e rest ih =>
    have h1 := h e (List.mem_cons_self _ _)
    simp only [HistoryEntry.isSuccessfulApply, decide_eq_false_iff_not] at h1
    simp only [firstSuccessfulApply, if_neg h1]
    exact ih (fun x hx => h x (List.mem_cons_of_mem _ hx))

theorem firstSuccessfulApply_skip (l1 l2 : List HistoryEntry)
    (h : ∀ e ∈ l1, e.isSuccessfulApply = false) :
    firstSuccessfulApply (l1 ++ l2) = firstSuccessfulApply l2 := by
  induction l1 with
  | nil => rfl
  | cons e rest ih =>
    have h1 := h e (List.mem_cons_self _ _)
    simp only [HistoryEntry.isSuccessfulApply, decide_eq_false_iff_not] at h1
    simp only [List.cons_append, firstSuccessfulApply, if_neg h1]
    exact ih (fun x hx => h x (List.mem_cons_of_mem _ hx))

theorem firstSuccessfulApply_hit (e : HistoryEntry) (l : List HistoryEntry)
    (h : e.isSuccessfulApply = true) :
    firstSuccessfulApply (e :: l) = some ⟨e.ProfileID, e.Timestamp, true⟩ := by
  simp only [HistoryEntry.isSuccessfulApply, decide_eq_true_eq] at h
  rw [firstSuccessfulApply, if_pos h, h.2]

theorem NewHistoryService_eq (journal : Journal) :
    NewHistoryService false journal
      = some ⟨firstSuccessfulApply (GetRecentEntries journal 100)⟩ := by
  simp only [NewHistoryService, Bool.false_eq_true, if_false, HistoryService.loadLastApply]
  cases firstSuccessfulApply (GetRecentEntries journal 100) <;> rfl

/-- The window loadLastApply looks at: the last 100 parsed entries, in file order. -/
theorem loadLastApply_window (lines : List Text) :
    GetRecentEntries (some lines) 100 =
      ((lines.filterMap unmarshalEntry).drop
        ((lines.filterMap unmarshalEntry).length - 100)).reverse := by
  rw [GetRecentEntries_eq, if_pos (by decide)]
  rfl

theorem loadLastApply_found (lines : List Text) (older newer : List HistoryEntry)
    (e : HistoryEntry)
    (hw : (lines.filterMap unmarshalEntry).drop ((lines.filterMap unmarshalEntry).length - 100)
      = older ++ e :: newer)
    (he : e.isSuccessfulApply = true) (hn : ∀ x ∈ newer, x.isSuccessfulApply = false) :
    NewHistoryService false (some lines) = some ⟨some ⟨e.ProfileID, e.Timestamp, true⟩⟩ := by
  rw [NewHistoryService_eq, loadLastApply_window, hw]
  have : (older ++ e :: newer).reverse = newer.reverse ++ e :: older.reverse := by simp
  rw [this, firstSuccessfulApply_skip _ _ (fun x hx => hn x (List.mem_reverse.mp hx)),
    firstSuccessfulApply_hit e _ he]

theorem loadLastApply_missing (lines : List Text)
    (hn : ∀ x ∈ (lines.filterMap unmarshalEntry).drop
      ((lines.filterMap unmarshalEntry).length - 100), x.isSuccessfulApply = false) :
    NewHistoryService false (some lines) = some ⟨none⟩ := by
  rw [NewHistoryService_eq, loadLastApply_window,
    firstSuccessfulApply_none _ (fun x hx => hn x (List.mem_reverse.mp hx))]

theorem toJson_isSome (e : HistoryEntry) (h : e.Timestamp < year10000) :
    ∃ doc, e.toJson = some doc := by
  obtain ⟨ts, hts⟩ := formatRFC3339Nano_isSome e.Timestamp h
  simp only [HistoryEntry.toJson, hts]
  exact ⟨_, rfl⟩

theorem appendEntry_ok (j : Journal) (e : HistoryEntry) (doc : Json) (h : e.toJson = some doc) :
    appendEntry ⟨false, false⟩ j e = (true, some (j.getD [] ++ [.json doc])) := by
  simp [appendEntry, h]

theorem unmarshalEntry_line (e : HistoryEntry) (doc : Json) (hd : e.Details = [])
    (h : e.toJson = some doc) : unmarshalEntry (.json doc) = some e.readBack := by
  simp only [unmarshalEntry, fromJson_toJson_entry e doc hd h, HistoryEntry.readBack]

theorem Call.entry_details (c : Call) : c.entry.Details = [] := by
  cases c <;> rfl

theorem step_journal (st : HistoryService × Journal) (c : Call) (doc : Json)
    (h : c.entry.toJson = some doc) :
    (HistoryService.step st c).2 = some (st.2.getD [] ++ [.json doc]) := by
  cases c with
  | apply now p sn ok =>
    simp only [Call.entry] at h
    simp only [HistoryService.step, HistoryService.RecordApply, appendEntry_ok _ _ doc h]
    split <;> rfl
  | rollback now sn ok =>
    simp only [Call.entry] at h
    simp only [HistoryService.step, HistoryService.RecordRollback, appendEntry_ok _ _ doc h]
  | snapshot now sn =>
    simp only [Call.entry] at h
    simp only [HistoryService.step, HistoryService.RecordSnapshot, appendEntry_ok _ _ doc h]

theorem step_service (st : HistoryService × Journal) (c : Call) :
    (HistoryService.step st c).1 =
      if c.isSuccessfulApply = true then
        ⟨some ⟨c.entry.ProfileID, c.entry.Timestamp, true⟩⟩
      else st.1 := by
  cases c with
  | apply now p sn ok =>
    cases ok <;> simp [HistoryService.step, HistoryService.RecordApply, Call.isSuccessfulApply,
      Call.entry]
  | rollback now sn ok => rfl
  | snapshot now sn => rfl

/-- After a run in which every write succeeds, the journal is the old one followed by one line
per call, and these lines parse to the entries of the calls as they read back. -/
theorem run_journal (calls : List Call) (st : HistoryService × Journal)
    (h : ∀ c ∈ calls, c.now < year10000) :
    ∃ lines, (HistoryService.run st calls).2.getD [] = st.2.getD [] ++ lines ∧
      lines.filterMap unmarshalEntry = calls.map (fun c => c.entry.readBack) := by
  induction calls generalizing st with
  | nil => exact ⟨[], by simp [HistoryService.run], rfl⟩
  | cons c rest ih =>
    obtain ⟨doc, hdoc⟩ := toJson_isSome c.entry (h c (List.mem_cons_self _ _))
    have hj := step_journal st c doc hdoc
    obtain ⟨lines, h1, h2⟩ := ih (HistoryService.step st c)
      (fun x hx => h x (List.mem_cons_of_mem _ hx))
    refine ⟨.json doc :: lines, ?_, ?_⟩
    · simp only [HistoryService.run, List.foldl_cons] at h1 ⊢
      rw [h1, hj]
      simp
    · simp only [List.filterMap_cons, unmarshalEntry_line c.entry doc c.entry_details hdoc,
        h2, List.map_cons]

theorem run_service_unchanged (calls : List Call) (st : HistoryService × Journal)
    (h : ∀ c ∈ calls, c.isSuccessfulApply = false) :
    (HistoryService.run st calls).1 = st.1 := by
  induction calls generalizing st with
  | nil => rfl
  | cons c rest ih =>
    simp only [HistoryService.run, List.foldl_cons] at ih ⊢
    rw [ih _ (fun x hx => h x (List.mem_cons_of_mem _ hx)), step_service,
      if_neg (by simp [h c (List.mem_cons_self _ _)])]

theorem run_append (st : HistoryService × Journal) (a b : List Call) :
    HistoryService.run st (a ++ b) = HistoryService.run (HistoryService.run st a) b := by
  simp [HistoryService.run, List.foldl_append]

theorem GetRecentEntries_getD (j : Journal) (limit : Int) :
    GetRecentEntries j limit = GetRecentEntries (some (j.getD [])) limit := by
  cases j with
  | none =>
    rw [Option.getD_none, GetRecentEntries_eq]
    simp [GetRecentEntries]
  | some l => rfl

theorem NewHistoryService_getD (j : Journal) :
    NewHistoryService false j = NewHistoryService false (some (j.getD [])) := by
  rw [NewHistoryService_eq, NewHistoryService_eq, GetRecentEntries_getD]

theorem readBack_isSuccessfulApply (c : Call) :
    c.entry.readBack.isSuccessfulApply = c.isSuccessfulApply := by
  have e1 : toValidUTF8 (ascii "apply") = ascii "apply" := by decide
  have e2 : toValidUTF8 (ascii "rollback") ≠ ascii "apply" := by decide
  have e3 : toValidUTF8 (ascii "snapshot") ≠ ascii "apply" := by decide
  cases c with
  | apply now p sn ok =>
    simp [Call.entry, HistoryEntry.readBack, HistoryEntry.isSuccessfulApply,
      Call.isSuccessfulApply, e1]
  | rollback now sn ok =>
    simp [Call.entry, HistoryEntry.readBack, HistoryEntry.isSuccessfulApply,
      Call.isSuccessfulApply, e2]
  | snapshot now sn =>
    simp [Call.entry, HistoryEntry.readBack, HistoryEntry.isSuccessfulApply,
      Call.isSuccessfulApply, e3]

/-- A new service over the journal left by a run whose last successful apply has fewer than 100
calls after it loads that apply. -/
theorem reload_after_run (st : HistoryService × Journal) (pre post : List Call)
    (now : Time) (p sn : GoString)
    (hw : ∀ c ∈ pre ++ Call.apply now p sn true :: post, c.now < year10000)
    (hp : validUTF8 p = true)
    (hpost : ∀ c ∈ post, c.isSuccessfulApply = false) (hlen : post.length < 100) :
    NewHistoryService false
        (HistoryService.run st (pre ++ Call.apply now p sn true :: post)).2
      = some ⟨some ⟨p, now, true⟩⟩ ∧
    (HistoryService.run st (pre ++ Call.apply now p sn true :: post)).1
      = ⟨some ⟨p, now, true⟩⟩ := by
  constructor
  · obtain ⟨lines, h1, h2⟩ := run_journal _ st hw
    rw [NewHistoryService_getD, h1]
    have hfm : (st.2.getD [] ++ lines).filterMap unmarshalEntry
        = ((st.2.getD []).filterMap unmarshalEntry ++ pre.map (fun c => c.entry.readBack))
          ++ (Call.apply now p sn true).entry.readBack
            :: post.map (fun c => c.entry.readBack) := by
      rw [List.filterMap_append, h2]
      simp
    have hfound := loadLastApply_found (st.2.getD [] ++ lines)
      (((st.2.getD []).filterMap unmarshalEntry ++ pre.map (fun c => c.entry.readBack)).drop
        (((st.2.getD [] ++ lines).filterMap unmarshalEntry).length - 100))
      (post.map (fun c => c.entry.readBack)) (Call.apply now p sn true).entry.readBack
      (by
        rw [hfm, List.drop_append_of_le_length]
        simp only [List.length_append, List.length_cons, List.length_map]
        omega)
      (by rw [readBack_isSuccessfulApply]; rfl)
      (fun x hx => by
        obtain ⟨c, hc, rfl⟩ := List.mem_map.mp hx
        rw [readBack_isSuccessfulApply]
        exact hpost c hc)
    rw [hfound]
    simp [Call.entry, HistoryEntry.readBack, toValidUTF8_of_valid p hp]
  · have e : pre ++ Call.apply now p sn true :: post
        = (pre ++ [Call.apply now p sn true]) ++ post := by simp
    rw [e, run_append, run_service_unchanged _ _ hpost, run_append]
    simp only [HistoryService.run, List.foldl_cons, List.foldl_nil]
    rw [step_service]
    simp [Call.isSuccessfulApply, Call.entry]

theorem insertBy_perm {α : Type} (less : α → α → Bool) (x : α) (l : List α) :
    (insertBy less x l).Perm (x :: l) := by
  induction l with
  | nil => exact List.Perm.refl _
  | cons y ys ih =>
    simp only [insertBy]
    split
    · exact List.Perm.refl _
    · exact (List.Perm.cons y ih).trans (List.Perm.swap x y ys)

theorem sortSlice_perm {α : Type} (less : α → α → Bool) (l : List α) :
    (sortSlice less l).Perm l := by
  induction l with
  | nil => exact List.Perm.refl _
  | cons x xs ih =>
    simp only [sortSlice, List.foldr_cons] at ih ⊢
    exact (insertBy_perm less x _).trans (List.Perm.cons x ih)

/-- Sorting by "larger key first" gives a list whose keys never increase. -/
theorem sortSlice_sorted {α : Type} (key : α → Nat) (l : List α) :
    (sortSlice (fun a b => decide (key a > key b)) l).Pairwise (fun a b => key b ≤ key a) := by
  induction l with
  | nil => exact List.Pairwise.nil
  | cons x xs ih =>
    simp only [sortSlice, List.foldr_cons] at ih ⊢
    generalize List.foldr (insertBy fun a b => decide (key a > key b)) [] xs = ys at ih
    induction ys with
    | nil => simp [insertBy]
    | cons y ys ihy =>
      simp only [insertBy]
      have hy := List.pairwise_cons.mp ih
      by_cases h : key x > key y
      · simp only [h, decide_True, if_true]
        refine List.pairwise_cons.mpr ⟨fun z hz => ?_, ih⟩
        rcases List.mem_cons.mp hz with rfl | hz
        · omega
        · have := hy.1 z hz; omega
      · simp only [h, decide_False, Bool.false_eq_true, if_false]
        refine List.pairwise_cons.mpr ⟨fun z hz => ?_, ihy hy.2⟩
        have hz' := (insertBy_perm _ x ys).subset hz
        rcases List.mem_cons.mp hz' with rfl | hz'
        · omega
        · exact hy.1 z hz'

theorem collectMetas_eq (s : SnapshotService) (fs : FS) (entries : List DirEntry)
    (acc : List SnapshotMeta) :
    s.collectMetas fs entries acc = acc ++ entries.filterMap (s.metaOf fs) := by
  induction entries generalizing acc with
  | nil => simp [SnapshotService.collectMetas]
  | cons e es ih =>
    simp only [SnapshotService.collectMetas, List.filterMap_cons, SnapshotService.metaOf]
    by_cases hd : e.IsDir = false
    · simp only [hd, if_true, ih]
    · simp only [hd, if_false]
      cases hg : s.Get fs e.Name with
      | error err => simp [ih]
      | ok snap => simp [ih, Snapshot.ToMeta]

theorem readDir_perm (fs : FS) (d : Path) (entries : List DirEntry)
    (h : fs.readDir d = .ok entries) : entries.Perm (fs.children d) := by
  simp only [FS.readDir] at h
  split at h
  · exact absurd h (by simp)
  · split at h
    · cases h
      exact sortSlice_perm _ _
    · exact absurd h (by simp)
    · exact absurd h (by simp)

theorem listSnapshots_of_readDir (s : SnapshotService) (fs : FS) (entries : List DirEntry)
    (h : fs.readDir s.snapshotsDir = .ok entries) :
    s.listSnapshots fs = .ok (sortSlice (fun a b => decide (a.CreatedAt > b.CreatedAt))
      (entries.filterMap (s.metaOf fs))) := by
  simp only [SnapshotService.listSnapshots, h, collectMetas_eq, List.nil_append]

theorem metaOf_isSome_iff (s : SnapshotService) (fs : FS) (e : DirEntry) :
    (∃ m, s.metaOf fs e = some m) ↔
      (e.IsDir = true ∧ ∃ snapshot, s.Get fs e.Name = .ok snapshot) := by
  simp only [SnapshotService.metaOf]
  cases hd : e.IsDir <;> cases hg : s.Get fs e.Name <;> simp

theorem metaOf_some (s : SnapshotService) (fs : FS) (e : DirEntry) (m : SnapshotMeta)
    (hm : s.metaOf fs e = some m) :
    ∃ snapshot, s.Get fs e.Name = .ok snapshot ∧ m.ID = snapshot.ID ∧
      m.CreatedAt = snapshot.CreatedAt := by
  simp only [SnapshotService.metaOf] at hm
  cases hd : e.IsDir <;> cases hg : s.Get fs e.Name <;> simp [hd, hg] at hm
  subst hm
  exact ⟨_, rfl, rfl, rfl⟩

theorem find_filter_ne (fs : FS) (p q : Path) (h : q ≠ p) :
    (fs.filter (fun e => e.1 != p)).find? (fun e => e.1 == q) = fs.find? (fun e => e.1 == q) := by
  induction fs with
  | nil => rfl
  | cons e rest ih =>
    by_cases hp : e.1 = p
    · have hq : (e.1 == q) = false := by
        rw [beq_eq_false_iff_ne]; exact fun hq => h (hq.symm.trans hp)
      have hf : (e.1 != p) = false := by rw [hp]; simp
      rw [List.filter_cons_of_neg (by simp [hf]), List.find?_cons_of_neg _ (by simp [hq]), ih]
    · have hf : (e.1 != p) = true := by simpa using hp
      rw [List.filter_cons_of_pos (by simp [hf])]
      by_cases hq : e.1 = q
      · rw [List.find?_cons_of_pos _ (by simp [hq]), List.find?_cons_of_pos _ (by simp [hq])]
      · rw [List.find?_cons_of_neg _ (by simp [hq]), List.find?_cons_of_neg _ (by simp [hq]), ih]

theorem FS.node_remove_ne (fs : FS) (p q : Path) (h : q ≠ p) :
    (fs.remove p).node q = fs.node q := by
  simp only [FS.node, FS.remove, find_filter_ne fs p q h]

theorem FS.node_put_ne (fs : FS) (p q : Path) (n : Node) (h : q ≠ p) :
    (fs.put p n).node q = fs.node q := by
  simp only [FS.node, FS.put, List.find?_cons]
  have : ((p, n).1 == q) = false := by simpa using fun e => h e.symm
  rw [this]
  simp only [FS.remove, find_filter_ne fs p q h]

theorem FS.node_put_same (fs : FS) (p : Path) (n : Node) (h : p ≠ []) :
    (fs.put p n).node p = some n := by
  simp [FS.node, FS.put, h]

theorem FS.node_root (fs : FS) : fs.node [] = some .dir := by simp [FS.node]

theorem FS.checkDirs_eq_none (fs : FS) (qs : List Path) :
    fs.checkDirs qs = none ↔ ∀ q ∈ qs, fs.node q = some .dir := by
  induction qs with
  | nil => simp [FS.checkDirs]
  | cons q rest ih =>
    simp only [FS.checkDirs, List.mem_cons, forall_eq_or_imp]
    cases hn : fs.node q with
    | none => simp
    | some nd =>
      cases nd with
      | dir => simp [ih]
      | file c n => simp

/-- What `mkdirAll` does: the listed paths become directories, every other path keeps its node,
and a path that was a directory stays one. -/
theorem FS.mkdirAll_spec (qs : List Path) (fs fs1 : FS) (h : fs.mkdirAll qs = some fs1) :
    (∀ q ∈ qs, fs1.node q = some .dir) ∧ (∀ q, q ∉ qs → fs1.node q = fs.node q) ∧
      (∀ q, fs.node q = some .dir → fs1.node q = some .dir) := by
  induction qs generalizing fs with
  | nil =>
    simp only [FS.mkdirAll, Option.some.injEq] at h
    subst h
    exact ⟨by simp, fun _ _ => rfl, fun _ hq => hq⟩
  | cons q rest ih =>
    simp only [FS.mkdirAll] at h
    cases hn : fs.node q with
    | none =>
      rw [hn] at h
      obtain ⟨a, b, c⟩ := ih _ h
      have hq0 : q ≠ [] := fun e => by rw [e, FS.node_root] at hn; exact absurd hn (by simp)
      refine ⟨fun x hx => ?_, fun x hx => ?_, fun x hx => ?_⟩
      · rcases List.mem_cons.mp hx with rfl | hx
        · exact c _ (FS.node_put_same fs _ _ hq0)
        · exact a x hx
      · rw [b x (fun hm => hx (List.mem_cons_of_mem _ hm)),
          FS.node_put_ne fs q x _ (fun e => hx (e ▸ List.mem_cons_self _ _))]
      · by_cases e : x = q
        · subst e; exact c _ (FS.node_put_same fs _ _ hq0)
        · exact c x (by rw [FS.node_put_ne fs q x _ e]; exact hx)
    | some nd =>
      rw [hn] at h
      cases nd with
      | file c n => exact absurd h (by simp)
      | dir =>
        obtain ⟨a, b, c⟩ := ih _ h
        refine ⟨fun x hx => ?_, fun x hx => ?_, c⟩
        · rcases List.mem_cons.mp hx with rfl | hx
          · exact c _ hn
          · exact a x hx
        · exact b x (fun hm => hx (List.mem_cons_of_mem _ hm))

theorem inits_snoc (p : Path) (x : GoString) : (p ++ [x]).inits = p.inits ++ [p ++ [x]] := by
  simp [List.inits_append]

theorem not_mem_inits_snoc (p : Path) (x : GoString) : p ++ [x] ∉ p.inits := by
  intro h
  have := (List.mem_inits _ _).mp h
  have := this.length_le
  simp at this

theorem snoc_ne_of_ne (p : Path) {x y : GoString} (h : x ≠ y) : p ++ [x] ≠ p ++ [y] := by
  intro e
  exact h (by simpa using e)

theorem joinPath_state (d : Path) : joinPath d [ascii "state.json"] = d ++ [ascii "state.json"] := by
  have e : splitSlash (ascii "state.json") = [ascii "state.json"] := by decide
  simp only [joinPath, List.flatMap_cons, List.flatMap_nil, List.append_nil, e, List.foldl_cons,
    List.foldl_nil, cleanStep]
  rw [if_neg (by decide), if_neg (by decide)]

theorem joinPath_backups (d : Path) : joinPath d [ascii "backups"] = d ++ [ascii "backups"] := by
  have e : splitSlash (ascii "backups") = [ascii "backups"] := by decide
  simp only [joinPath, List.flatMap_cons, List.flatMap_nil, List.append_nil, e, List.foldl_cons,
    List.foldl_nil, cleanStep]
  rw [if_neg (by decide), if_neg (by decide)]

theorem tmp_ne_state (suffix : GoString) : ascii ".tmp-" ++ suffix ≠ ascii "state.json" := by
  intro e
  have h1 : (ascii ".tmp-" ++ suffix).head? = some 46 := rfl
  have h2 : (ascii "state.json").head? = some 115 := rfl
  rw [e, h2] at h1
  exact absurd h1 (by decide)

theorem dropLast_snoc (d : Path) (x : GoString) : (d ++ [x]).dropLast = d := by simp

/-- AtomicWriteFile on `d/name`: a failed write leaves the node at `d/name` as it was, a
successful one leaves there the new file inside directories; directories other than the
temporary path stay directories. -/
theorem AtomicWriteFile_spec (wf : WriteFaults) (suffix : GoString) (fs : FS) (d : Path)
    (name : GoString) (content : Text) (size : Nat) (hname : ascii ".tmp-" ++ suffix ≠ name) :
    ((AtomicWriteFile wf suffix fs (d ++ [name]) content size).1 = false →
      (AtomicWriteFile wf suffix fs (d ++ [name]) content size).2.node (d ++ [name])
        = fs.node (d ++ [name])) ∧
    ((AtomicWriteFile wf suffix fs (d ++ [name]) content size).1 = true →
      (AtomicWriteFile wf suffix fs (d ++ [name]) content size).2.node (d ++ [name])
        = some (.file content size) ∧
      ∀ q ∈ d.inits, (AtomicWriteFile wf suffix fs (d ++ [name]) content size).2.node q
        = some .dir) ∧
    (∀ q, fs.node q = some .dir → q ≠ d ++ [name] →
      (AtomicWriteFile wf suffix fs (d ++ [name]) content size).2.node q = some .dir) := by
  have hP : d ++ [name] ≠ d ++ [ascii ".tmp-" ++ suffix] := snoc_ne_of_ne d (Ne.symm hname)
  have hP0 : d ++ [name] ≠ [] := by simp
  have hT0 : d ++ [ascii ".tmp-" ++ suffix] ≠ [] := by simp
  simp only [AtomicWriteFile, dropLast_snoc]
  cases he : EnsureDir fs d with
  | none => simpa using fun q hq _ => hq
  | some fs0 =>
    obtain ⟨m1, m2, m3⟩ := FS.mkdirAll_spec d.inits fs fs0 he
    have hPfs0 : fs0.node (d ++ [name]) = fs.node (d ++ [name]) :=
      m2 _ (not_mem_inits_snoc d name)
    simp only
    by_cases c1 : wf.createTemp = true ∨ (fs0.node (d ++ [ascii ".tmp-" ++ suffix])).isSome = true
    · simp only [if_pos c1, true_implies, false_implies, Bool.false_eq_true, and_true, true_and]
      exact ⟨hPfs0, fun q hq _ => m3 q hq⟩
    · simp only [if_neg c1]
      have hTnone : fs0.node (d ++ [ascii ".tmp-" ++ suffix]) = none := by
        cases h : fs0.node (d ++ [ascii ".tmp-" ++ suffix]) with
        | none => rfl
        | some _ => exact absurd (Or.inr (by simp [h])) c1
      have hdirT : ∀ q, fs.node q = some .dir → q ≠ d ++ [ascii ".tmp-" ++ suffix] := by
        intro q hq e
        have := m3 q hq
        rw [e, hTnone] at this
        exact absurd this (by simp)
      by_cases c2 : wf.write = true
      · simp only [if_pos c2, true_implies, false_implies, Bool.false_eq_true, and_true,
          true_and]
        refine ⟨?_, fun q hq _ => ?_⟩
        · split
          · rw [FS.node_put_ne _ _ _ _ hP, hPfs0]
          · rw [FS.node_remove_ne _ _ _ hP, FS.node_put_ne _ _ _ _ hP, hPfs0]
        · have hq' := hdirT q hq
          split
          · rw [FS.node_put_ne _ _ _ _ hq']; exact m3 q hq
          · rw [FS.node_remove_ne _ _ _ hq', FS.node_put_ne _ _ _ _ hq']; exact m3 q hq
      · simp only [if_neg c2]
        by_cases c3 : wf.sync = true ∨ wf.close = true ∨ wf.chmod = true ∨ wf.rename = true
            ∨ ((fs0.put (d ++ [ascii ".tmp-" ++ suffix]) (.file (.other []) 0)).put
                (d ++ [ascii ".tmp-" ++ suffix]) (.file content size)).node (d ++ [name])
              = some .dir
        · simp only [if_pos c3, true_implies, false_implies, Bool.false_eq_true, and_true,
            true_and]
          refine ⟨?_, fun q hq _ => ?_⟩
          · split
            · rw [FS.node_put_ne _ _ _ _ hP, FS.node_put_ne _ _ _ _ hP, hPfs0]
            · rw [FS.node_remove_ne _ _ _ hP, FS.node_put_ne _ _ _ _ hP,
                FS.node_put_ne _ _ _ _ hP, hPfs0]
          · have hq' := hdirT q hq
            split
            · rw [FS.node_put_ne _ _ _ _ hq', FS.node_put_ne _ _ _ _ hq']; exact m3 q hq
            · rw [FS.node_remove_ne _ _ _ hq', FS.node_put_ne _ _ _ _ hq',
                FS.node_put_ne _ _ _ _ hq']
              exact m3 q hq
        · simp only [if_neg c3, true_implies, false_implies, Bool.true_eq_false, and_true,
            true_and]
          refine ⟨⟨FS.node_put_same _ _ _ hP0, fun q hq => ?_⟩, fun q hq hne => ?_⟩
          · have hqP : q ≠ d ++ [name] := fun e => not_mem_inits_snoc d name (e ▸ hq)
            have hqT : q ≠ d ++ [ascii ".tmp-" ++ suffix] :=
              fun e => not_mem_inits_snoc d _ (e ▸ hq)
            rw [FS.node_put_ne _ _ _ _ hqP, FS.node_remove_ne _ _ _ hqT,
              FS.node_put_ne _ _ _ _ hqT, FS.node_put_ne _ _ _ _ hqT]
            exact m1 q hq
          · have hqT := hdirT q hq
            rw [FS.node_put_ne _ _ _ _ hne, FS.node_remove_ne _ _ _ hqT,
              FS.node_put_ne _ _ _ _ hqT, FS.node_put_ne _ _ _ _ hqT]
            exact m3 q hq

theorem joinPath_simple (base : Path) (name : GoString) (h1 : splitSlash name = [name])
    (h2 : name ≠ []) (h3 : name ≠ [46]) (h4 : name ≠ [46, 46]) :
    joinPath base [name] = base ++ [name] := by
  simp only [joinPath, List.flatMap_cons, List.flatMap_nil, List.append_nil, h1, List.foldl_cons,
    List.foldl_nil, cleanStep]
  rw [if_neg (by simp [h2, h3]), if_neg h4]

theorem writeFile_node (fs fs2 : FS) (p : Path) (b : List Nat) (h : fs.writeFile p b = some fs2)
    (q : Path) : (q ≠ p → fs2.node q = fs.node q) ∧ (fs.node q = some .dir → fs2.node q = some .dir) := by
  simp only [FS.writeFile] at h
  split at h
  · rename_i hc
    simp only [Option.some.injEq] at h
    subst h
    refine ⟨fun hq => FS.node_put_ne _ _ _ _ hq, fun hq => ?_⟩
    have : q ≠ p := fun e => hc.2.1 (e ▸ hq)
    rw [FS.node_put_ne _ _ _ _ this]; exact hq
  · exact absurd h (by simp)

/-- The backup step leaves `state.json` of the snapshot directory alone and keeps directories. -/
theorem createBackups_node (env : Env) (fs : FS) (d : Path) :
    (createBackups env fs d).2.node (d ++ [ascii "state.json"]) = fs.node (d ++ [ascii "state.json"])
    ∧ ∀ q, fs.node q = some .dir → (createBackups env fs d).2.node q = some .dir := by
  have n1 : joinPath (d ++ [ascii "backups"])
      [sysctlConfPath.map (fun c => if c = 47 then 95 else c)]
      = d ++ [ascii "backups"] ++ [sysctlConfPath.map (fun c => if c = 47 then 95 else c)] :=
    joinPath_simple _ _ (by decide) (by decide) (by decide) (by decide)
  have n2 : joinPath (d ++ [ascii "backups"])
      [NettuneQdiscScriptPath.map (fun c => if c = 47 then 95 else c)]
      = d ++ [ascii "backups"] ++ [NettuneQdiscScriptPath.map (fun c => if c = 47 then 95 else c)] :=
    joinPath_simple _ _ (by decide) (by decide) (by decide) (by decide)
  have hne : ∀ x : GoString, d ++ [ascii "state.json"] ≠ d ++ [ascii "backups"] ++ [x] := by
    intro x e
    have := congrArg List.length e
    simp at this
  simp only [createBackups, joinPath_backups]
  cases hm : (if env.mkdirBackupsFails = true then none
      else EnsureDir fs (d ++ [ascii "backups"])) with
  | none => exact ⟨rfl, fun q hq => hq⟩
  | some fs1 =>
    have hfs1 : EnsureDir fs (d ++ [ascii "backups"]) = some fs1 := by
      split at hm
      · exact absurd hm (by simp)
      · exact hm
    obtain ⟨m1, m2, m3⟩ := FS.mkdirAll_spec _ fs fs1 hfs1
    have hP1 : fs1.node (d ++ [ascii "state.json"]) = fs.node (d ++ [ascii "state.json"]) := by
      apply m2
      rw [inits_snoc, List.mem_append]
      rintro (h | h)
      · exact not_mem_inits_snoc d _ h
      · simp at h
        exact absurd (by simpa using h) (by decide : ascii "state.json" ≠ ascii "backups")
    simp only [List.foldl_cons, List.foldl_nil, n1, n2]
    -- invariant of one step
    have step : ∀ (fsa : FS) (x : GoString) (b : List Nat),
        (fsa.node (d ++ [ascii "state.json"]) = fs.node (d ++ [ascii "state.json"]) ∧
          ∀ q, fs.node q = some .dir → fsa.node q = some .dir) →
        ((match (if env.writeBackupFails = true then none
            else fsa.writeFile (d ++ [ascii "backups"] ++ [x]) b) with
          | some fs2 => fs2
          | none => fsa).node (d ++ [ascii "state.json"]) = fs.node (d ++ [ascii "state.json"]) ∧
          ∀ q, fs.node q = some .dir →
            (match (if env.writeBackupFails = true then none
              else fsa.writeFile (d ++ [ascii "backups"] ++ [x]) b) with
            | some fs2 => fs2
            | none => fsa).node q = some .dir) := by
      intro fsa x b hI
      cases hw : (if env.writeBackupFails = true then none
          else fsa.writeFile (d ++ [ascii "backups"] ++ [x]) b) with
      | none => exact hI
      | some fs2 =>
        have hw' : fsa.writeFile (d ++ [ascii "backups"] ++ [x]) b = some fs2 := by
          split at hw
          · exact absurd hw (by simp)
          · exact hw
        refine ⟨?_, fun q hq => ?_⟩
        · rw [(writeFile_node _ _ _ _ hw' _).1 (hne x)]; exact hI.1
        · exact (writeFile_node _ _ _ _ hw' q).2 (hI.2 q hq)
    have I0 : fs1.node (d ++ [ascii "state.json"]) = fs.node (d ++ [ascii "state.json"]) ∧
        ∀ q, fs.node q = some .dir → fs1.node q = some .dir := ⟨hP1, m3⟩
    cases h1 : env.host.file sysctlConfPath <;> cases h2 : env.host.file NettuneQdiscScriptPath <;>
      simp only [] <;>
      first
      | exact I0
      | exact step _ _ _ I0
      | exact step _ _ _ (step _ _ _ I0)

theorem decString_encString (s : GoString) (h : validUTF8 s = true) :
    decString (encString s) = some s := by
  simp [decString, encString, toValidUTF8_of_valid s h]

theorem decMap_textual {V : Type} (good : V → Prop) (enc : V → Json) (dec : Json → Option V)
    (m : GoMap V) (hm : GoMap.textual good m) (hv : ∀ v, good v → dec (enc v) = some v) :
    decMap dec (encMap enc m) = some m :=
  decMap_encMap enc dec m hm.1 (fun kv hkv => (hm.2 kv hkv).1)
    (fun kv hkv => hv kv.2 (hm.2 kv hkv).2)

theorem decMap_omitempty {V : Type} (good : V → Prop) (enc : V → Json) (dec : Json → Option V)
    (m : GoMap V) (hm : GoMap.textual good m) (hv : ∀ v, good v → dec (enc v) = some v) :
    decMap dec (if m.isEmpty = true then Json.null else encMap enc m) = some m := by
  cases m with
  | nil => rfl
  | cons kv rest =>
    simp only [List.isEmpty_cons, Bool.false_eq_true, if_false]
    exact decMap_textual good enc dec _ hm hv

theorem decAny_coerce (v : Json) (h : v.wellFormed = true) : decAny v.coerce = some v := by
  simp [decAny, Json.coerce_of_wellFormed v h]

theorem qdiscInfo_fromJson_toJson (q : QdiscInfo) (h : q.textual) :
    QdiscInfo.fromJson q.toJson = some q := by
  obtain ⟨t, hd, p⟩ := q
  obtain ⟨h1, h2, h3⟩ := h
  simp only at h1 h2 h3
  have hp := decMap_omitempty _ Json.coerce decAny p h3 (fun v hv => decAny_coerce v hv)
  cases p with
  | nil =>
    simp [QdiscInfo.toJson, QdiscInfo.fromJson, Json.field, ascii, lowerByte, decMap,
      decString, encString, toValidUTF8_of_valid t h1, toValidUTF8_of_valid hd h2]
  | cons kv rest =>
    simp only [List.isEmpty_cons, Bool.false_eq_true, if_false] at hp
    have f1 : ∀ a b c : Json, Json.field [(ascii "type", a), (ascii "handle", b),
        (ascii "params", c)] (ascii "type") = a := fun _ _ _ => rfl
    have f2 : ∀ a b c : Json, Json.field [(ascii "type", a), (ascii "handle", b),
        (ascii "params", c)] (ascii "handle") = b := fun _ _ _ => rfl
    have f3 : ∀ a b c : Json, Json.field [(ascii "type", a), (ascii "handle", b),
        (ascii "params", c)] (ascii "params") = c := fun _ _ _ => rfl
    simp only [QdiscInfo.toJson, QdiscInfo.fromJson, List.isEmpty_cons, Bool.false_eq_true,
      if_false, List.cons_append, List.nil_append, f1, f2, f3, hp,
      decString_encString t h1, decString_encString hd h2]

theorem decPtr_encPtr_qdisc (oq : Option QdiscInfo) (h : ∀ q, oq = some q → q.textual) :
    decPtr QdiscInfo.fromJson (encPtr QdiscInfo.toJson oq) = some oq := by
  cases oq with
  | none => rfl
  | some q =>
    have := qdiscInfo_fromJson_toJson q (h q rfl)
    simp only [encPtr]
    rw [decPtr]
    · rw [this]; rfl
    · intro e
      simp [QdiscInfo.toJson] at e

theorem systemState_fromJson_toJson (st : SystemState) (h : st.textual) :
    SystemState.fromJson st.toJson = some st := by
  obtain ⟨a, b, c, d⟩ := st
  obtain ⟨h1, h2, h3, h4⟩ := h
  simp only at h1 h2 h3 h4
  have f1 : ∀ w x y z : Json, Json.field [(ascii "sysctl", w), (ascii "qdisc", x),
      (ascii "systemd_units", y), (ascii "file_hashes", z)] (ascii "sysctl") = w :=
    fun _ _ _ _ => rfl
  have f2 : ∀ w x y z : Json, Json.field [(ascii "sysctl", w), (ascii "qdisc", x),
      (ascii "systemd_units", y), (ascii "file_hashes", z)] (ascii "qdisc") = x :=
    fun _ _ _ _ => rfl
  have f3 : ∀ w x y z : Json, Json.field [(ascii "sysctl", w), (ascii "qdisc", x),
      (ascii "systemd_units", y), (ascii "file_hashes", z)] (ascii "systemd_units") = y :=
    fun _ _ _ _ => rfl
  have f4 : ∀ w x y z : Json, Json.field [(ascii "sysctl", w), (ascii "qdisc", x),
      (ascii "systemd_units", y), (ascii "file_hashes", z)] (ascii "file_hashes") = z :=
    fun _ _ _ _ => rfl
  simp only [SystemState.toJson, SystemState.fromJson, f1, f2, f3, f4,
    decMap_textual _ encString decString a h1 (fun v hv => decString_encString v hv),
    decMap_textual _ (encPtr QdiscInfo.toJson) (decPtr QdiscInfo.fromJson) b h2
      (fun v hv => decPtr_encPtr_qdisc v hv),
    decMap_textual _ Json.bool decBool c h3 (fun v _ => rfl),
    decMap_textual _ encString decString d h4 (fun v hv => decString_encString v hv)]

theorem decPtr_encPtr_state (os : Option SystemState) (h : ∀ st, os = some st → st.textual) :
    decPtr SystemState.fromJson (encPtr SystemState.toJson os) = some os := by
  cases os with
  | none => rfl
  | some st =>
    have := systemState_fromJson_toJson st (h st rfl)
    simp only [encPtr]
    rw [decPtr]
    · rw [this]; rfl
    · intro e
      simp [SystemState.toJson] at e

/-- Decoding the JSON document of a textual snapshot gives the snapshot back. -/
theorem snapshot_fromJson_toJson (s : Snapshot) (doc : Json) (h : s.textual)
    (hd : s.toJson = some doc) : Snapshot.fromJson doc = some s := by
  obtain ⟨i, c, st, b, m⟩ := s
  obtain ⟨h1, h2, h3, h4⟩ := h
  simp only at h1 h2 h3 h4
  simp only [Snapshot.toJson] at hd
  cases hts : formatRFC3339Nano c with
  | none => rw [hts] at hd; exact absurd hd (by simp)
  | some ts =>
    rw [hts] at hd
    simp only [Option.some.injEq] at hd
    subst hd
    have ht := parseRFC3339_format c ts hts
    have hm := decMap_omitempty _ Json.coerce decAny m h4 (fun v hv => decAny_coerce v hv)
    have hb := decMap_textual _ encString decString b h3 (fun v hv => decString_encString v hv)
    have hs := decPtr_encPtr_state st h2
    cases m with
    | nil =>
      have f1 : ∀ w x y z : Json, Json.field [(ascii "id", w), (ascii "created_at", x),
          (ascii "state", y), (ascii "backups", z)] (ascii "id") = w := fun _ _ _ _ => rfl
      have f2 : ∀ w x y z : Json, Json.field [(ascii "id", w), (ascii "created_at", x),
          (ascii "state", y), (ascii "backups", z)] (ascii "created_at") = x :=
        fun _ _ _ _ => rfl
      have f3 : ∀ w x y z : Json, Json.field [(ascii "id", w), (ascii "created_at", x),
          (ascii "state", y), (ascii "backups", z)] (ascii "state") = y := fun _ _ _ _ => rfl
      have f4 : ∀ w x y z : Json, Json.field [(ascii "id", w), (ascii "created_at", x),
          (ascii "state", y), (ascii "backups", z)] (ascii "backups") = z := fun _ _ _ _ => rfl
      have f5 : ∀ w x y z : Json, Json.field [(ascii "id", w), (ascii "created_at", x),
          (ascii "state", y), (ascii "backups", z)] (ascii "metadata") = .null :=
        fun _ _ _ _ => rfl
      have hnull : decMap decAny Json.null = some ([] : GoMap Json) := rfl
      simp only [Snapshot.fromJson, List.isEmpty_nil, if_true, List.append_nil, f1, f2, f3, f4,
        f5, decString_encString i h1, decTime, ht, hs, hb, hnull]
    | cons kv rest =>
      simp only [List.isEmpty_cons, Bool.false_eq_true, if_false] at hm
      have f1 : ∀ w x y z v : Json, Json.field [(ascii "id", w), (ascii "created_at", x),
          (ascii "state", y), (ascii "backups", z), (ascii "metadata", v)] (ascii "id") = w :=
        fun _ _ _ _ _ => rfl
      have f2 : ∀ w x y z v : Json, Json.field [(ascii "id", w), (ascii "created_at", x),
          (ascii "state", y), (ascii "backups", z), (ascii "metadata", v)] (ascii "created_at")
          = x := fun _ _ _ _ _ => rfl
      have f3 : ∀ w x y z v : Json, Json.field [(ascii "id", w), (ascii "created_at", x),
          (ascii "state", y), (ascii "backups", z), (ascii "metadata", v)] (ascii "state") = y :=
        fun _ _ _ _ _ => rfl
      have f4 : ∀ w x y z v : Json, Json.field [(ascii "id", w), (ascii "created_at", x),
          (ascii "state", y), (ascii "backups", z), (ascii "metadata", v)] (ascii "backups")
          = z := fun _ _ _ _ _ => rfl
      have f5 : ∀ w x y z v : Json, Json.field [(ascii "id", w), (ascii "created_at", x),
          (ascii "state", y), (ascii "backups", z), (ascii "metadata", v)] (ascii "metadata")
          = v := fun _ _ _ _ _ => rfl
      simp only [Snapshot.fromJson, List.isEmpty_cons, Bool.false_eq_true, if_false,
        List.cons_append, List.nil_append, f1, f2, f3, f4, f5, decString_encString i h1,
        decTime, ht, hs, hb, hm]

theorem escapeASCII_ne_newline (b c : Nat) (h : c ∈ escapeASCII b) : c ≠ 10 := by
  unfold escapeASCII at h
  unfold hexDigit at h
  split_ifs at h <;> simp only [List.mem_cons, List.mem_singleton, List.not_mem_nil, or_false] at h
    <;> omega

theorem utf8Width_tail (b : Nat) (rest : GoString) (w : Nat)
    (h : utf8Width (b :: rest) = w + 1) : ∀ c ∈ rest.take w, 0x80 ≤ c := by
  simp only [utf8Width] at h
  by_cases h1 : b < 0x80
  · rw [if_pos h1] at h
    have : w = 0 := by omega
    subst this
    simp
  rw [if_neg h1] at h
  by_cases h2 : 0xC2 ≤ b ∧ b ≤ 0xDF
  · rw [if_pos h2] at h
    cases rest with
    | nil => simp at h
    | cons b1 r =>
      simp only at h
      by_cases hc : isCont b1 = true
      · rw [if_pos hc] at h
        have : w = 1 := by omega
        subst this
        simp only [isCont, Bool.and_eq_true, decide_eq_true_eq] at hc
        simp only [List.take_succ_cons, List.take_zero, List.mem_singleton, forall_eq]
        exact hc.1
      · rw [if_neg hc] at h
        omega
  rw [if_neg h2] at h
  by_cases h3 : 0xE0 ≤ b ∧ b ≤ 0xEF
  · rw [if_pos h3] at h
    match rest, h with
    | [], h => simp at h
    | [_], h => simp at h
    | b1 :: b2 :: r, h =>
      simp only at h
      by_cases hc : (if b = 0xE0 then 0xA0 else 0x80) ≤ b1 ∧ b1 ≤ (if b = 0xED then 0x9F else 0xBF)
          ∧ isCont b2 = true
      · rw [if_pos hc] at h
        have : w = 2 := by omega
        subst this
        have e1 : 0x80 ≤ b1 := by
          have := hc.1
          split_ifs at this <;> omega
        have e2 := hc.2.2
        simp only [isCont, Bool.and_eq_true, decide_eq_true_eq] at e2
        intro c hcm
        simp only [List.take_succ_cons, List.take_zero, List.mem_cons, List.mem_singleton,
          List.not_mem_nil, or_false] at hcm
        rcases hcm with rfl | rfl
        · exact e1
        · exact e2.1
      · rw [if_neg hc] at h
        omega
  rw [if_neg h3] at h
  by_cases h4 : 0xF0 ≤ b ∧ b ≤ 0xF4
  · rw [if_pos h4] at h
    match rest, h with
    | [], h => simp at h
    | [_], h => simp at h
    | [_, _], h => simp at h
    | b1 :: b2 :: b3 :: r, h =>
      simp only at h
      by_cases hc : (if b = 0xF0 then 0x90 else 0x80) ≤ b1 ∧ b1 ≤ (if b = 0xF4 then 0x8F else 0xBF)
          ∧ isCont b2 = true ∧ isCont b3 = true
      · rw [if_pos hc] at h
        have : w = 3 := by omega
        subst this
        have e1 : 0x80 ≤ b1 := by
          have := hc.1
          split_ifs at this <;> omega
        have e2 := hc.2.2.1
        have e3 := hc.2.2.2
        simp only [isCont, Bool.and_eq_true, decide_eq_true_eq] at e2 e3
        intro c hcm
        simp only [List.take_succ_cons, List.take_zero, List.mem_cons, List.mem_singleton,
          List.not_mem_nil, or_false] at hcm
        rcases hcm with rfl | rfl | rfl
        · exact e1
        · exact e2.1
        · exact e3.1
      · rw [if_neg hc] at h
        omega
  rw [if_neg h4] at h
  omega

theorem appendStringAux_ne_newline (s : GoString) :
    ∀ (k : Nat) (keep : Bool), (∀ c ∈ s.take k, 0x80 ≤ c) →
      ∀ c ∈ appendStringAux k keep s, c ≠ 10 := by
  induction s with
  | nil => intro k keep _ c hc; cases k <;> simp [appendStringAux] at hc
  | cons b rest ih =>
    intro k keep hk c hc
    cases k with
    | succ k =>
      simp only [appendStringAux, List.mem_append] at hc
      rcases hc with hc | hc
      · have hb : 0x80 ≤ b := hk b (by simp)
        split_ifs at hc
        · simp only [List.mem_singleton] at hc
          omega
        · simp at hc
      · exact ih k keep (fun c hc => hk c (by simp [hc])) c hc
    | zero =>
      simp only [appendStringAux] at hc
      by_cases hlt : b < 0x80
      · rw [if_pos hlt] at hc
        simp only [List.mem_append] at hc
        rcases hc with hc | hc
        · exact escapeASCII_ne_newline b c hc
        · exact ih 0 true (by simp) c hc
      · rw [if_neg hlt] at hc
        cases hw : utf8Width (b :: rest) with
        | zero =>
          rw [hw] at hc
          simp only [List.mem_append, List.mem_cons, List.not_mem_nil, or_false] at hc
          rcases hc with hc | hc
          · omega
          · exact ih 0 true (by simp) c hc
        | succ w =>
          rw [hw] at hc
          have ht := utf8Width_tail b rest w hw
          simp only at hc
          by_cases h8 : (b :: rest).take 3 = [0xE2, 0x80, 0xA8]
          · rw [if_pos h8] at hc
            simp only [List.mem_append, List.mem_cons, List.not_mem_nil, or_false] at hc
            rcases hc with hc | hc
            · omega
            · exact ih w false ht c hc
          · rw [if_neg h8] at hc
            by_cases h9 : (b :: rest).take 3 = [0xE2, 0x80, 0xA9]
            · rw [if_pos h9] at hc
              simp only [List.mem_append, List.mem_cons, List.not_mem_nil, or_false] at hc
              rcases hc with hc | hc
              · omega
              · exact ih w false ht c hc
            · rw [if_neg h9] at hc
              simp only [List.mem_cons] at hc
              rcases hc with hc | hc
              · omega
              · exact ih w true ht c hc

theorem marshalString_ne_newline (s : GoString) : ∀ c ∈ marshalString s, c ≠ 10 := by
  intro c hc
  simp only [marshalString, List.mem_cons, List.mem_append, List.mem_singleton,
    List.not_mem_nil, or_false] at hc
  rcases hc with (hc | hc) | hc
  · omega
  · exact appendStringAux_ne_newline s 0 true (by simp) c hc
  · omega

theorem padDigits_ne_newline (w x : Nat) : ∀ c ∈ padDigits w x, c ≠ 10 := by
  intro c hc
  have h := padDigits_all_digit w x
  rw [List.all_eq_true] at h
  have := h c hc
  simp only [isDigit, Bool.and_eq_true, decide_eq_true_eq] at this
  omega

theorem trimZeros_subset (l : GoString) : ∀ c ∈ trimZeros l, c ∈ l := by
  intro c hc
  obtain ⟨k, hk⟩ := trimZeros_split l
  rw [hk]
  exact List.mem_append_left _ hc

theorem formatRFC3339Nano_ne_newline (t : Time) (ts : GoString)
    (h : formatRFC3339Nano t = some ts) : ∀ c ∈ ts, c ≠ 10 := by
  simp only [formatRFC3339Nano] at h
  split_ifs at h with hy
  obtain ⟨r1, r2, r3, r4, r5⟩ := civil_ranges t
  have hn : t % 1000000000 < 10 ^ 9 := by
    have : t % 1000000000 < 1000000000 := Nat.mod_lt _ (by norm_num)
    simpa using this
  rw [appendInt_eq_pad 4 _ (by simpa using Nat.lt_of_not_ge hy), appendInt_eq_pad 2 _ (by simpa using r1),
    appendInt_eq_pad 2 _ (by simpa using r2), appendInt_eq_pad 2 _ (by simpa using r3),
    appendInt_eq_pad 2 _ (by simpa using r4), appendInt_eq_pad 2 _ (by simpa using r5)] at h
  injection h with h
  subst h
  intro c hc
  simp only [List.mem_append, List.mem_cons, List.mem_singleton, List.not_mem_nil,
    or_false] at hc
  have hnano : ∀ c ∈ appendNano (t % 1000000000), c ≠ 10 := by
    intro c hc
    unfold appendNano at hc
    split_ifs at hc
    · simp at hc
    · simp only [List.mem_cons] at hc
      rcases hc with hc | hc
      · omega
      · rw [appendInt_eq_pad 9 _ hn] at hc
        exact padDigits_ne_newline 9 _ c (trimZeros_subset _ c hc)
  rcases hc with hc | hc | hc | hc | hc | hc | hc | hc | hc | hc | hc | hc | hc
  all_goals first
    | exact padDigits_ne_newline _ _ c hc
    | exact hnano c hc
    | omega

theorem ascii_bool_ne_newline (b : Bool) :
    ∀ c ∈ (if b = true then ascii "true" else ascii "false"), c ≠ 10 := by
  cases b <;> decide

theorem marshal_ne_newline (e : HistoryEntry) (hd : e.Details = []) (data : GoString)
    (h : e.marshal = some data) : ∀ c ∈ data, c ≠ 10 := by
  simp only [HistoryEntry.marshal] at h
  cases hts : formatRFC3339Nano e.Timestamp with
  | none => rw [hts] at h; simp at h
  | some ts =>
    rw [hts] at h
    simp only [Option.some.injEq, hd, List.isEmpty_nil, if_true, List.append_nil] at h
    subst h
    have k1 : ∀ c ∈ ascii "\x7b\"timestamp\":\"", c ≠ 10 := by decide
    have k2 : ∀ c ∈ ascii "\",\"action\":", c ≠ 10 := by decide
    have k3 : ∀ c ∈ ascii ",\"profile_id\":", c ≠ 10 := by decide
    have k4 : ∀ c ∈ ascii ",\"snapshot_id\":", c ≠ 10 := by decide
    have k5 : ∀ c ∈ ascii ",\"success\":", c ≠ 10 := by decide
    have k6 : ∀ c ∈ ascii "\x7d", c ≠ 10 := by decide
    have kt := formatRFC3339Nano_ne_newline _ _ hts
    intro c hc
    simp only [List.mem_append] at hc
    rcases hc with ((((((((hc | hc) | hc) | hc) | hc) | hc) | hc) | hc) | hc)
    · exact k1 c hc
    · exact kt c hc
    · exact k2 c hc
    · exact marshalString_ne_newline _ c hc
    · split_ifs at hc
      · simp at hc
      · rcases List.mem_append.mp hc with hc | hc
        · exact k3 c hc
        · exact marshalString_ne_newline _ c hc
    · split_ifs at hc
      · simp at hc
      · rcases List.mem_append.mp hc with hc | hc
        · exact k4 c hc
        · exact marshalString_ne_newline _ c hc
    · exact k5 c hc
    · exact ascii_bool_ne_newline _ c hc
    · exact k6 c hc

theorem appendEntry_prefix (af : AppendFaults) (j : Journal) (e : HistoryEntry) :
    ∃ added, (appendEntry af j e).2.getD [] = j.getD [] ++ added ∧ added.length ≤ 1 := by
  unfold appendEntry
  by_cases ho : af.openFails = true
  · rw [if_pos ho]
    exact ⟨[], by simp, by simp⟩
  · rw [if_neg ho]
    cases hj : e.toJson with
    | none => exact ⟨[], by simp, by simp⟩
    | some doc =>
      by_cases hw : af.writeFails = true
      · simp only [hw, if_true]
        exact ⟨[], by simp, by simp⟩
      · simp only [hw]
        exact ⟨[.json doc], by simp, by simp⟩

theorem record_journal (af : AppendFaults) (st : HistoryService × Journal) (c : Call) :
    (HistoryService.record af st c).2 = (appendEntry af st.2 c.entry).2 := by
  cases c with
  | apply now p sn ok =>
    simp only [HistoryService.record, HistoryService.RecordApply, Call.entry]
    split <;> rfl
  | rollback now sn ok => rfl
  | snapshot now sn => rfl

theorem marshal_isSome (e : HistoryEntry) (h : e.Timestamp < year10000) :
    ∃ data, e.marshal = some data := by
  obtain ⟨ts, hts⟩ := formatRFC3339Nano_isSome e.Timestamp h
  simp only [HistoryEntry.marshal, hts]
  exact ⟨_, rfl⟩

theorem trimRight_collapse_word (f : Bool) (b : Nat) (r : GoString) (hb : isSpace b = false) :
    trimRight (collapseRuns f (b :: r)) = b :: trimRight (collapseRuns false r) := by
  simp [collapseRuns, hb, trimRight]

theorem trimRight_collapse_inRun (b : Nat) (r : GoString) (hb : isSpace b = true) :
    trimRight (collapseRuns true (b :: r)) = trimRight (collapseRuns true r) := by
  simp [collapseRuns, hb]

theorem trimRight_collapse_space (b : Nat) (r : GoString) (hb : isSpace b = true) :
    trimRight (collapseRuns false (b :: r)) =
      if trimRight (collapseRuns true r) = [] then []
      else 32 :: trimRight (collapseRuns true r) := by
  have h32 : isSpace 32 = true := by decide
  simp only [collapseRuns, hb, if_true, trimRight, h32, and_true, Bool.false_eq_true, if_false,
    List.isEmpty_iff]

theorem head_collapse_inRun (s : GoString) :
    ∀ c, (trimRight (collapseRuns true s)).head? = some c → isSpace c = false := by
  induction s with
  | nil => intro c h; simp [collapseRuns, trimRight] at h
  | cons b r ih =>
    intro c h
    cases hb : isSpace b with
    | true =>
      rw [trimRight_collapse_inRun b r hb] at h
      exact ih c h
    | false =>
      rw [trimRight_collapse_word true b r hb] at h
      simp only [List.head?_cons, Option.some.injEq] at h
      rw [← h]
      exact hb

theorem trimLeft_of_head (x : GoString) (h : ∀ c, x.head? = some c → isSpace c = false) :
    trimLeft x = x := by
  cases x with
  | nil => rfl
  | cons a r =>
    have := h a rfl
    simp [trimLeft, List.dropWhile, this]

theorem normalizeSysctlValue_eq (s : GoString) :
    normalizeSysctlValue s = trimRight (collapseRuns true s) := by
  unfold normalizeSysctlValue trimSpace
  cases s with
  | nil => rfl
  | cons b r =>
    cases hb : isSpace b with
    | true =>
      rw [trimRight_collapse_space b r hb, trimRight_collapse_inRun b r hb]
      split
      · rename_i h
        rw [h]
        rfl
      · have h32 : isSpace 32 = true := by decide
        rw [trimLeft, List.dropWhile_cons_of_pos h32]
        exact trimLeft_of_head _ (head_collapse_inRun r)
    | false =>
      rw [trimRight_collapse_word false b r hb, trimRight_collapse_word true b r hb]
      exact trimLeft_of_head _ (by intro c h; simp at h; rw [← h]; exact hb)

theorem fieldsAux_nonempty (s : GoString) :
    ∀ cur, ∀ f ∈ fieldsAux cur s, f ≠ [] := by
  induction s with
  | nil =>
    intro cur f hf
    simp only [fieldsAux] at hf
    split_ifs at hf with h
    · simp at hf
    · simp only [List.mem_singleton] at hf
      subst hf
      simpa [List.isEmpty_iff] using h
  | cons b r ih =>
    intro cur f hf
    simp only [fieldsAux] at hf
    split_ifs at hf with h1 h2
    · exact ih [] f hf
    · simp only [List.mem_cons] at hf
      rcases hf with rfl | hf
      · simpa [List.isEmpty_iff] using h2
      · exact ih [] f hf
    · exact ih _ f hf

theorem joinWith_eq_nil (sep : GoString) (fs : List GoString) (h : ∀ f ∈ fs, f ≠ [])
    (hj : joinWith sep fs = []) : fs = [] := by
  match fs, h, hj with
  | [], _, _ => rfl
  | [a], h, hj =>
    simp only [joinWith] at hj
    exact absurd hj (h a (by simp))
  | a :: b :: rest, h, hj =>
    simp only [joinWith, List.append_eq_nil] at hj
    exact absurd hj.1.1 (h a (by simp))

theorem joinWith_cons (sep a : GoString) (fs : List GoString) :
    joinWith sep (a :: fs) = if fs = [] then a else a ++ sep ++ joinWith sep fs := by
  cases fs with
  | nil => simp [joinWith]
  | cons b rest => simp [joinWith]

theorem joinWith_fieldsAux (s : GoString) :
    ∀ cur, joinWith [32] (fieldsAux cur s) =
      if cur = [] then trimRight (collapseRuns true s)
      else cur ++ trimRight (collapseRuns false s) := by
  induction s with
  | nil =>
    intro cur
    by_cases hc : cur = []
    · subst hc
      rfl
    · simp [fieldsAux, hc, joinWith, collapseRuns, trimRight, List.isEmpty_iff]
  | cons b r ih =>
    intro cur
    cases hb : isSpace b with
    | true =>
      rw [trimRight_collapse_inRun b r hb, trimRight_collapse_space b r hb]
      simp only [fieldsAux, hb, if_true, List.isEmpty_iff]
      by_cases hc : cur = []
      · simp only [hc, if_true]
        simpa using ih []
      · simp only [hc, if_false]
        rw [joinWith_cons]
        have e := ih []
        simp only [if_true] at e
        by_cases hf : fieldsAux [] r = []
        · rw [if_pos hf]
          rw [hf] at e
          simp only [joinWith] at e
          rw [if_pos e.symm]
          simp
        · rw [if_neg hf]
          have hne : trimRight (collapseRuns true r) ≠ [] := by
            intro h0
            rw [h0] at e
            exact hf (joinWith_eq_nil _ _ (fieldsAux_nonempty r []) e)
          rw [if_neg hne, e]
          simp
    | false =>
      rw [trimRight_collapse_word true b r hb, trimRight_collapse_word false b r hb]
      simp only [fieldsAux, hb, Bool.false_eq_true, if_false]
      rw [ih (cur ++ [b])]
      by_cases hc : cur = []
      · simp [hc]
      · simp [hc]

theorem collapse_spaces (s : GoString) :
    ∀ f, ∀ c ∈ trimRight (collapseRuns f s), isSpace c = true → c = 32 := by
  induction s with
  | nil => intro f c h; simp [collapseRuns, trimRight] at h
  | cons b r ih =>
    intro f c h hc
    cases hb : isSpace b with
    | false =>
      rw [trimRight_collapse_word f b r hb] at h
      simp only [List.mem_cons] at h
      rcases h with rfl | h
      · rw [hb] at hc
        exact absurd hc (by simp)
      · exact ih false c h hc
    | true =>
      cases f with
      | true =>
        rw [trimRight_collapse_inRun b r hb] at h
        exact ih true c h hc
      | false =>
        rw [trimRight_collapse_space b r hb] at h
        split_ifs at h
        · simp at h
        · simp only [List.mem_cons] at h
          rcases h with rfl | h
          · rfl
          · exact ih true c h hc

theorem collapse_last (s : GoString) :
    ∀ f c, (trimRight (collapseRuns f s)).getLast? = some c → isSpace c = false := by
  induction s with
  | nil => intro f c h; simp [collapseRuns, trimRight] at h
  | cons b r ih =>
    intro f c h
    cases hb : isSpace b with
    | false =>
      rw [trimRight_collapse_word f b r hb] at h
      cases hr : trimRight (collapseRuns false r) with
      | nil =>
        rw [hr] at h
        simp only [List.getLast?_singleton, Option.some.injEq] at h
        rw [← h]
        exact hb
      | cons a t =>
        rw [hr, List.getLast?_cons_cons] at h
        rw [← hr] at h
        exact ih false c h
    | true =>
      cases f with
      | true =>
        rw [trimRight_collapse_inRun b r hb] at h
        exact ih true c h
      | false =>
        rw [trimRight_collapse_space b r hb] at h
        split_ifs at h with h0
        · simp at h
        · cases hr : trimRight (collapseRuns true r) with
          | nil => exact absurd hr h0
          | cons a t =>
            rw [hr, List.getLast?_cons_cons] at h
            rw [← hr] at h
            exact ih true c h

theorem collapse_chain (s : GoString) :
    ∀ f, (trimRight (collapseRuns f s)).Chain'
      (fun a b => ¬ (isSpace a = true ∧ isSpace b = true)) := by
  induction s with
  | nil => intro f; simp [collapseRuns, trimRight]
  | cons b r ih =>
    intro f
    cases hb : isSpace b with
    | false =>
      rw [trimRight_collapse_word f b r hb, List.chain'_cons']
      refine ⟨fun y _ hy => ?_, ih false⟩
      rw [hb] at hy
      exact absurd hy.1 (by simp)
    | true =>
      cases f with
      | true =>
        rw [trimRight_collapse_inRun b r hb]
        exact ih true
      | false =>
        rw [trimRight_collapse_space b r hb]
        split_ifs
        · simp
        · rw [List.chain'_cons']
          refine ⟨fun y hy hsp => ?_, ih true⟩
          have := head_collapse_inRun r y (by simpa using hy)
          rw [this] at hsp
          exact absurd hsp.2 (by simp)

theorem collapse_fixed (x : GoString) :
    (∀ c ∈ x, isSpace c = true → c = 32) →
    (∀ c, x.getLast? = some c → isSpace c = false) →
    x.Chain' (fun a b => ¬ (isSpace a = true ∧ isSpace b = true)) →
    trimRight (collapseRuns false x) = x ∧
      ((∀ c, x.head? = some c → isSpace c = false) → trimRight (collapseRuns true x) = x) := by
  induction x with
  | nil => intro _ _ _; exact ⟨rfl, fun _ => rfl⟩
  | cons b r ih =>
    intro h1 h2 h3
    rw [List.chain'_cons'] at h3
    have h2r : ∀ c, r.getLast? = some c → isSpace c = false := by
      intro c hc
      cases r with
      | nil => simp at hc
      | cons a t =>
        apply h2 c
        rw [List.getLast?_cons_cons]
        exact hc
    obtain ⟨i1, i2⟩ := ih (fun c hc => h1 c (List.mem_cons_of_mem _ hc)) h2r h3.2
    cases hb : isSpace b with
    | false =>
      rw [trimRight_collapse_word false b r hb, trimRight_collapse_word true b r hb, i1]
      exact ⟨rfl, fun _ => rfl⟩
    | true =>
      have hb32 : b = 32 := h1 b (by simp) hb
      cases r with
      | nil =>
        have := h2 b (by simp)
        rw [hb] at this
        exact absurd this (by simp)
      | cons a t =>
        have ha : isSpace a = false := by
          have := h3.1 a (by simp)
          rw [hb] at this
          simpa using this
        have e := i2 (by intro c hc; simp at hc; rw [← hc]; exact ha)
        refine ⟨?_, fun hh => ?_⟩
        · rw [trimRight_collapse_space b _ hb, e, hb32]
          simp
        · have := hh b (by simp)
          rw [hb] at this
          exact absurd this (by simp)

theorem GoMap.get?_insert_self {V : Type} (k : GoString) (v : V) (m : GoMap V) :
    GoMap.get? (GoMap.insert k v m) k = some v := by
  induction m with
  | nil => simp [GoMap.insert, GoMap.get?]
  | cons kv rest ih =>
    obtain ⟨k', v'⟩ := kv
    simp only [GoMap.insert]
    by_cases h1 : strLess k k' = true
    · rw [if_pos h1]
      simp [GoMap.get?]
    · rw [if_neg h1]
      by_cases h2 : k = k'
      · rw [if_pos h2]
        simp [GoMap.get?]
      · rw [if_neg h2]
        have h3 : (k' == k) = false := by
          rw [beq_eq_false_iff_ne]
          exact fun e => h2 e.symm
        simp only [GoMap.get?, List.find?_cons, h3]
        exact ih

theorem GoMap.get?_insert_ne {V : Type} (k k0 : GoString) (v : V) (m : GoMap V) (h : k0 ≠ k) :
    GoMap.get? (GoMap.insert k v m) k0 = GoMap.get? m k0 := by
  have hk : (k == k0) = false := by
    rw [beq_eq_false_iff_ne]
    exact fun e => h e.symm
  induction m with
  | nil => simp [GoMap.insert, GoMap.get?, hk]
  | cons kv rest ih =>
    obtain ⟨k', v'⟩ := kv
    simp only [GoMap.insert]
    by_cases h1 : strLess k k' = true
    · rw [if_pos h1]
      simp only [GoMap.get?, List.find?_cons, hk]
    · rw [if_neg h1]
      by_cases h2 : k = k'
      · rw [if_pos h2]
        subst h2
        simp only [GoMap.get?, List.find?_cons, hk]
      · rw [if_neg h2]
        simp only [GoMap.get?, List.find?_cons]
        cases hc : (k' == k0) with
        | true => rfl
        | false => exact ih

theorem wrapInt64_of_range (x : Int) (h1 : -9223372036854775808 ≤ x)
    (h2 : x ≤ 9223372036854775807) : wrapInt64 x = x := by
  unfold wrapInt64
  omega

theorem Time.Sub_lt (t t0 : Time) (i : Int) (h0 : t0 ≤ t) (h : (t : Int) - (t0 : Int) < i) :
    ¬ (Time.Sub t t0 ≥ i) := by
  have h0' : (t0 : Int) ≤ (t : Int) := Int.ofNat_le.mpr h0
  unfold Time.Sub
  omega

theorem Time.Sub_ge (t t0 : Time) (i : Int) (hi : i ≤ 9223372036854775807)
    (h : (t : Int) - (t0 : Int) ≥ i) : Time.Sub t t0 ≥ i := by
  unfold Time.Sub
  omega

theorem allowAll_bucket (key : GoString) (t0 : Time) (ts : List Time) :
    ∀ (r : RateLimiter) (k : Nat), r.requests.get? key = some ⟨(k : Int), t0⟩ →
      (k : Int) ≤ 9223372036854775807 →
      (∀ t ∈ ts, t0 ≤ t ∧ (t : Int) - (t0 : Int) < r.interval) →
      (r.allowAll key ts).1
        = List.replicate (min ts.length k) true ++ List.replicate (ts.length - k) false := by
  induction ts with
  | nil => intro r k _ _ _; simp [RateLimiter.allowAll]
  | cons t rest ih =>
    intro r k hb hk hw
    have ht := hw t (by simp)
    have hsub := Time.Sub_lt t t0 r.interval ht.1 ht.2
    simp only [RateLimiter.allowAll, RateLimiter.Allow, hb, if_neg hsub]
    cases k with
    | zero =>
      have e0 : ¬ (((0 : Nat) : Int) > 0) := by simp
      rw [if_neg e0]
      simp only
      rw [ih r 0 hb hk (fun t' ht' => hw t' (List.mem_cons_of_mem _ ht'))]
      simp [List.replicate_succ]
    | succ j =>
      have e1 : (((j + 1 : Nat) : Int) > 0) := by omega
      rw [if_pos e1]
      simp only
      have ew : wrapInt64 (((j + 1 : Nat) : Int) - 1) = (j : Int) := by
        rw [wrapInt64_of_range _ (by omega) (by omega)]
        omega
      rw [ew]
      rw [ih ⟨GoMap.insert key ⟨(j : Int), t0⟩ r.requests, r.rate, r.interval⟩ j
        (GoMap.get?_insert_self key _ _) (by omega)
        (fun t' ht' => hw t' (List.mem_cons_of_mem _ ht'))]
      simp only [List.length_cons, Nat.add_sub_add_right]
      rw [Nat.succ_min_succ, List.replicate_succ, List.cons_append]

theorem Allow_config (r : RateLimiter) (t : Time) (a : GoString) :
    (r.Allow t a).2.rate = r.rate ∧ (r.Allow t a).2.interval = r.interval := by
  unfold RateLimiter.Allow
  split
  · exact ⟨rfl, rfl⟩
  · split_ifs <;> exact ⟨rfl, rfl⟩

theorem Allow_get?_ne (r : RateLimiter) (t : Time) (a k : GoString) (h : k ≠ a) :
    (r.Allow t a).2.requests.get? k = r.requests.get? k := by
  unfold RateLimiter.Allow
  split
  · exact GoMap.get?_insert_ne a k _ _ h
  · split_ifs
    · exact GoMap.get?_insert_ne a k _ _ h
    · exact GoMap.get?_insert_ne a k _ _ h
    · rfl

theorem Allow_congr (r1 r2 : RateLimiter) (t : Time) (k : GoString)
    (hr : r1.rate = r2.rate) (hi : r1.interval = r2.interval)
    (hk : r1.requests.get? k = r2.requests.get? k) :
    (r1.Allow t k).1 = (r2.Allow t k).1 ∧
      (r1.Allow t k).2.requests.get? k = (r2.Allow t k).2.requests.get? k := by
  unfold RateLimiter.Allow
  rw [hk, hr, hi]
  cases hb : r2.requests.get? k with
  | none => simp [GoMap.get?_insert_self]
  | some b =>
    simp only
    split_ifs <;> simp [GoMap.get?_insert_self, hk, hb]

theorem serve_without (a : GoString) (calls : List (Time × GoString)) :
    ∀ r1 r2 : RateLimiter, r1.rate = r2.rate → r1.interval = r2.interval →
      (∀ k, k ≠ a → r1.requests.get? k = r2.requests.get? k) →
      (r1.serve calls).1.filter (fun x => decide (x.1 ≠ a))
        = (r2.serve (calls.filter (fun c => decide (c.2 ≠ a)))).1 := by
  induction calls with
  | nil => intro r1 r2 _ _ _; rfl
  | cons c rest ih =>
    intro r1 r2 hr hi hk
    obtain ⟨t, k⟩ := c
    by_cases hka : k = a
    · subst hka
      simp only [RateLimiter.serve, List.filter_cons, ne_eq, not_true_eq_false, decide_False,
        Bool.false_eq_true, if_false]
      have c1 := Allow_config r1 t k
      exact ih _ r2 (c1.1.trans hr) (c1.2.trans hi)
        (fun k' hk' => (Allow_get?_ne r1 t k k' hk').trans (hk k' hk'))
    · have hd : decide (k ≠ a) = true := by simpa using hka
      simp only [RateLimiter.serve, List.filter_cons, hd, if_true]
      have c1 := Allow_config r1 t k
      have c2 := Allow_config r2 t k
      have cg := Allow_congr r1 r2 t k hr hi (hk k hka)
      rw [cg.1]
      congr 1
      apply ih _ _ (c1.1.trans (hr.trans c2.1.symm)) (c1.2.trans (hi.trans c2.2.symm))
      intro k' hk'
      by_cases e : k' = k
      · subst e
        exact cg.2
      · rw [Allow_get?_ne r1 t k k' e, Allow_get?_ne r2 t k k' e]
        exact hk k' hk'

theorem lor_eq_zero (a b : Nat) : a ||| b = 0 ↔ a = 0 ∧ b = 0 := by
  constructor
  · intro h
    have hb : ∀ i, (a.testBit i || b.testBit i) = false := by
      intro i
      rw [← Nat.testBit_or, h, Nat.zero_testBit]
    constructor
    · apply Nat.eq_of_testBit_eq
      intro i
      have := hb i
      rw [Bool.or_eq_false_iff] at this
      rw [this.1, Nat.zero_testBit]
    · apply Nat.eq_of_testBit_eq
      intro i
      have := hb i
      rw [Bool.or_eq_false_iff] at this
      rw [this.2, Nat.zero_testBit]
  · rintro ⟨rfl, rfl⟩
    rfl

theorem foldl_lor_eq_zero (l : List Nat) :
    ∀ v, l.foldl (fun v d => v ||| d) v = 0 ↔ v = 0 ∧ ∀ d ∈ l, d = 0 := by
  induction l with
  | nil => intro v; simp
  | cons d rest ih =>
    intro v
    rw [List.foldl_cons, ih, lor_eq_zero]
    simp only [List.mem_cons, forall_eq_or_imp]
    tauto

theorem zipWith_xor_zero (x : List Nat) :
    ∀ y, x.length = y.length →
      ((∀ d ∈ List.zipWith (fun a b => a ^^^ b) x y, d = 0) ↔ x = y) := by
  induction x with
  | nil =>
    intro y h
    cases y with
    | nil => simp
    | cons _ _ => simp at h
  | cons a r ih =>
    intro y h
    cases y with
    | nil => simp at h
    | cons b s =>
      simp only [List.length_cons, Nat.add_right_cancel_iff] at h
      simp only [List.zipWith_cons_cons, List.mem_cons, forall_eq_or_imp, Nat.xor_eq_zero,
        List.cons.injEq, ih s h]

theorem ConstantTimeCompare_eq_one (x y : List Nat) : ConstantTimeCompare x y = 1 ↔ x = y := by
  unfold ConstantTimeCompare
  by_cases hl : x.length = y.length
  · rw [if_neg (by simpa using hl)]
    rw [← zipWith_xor_zero x y hl]
    constructor
    · intro h
      split_ifs at h with h0
      exact ((foldl_lor_eq_zero _ 0).mp h0).2
    · intro h
      rw [if_pos ((foldl_lor_eq_zero _ 0).mpr ⟨rfl, h⟩)]
  · rw [if_pos (by simpa using hl)]
    constructor
    · intro h
      exact absurd h (by decide)
    · intro h
      exact absurd (congrArg List.length h) hl

theorem SplitN2_eq_pair (s a b : GoString) (sep : Nat) :
    SplitN2 s sep = [a, b] ↔ (s = a ++ sep :: b ∧ sep ∉ a) := by
  unfold SplitN2
  constructor
  · intro h
    have hs := List.takeWhile_append_dropWhile (fun c => c != sep) s
    cases hd : s.dropWhile (fun c => c != sep) with
    | nil => rw [hd] at h; simp at h
    | cons c after =>
      rw [hd] at h hs
      simp only [List.cons.injEq, and_true] at h
      have hc : c = sep := by
        have := List.head_dropWhile_not (fun c => c != sep) s (by rw [hd]; simp)
        simp only [hd, List.head_cons] at this
        simpa using this
      subst hc
      refine ⟨by rw [← h.1, ← h.2]; exact hs.symm, ?_⟩
      rw [← h.1]
      intro hm
      have := List.mem_takeWhile_imp hm
      simp at this
  · rintro ⟨rfl, hn⟩
    have ha : ∀ c ∈ a, (c != sep) = true := by
      intro c hc
      simp only [bne_iff_ne, ne_eq]
      intro e
      exact hn (e ▸ hc)
    have h1 : (a ++ sep :: b).dropWhile (fun c => c != sep) = sep :: b := by
      rw [List.dropWhile_append_of_pos ha]
      simp [List.dropWhile]
    have h2 : (a ++ sep :: b).takeWhile (fun c => c != sep) = a := by
      rw [List.takeWhile_append_of_pos ha]
      simp [List.takeWhile]
    rw [h1, h2]

theorem foldl_digits_ge (ds : GoString) :
    ∀ n, n ≤ ds.foldl (fun a c => a * 10 + (c - 48)) n := by
  induction ds with
  | nil => intro n; exact Nat.le_refl n
  | cons c rest ih =>
    intro n
    rw [List.foldl_cons]
    exact Nat.le_trans (by omega) (ih (n * 10 + (c - 48)))

theorem parseUintLoop_digits (ds : GoString) :
    ∀ n, n ≤ 18446744073709551615 → ds.all isDigit = true →
      parseUintLoop ds n =
        if ds.foldl (fun a c => a * 10 + (c - 48)) n ≤ 18446744073709551615 then
          .ok (ds.foldl (fun a c => a * 10 + (c - 48)) n)
        else .error .ErrRange := by
  induction ds with
  | nil =>
    intro n hn _
    simp [parseUintLoop, hn]
  | cons c rest ih =>
    intro n hn hd
    simp only [List.all_cons, Bool.and_eq_true] at hd
    obtain ⟨hc, hr⟩ := hd
    simp only [isDigit, Bool.and_eq_true, decide_eq_true_eq] at hc
    simp only [parseUintLoop, List.foldl_cons]
    rw [if_pos hc]
    have hge := foldl_digits_ge rest (n * 10 + (c - 48))
    by_cases h1 : n ≥ 18446744073709551615 / 10 + 1
    · rw [if_pos h1, if_neg (by omega)]
    · rw [if_neg h1]
      have e10 : n * 10 % 18446744073709551616 = n * 10 := Nat.mod_eq_of_lt (by omega)
      simp only [e10]
      by_cases h2 : n * 10 + (c - 48) ≤ 18446744073709551615
      · have e1 : (n * 10 + (c - 48)) % 18446744073709551616 = n * 10 + (c - 48) :=
          Nat.mod_eq_of_lt (by omega)
        rw [e1, if_neg (by omega)]
        exact ih _ h2 hr
      · have e1 : (n * 10 + (c - 48)) % 18446744073709551616
            = n * 10 + (c - 48) - 18446744073709551616 := by omega
        rw [e1, if_pos (by omega), if_neg (by omega)]

theorem parseUintLoop_nondigit (ds : GoString) :
    ∀ n, ds.all isDigit = false → ∃ e, parseUintLoop ds n = .error e := by
  induction ds with
  | nil => intro n h; simp at h
  | cons c rest ih =>
    intro n h
    simp only [parseUintLoop]
    by_cases hc : 48 ≤ c ∧ c ≤ 57
    · rw [if_pos hc]
      have hr : rest.all isDigit = false := by
        have hcd : isDigit c = true := by
          simp only [isDigit, Bool.and_eq_true, decide_eq_true_eq]
          exact hc
        simpa [List.all_cons, hcd] using h
      split_ifs
      · exact ⟨_, rfl⟩
      · exact ⟨_, rfl⟩
      · exact ih _ hr
    · rw [if_neg hc]
      exact ⟨_, rfl⟩

theorem ParseUint_ok_iff (s : GoString) (v : Nat) :
    ParseUint s = .ok v ↔
      s ≠ [] ∧ s.all isDigit = true ∧ decimalValue s = v ∧ v ≤ 18446744073709551615 := by
  unfold ParseUint decimalValue
  by_cases h0 : s = []
  · rw [if_pos h0]
    constructor
    · intro h; exact absurd h (by simp)
    · intro h; exact absurd h0 h.1
  · rw [if_neg h0]
    cases hd : s.all isDigit with
    | true =>
      rw [parseUintLoop_digits s 0 (by omega) hd]
      constructor
      · intro h
        split_ifs at h with hle
        injection h with h
        exact ⟨h0, rfl, h, by rw [← h]; exact hle⟩
      · rintro ⟨_, _, h3, h4⟩
        rw [h3, if_pos h4]
    | false =>
      obtain ⟨e, he⟩ := parseUintLoop_nondigit s 0 hd
      rw [he]
      constructor
      · intro h; exact absurd h (by simp)
      · intro h; exact absurd h.2.1 (by simp)

theorem ParseInt_ok_iff (s : GoString) (v : Int) : ParseInt s = .ok v ↔ IsInt64Text s v := by
  have key : ∀ (neg : Bool) (ds : GoString),
      (match ParseUint ds with
        | .error .ErrSyntax => (.error .ErrSyntax : Except NumError Int)
        | .error .ErrRange => .error .ErrRange
        | .ok un =>
          if neg = false ∧ un ≥ 9223372036854775808 then .error .ErrRange
          else if neg = true ∧ un > 9223372036854775808 then .error .ErrRange
          else .ok (if neg then -(un : Int) else (un : Int))) = .ok v ↔
        (ds ≠ [] ∧ ds.all isDigit = true ∧
          v = (if neg then -(decimalValue ds : Int) else (decimalValue ds : Int)) ∧
          -9223372036854775808 ≤ v ∧ v ≤ 9223372036854775807) := by
    intro neg ds
    cases hp : ParseUint ds with
    | error e =>
      have hn : ¬ (ds ≠ [] ∧ ds.all isDigit = true ∧ decimalValue ds ≤ 18446744073709551615) := by
        intro h
        have := (ParseUint_ok_iff ds (decimalValue ds)).mpr ⟨h.1, h.2.1, rfl, h.2.2⟩
        rw [hp] at this
        exact absurd this (by simp)
      cases e with
      | ErrSyntax =>
        simp only [reduceCtorEq, false_iff]
        intro h
        apply hn
        refine ⟨h.1, h.2.1, ?_⟩
        have := h.2.2
        cases neg <;> simp at this <;> omega
      | ErrRange =>
        simp only [reduceCtorEq, false_iff]
        intro h
        apply hn
        refine ⟨h.1, h.2.1, ?_⟩
        have := h.2.2
        cases neg <;> simp at this <;> omega
    | ok un =>
      obtain ⟨h1, h2, h3, h4⟩ := (ParseUint_ok_iff ds un).mp hp
      simp only
      rw [h3]
      cases neg with
      | false =>
        simp only [true_and, Bool.false_eq_true, false_and, if_false]
        by_cases hb : un ≥ 9223372036854775808
        · rw [if_pos hb]
          simp only [reduceCtorEq, false_iff]
          intro h
          omega
        · rw [if_neg hb]
          simp only [Except.ok.injEq]
          constructor
          · intro h; exact ⟨h1, h2, h.symm, by omega, by omega⟩
          · intro h; exact h.2.2.1.symm
      | true =>
        simp only [Bool.true_eq_false, false_and, if_false, true_and, if_true]
        by_cases hb : un > 9223372036854775808
        · rw [if_pos hb]
          simp only [reduceCtorEq, false_iff]
          intro h
          omega
        · rw [if_neg hb]
          simp only [Except.ok.injEq]
          constructor
          · intro h; exact ⟨h1, h2, h.symm, by omega, by omega⟩
          · intro h; exact h.2.2.1.symm
  cases s with
  | nil =>
    simp only [ParseInt, reduceCtorEq, false_iff]
    rintro ⟨ds, hne, _, h | h, _⟩
    · rcases h.1 with h | h
      · exact hne h.symm
      · simp at h
    · simp at h
  | cons c rest =>
    simp only [ParseInt]
    refine Iff.trans (key (decide (c = 45)) (if c = 43 ∨ c = 45 then rest else c :: rest)) ?_
    by_cases h43 : c = 43
    · subst h43
      simp only [true_or, if_true, show decide ((43 : Nat) = 45) = false by decide,
        Bool.false_eq_true, if_false]
      constructor
      · rintro ⟨a, b, c, d, e⟩
        exact ⟨rest, a, b, Or.inl ⟨Or.inr rfl, c⟩, d, e⟩
      · rintro ⟨ds, hne, hd, h | h, hr⟩
        · rcases h.1 with e | e
          · rw [← e] at hd
            simp [isDigit] at hd
          · injection e with _ e
            subst e
            exact ⟨hne, hd, h.2, hr⟩
        · simp at h
    · by_cases h45 : c = 45
      · subst h45
        simp only [or_true, if_true, decide_True]
        constructor
        · rintro ⟨a, b, c, d, e⟩
          exact ⟨rest, a, b, Or.inr ⟨rfl, c⟩, d, e⟩
        · rintro ⟨ds, hne, hd, h | h, hr⟩
          · rcases h.1 with e | e
            · rw [← e] at hd
              simp [isDigit] at hd
            · simp at e
          · obtain ⟨e, hv⟩ := h
            injection e with _ e
            subst e
            exact ⟨hne, hd, hv, hr⟩
      · have hneg : decide (c = 45) = false := by simpa using h45
        simp only [h43, h45, or_self, if_false, hneg, Bool.false_eq_true]
        constructor
        · rintro ⟨a, b, c, d, e⟩
          exact ⟨_, a, b, Or.inl ⟨Or.inl rfl, c⟩, d, e⟩
        · rintro ⟨ds, hne, hd, h | h, hr⟩
          · rcases h.1 with e | e
            · rw [e]
              exact ⟨hne, hd, h.2, hr⟩
            · injection e with e _
              exact absurd e h43
          · obtain ⟨e, _⟩ := h
            injection e with e _
            exact absurd e h45

theorem streamLoop_full (sink : Nat → Int → Option Int) (hs : ∀ i n, sink i n = some n)
    (N : Int) (hN : N ≤ 9223372036854775807) :
    ∀ (fuel i : Nat) (w : Int) (chunks : List Int), 0 ≤ w → w ≤ N →
      ((N - w).toNat + 65535) / 65536 ≤ fuel →
      streamLoop sink N fuel i w chunks
        = (.done, N, chunks ++ List.replicate ((N - w).toNat / 65536) (65536 : Int)
            ++ (if (N - w).toNat % 65536 = 0 then [] else [(((N - w).toNat % 65536 : Nat) : Int)])) := by
  intro fuel
  induction fuel with
  | zero =>
    intro i w chunks h0 hw hf
    have e : w = N := by omega
    subst e
    unfold streamLoop
    simp
  | succ fuel ih =>
    intro i w chunks h0 hw hf
    unfold streamLoop
    by_cases hlt : w < N
    · rw [if_pos hlt]
      simp only [hs]
      by_cases hbig : N - w < 64 * 1024
      · rw [if_pos hbig]
        have ew : wrapInt64 (w + (N - w)) = N := by
          rw [wrapInt64_of_range _ (by omega) (by omega)]
          omega
        rw [ew, ih (i + 1) N _ (by omega) (by omega) (by simp)]
        have e1 : (N - w).toNat / 65536 = 0 := by omega
        have e2 : (N - w).toNat % 65536 ≠ 0 := by omega
        have e3 : (((N - w).toNat % 65536 : Nat) : Int) = N - w := by omega
        simp [e1, e2, e3]
      · rw [if_neg hbig]
        have ew : wrapInt64 (w + 64 * 1024) = w + 65536 := by
          rw [wrapInt64_of_range _ (by omega) (by omega)]
          omega
        rw [ew, ih (i + 1) (w + 65536) _ (by omega) (by omega) (by omega)]
        have e1 : (N - w).toNat / 65536 = (N - (w + 65536)).toNat / 65536 + 1 := by omega
        have e2 : (N - w).toNat % 65536 = (N - (w + 65536)).toNat % 65536 := by omega
        rw [e1, e2, List.replicate_succ]
        simp
    · have e : w = N := by omega
      subst e
      rw [if_neg hlt]
      simp

theorem rollbackTo_calls (rollback : GoString → Option ApplyError) (host : Host)
    (id : GoString) : (rollbackTo rollback host id).calls = [id] := by
  unfold rollbackTo
  cases rollback id with
  | none => rfl
  | some err =>
    simp only
    split_ifs <;> rfl

theorem rollbackTo_response (rollback : GoString → Option ApplyError) (host : Host)
    (id : GoString) :
    (rollback id = none →
      (rollbackTo rollback host id).response
        = success (rollbackResultJson id (collectCurrentState host))) ∧
    (∀ err, rollback id = some err →
      (rollbackTo rollback host id).response =
        if errorsIs err .ErrSnapshotNotFound = true then notFound (ascii "snapshot not found")
        else if errorsIs err .ErrApplyInProgress = true then
          errorResponse 409 (ascii "APPLY_IN_PROGRESS") (ascii "another operation is in progress")
        else internalError err.message) := by
  constructor
  · intro h
    simp only [rollbackTo, h]
  · intro err h
    simp only [rollbackTo, h]
    split_ifs <;> rfl

theorem setEntry_foldl {σ : Type} (h : SysctlHost σ) (values : List (GoString × GoString)) :
    ∀ l : SetLoop σ, values.foldl (SysctlManager.setEntry h) l
      = ⟨stateAfter h l.state values, l.errors ++ failedItems h l.state values,
          l.calls ++ values⟩ := by
  induction values with
  | nil => intro l; simp [stateAfter, failedItems]
  | cons entry rest ih =>
    intro l
    rw [List.foldl_cons, ih]
    simp only [SysctlManager.setEntry, stateAfter, failedItems, failedItem]
    rcases hs : SysctlManager.Set h l.state entry.1 entry.2 with ⟨e, st1⟩
    cases e <;> simp

theorem stateAfter_append {σ : Type} (h : SysctlHost σ) (pre post : List (GoString × GoString)) :
    ∀ st : σ, stateAfter h st (pre ++ post) = stateAfter h (stateAfter h st pre) post := by
  induction pre with
  | nil => intro st; rfl
  | cons entry rest ih => intro st; exact ih _

theorem failedItems_append {σ : Type} (h : SysctlHost σ)
    (pre post : List (GoString × GoString)) :
    ∀ st : σ, failedItems h st (pre ++ post)
      = failedItems h st pre ++ failedItems h (stateAfter h st pre) post := by
  induction pre with
  | nil => intro st; rfl
  | cons entry rest ih =>
    intro st
    show failedItem h st entry ++ failedItems h _ (rest ++ post) = _
    rw [ih]
    simp only [failedItems, stateAfter, List.append_assoc]

theorem failedItem_eq_nil {σ : Type} (h : SysctlHost σ) (st : σ) (entry : GoString × GoString) :
    failedItem h st entry = [] ↔ (SysctlManager.Set h st entry.1 entry.2).1 = none := by
  unfold failedItem
  cases (SysctlManager.Set h st entry.1 entry.2).1 <;> simp

theorem failedItems_eq_nil {σ : Type} (h : SysctlHost σ) (values : List (GoString × GoString)) :
    ∀ st : σ, failedItems h st values = [] ↔
      ∀ pre entry post, values = pre ++ entry :: post →
        (SysctlManager.Set h (stateAfter h st pre) entry.1 entry.2).1 = none := by
  induction values with
  | nil =>
    intro st
    simp [failedItems]
  | cons e rest ih =>
    intro st
    simp only [failedItems, List.append_eq_nil, failedItem_eq_nil, ih]
    constructor
    · rintro ⟨h1, h2⟩ pre entry post hv
      cases pre with
      | nil =>
        simp only [List.nil_append, List.cons.injEq] at hv
        rw [← hv.1]
        exact h1
      | cons p ps =>
        simp only [List.cons_append, List.cons.injEq] at hv
        rw [← hv.1]
        exact h2 ps entry post hv.2
    · intro hall
      refine ⟨hall [] e rest rfl, fun pre entry post hv => ?_⟩
      have := hall (e :: pre) entry post (by rw [hv]; rfl)
      simpa [stateAfter] using this

theorem startLoop_replicate (parallel arg : Int) :
    ∀ (fuel : Nat) (i : Int), i + fuel = parallel →
      startLoop parallel arg fuel i = List.replicate fuel arg := by
  intro fuel
  induction fuel with
  | zero => intro i _; rfl
  | succ n ih =>
    intro i hi
    simp only [startLoop]
    rw [if_pos (by push_cast at hi; omega), ih (i + 1) (by push_cast at hi; omega)]
    rfl

theorem throughputPlan_pos (bytes parallel : Int) (hb : 0 < bytes) (hp : 0 < parallel) :
    throughputPlan bytes parallel = ⟨bytes, parallel, bytes / parallel⟩ := by
  simp only [throughputPlan]
  rw [if_neg (by omega), if_neg (by omega), Int.tdiv_eq_ediv (by omega) (by omega)]

theorem limitedReader.Read_blocked {σ : Type} (read : Reader σ) (l : limitedReader σ) (p : Nat)
    (h : l.remaining ≤ 0) :
    l.Read read p = ⟨⟨0, [], some .requestTooLarge⟩, l, none⟩ := by
  simp only [limitedReader.Read]
  rw [if_pos h]

theorem limitedReader.Read_open {σ : Type} (read : Reader σ) (l : limitedReader σ) (p : Nat)
    (h : 0 < l.remaining) :
    l.Read read p =
      ⟨(read l.r (if (p : Int) > l.remaining then l.remaining.toNat else p)).1,
        ⟨(read l.r (if (p : Int) > l.remaining then l.remaining.toNat else p)).2,
          wrapInt64 (l.remaining
            - ((read l.r (if (p : Int) > l.remaining then l.remaining.toNat else p)).1.n : Int))⟩,
        some (if (p : Int) > l.remaining then l.remaining.toNat else p)⟩ := by
  simp only [limitedReader.Read]
  rw [if_neg (by omega)]

theorem limitedReader.Read_remaining {σ : Type} (read : Reader σ)
    (hw : ∀ st k, (read st k).1.n ≤ k) (l : limitedReader σ) (p : Nat)
    (h0 : 0 ≤ l.remaining) (h1 : l.remaining < 9223372036854775808) :
    (l.Read read p).reader.remaining = l.remaining - ((l.Read read p).result.n : Int) ∧
    0 ≤ (l.Read read p).reader.remaining ∧
    (l.Read read p).reader.remaining ≤ l.remaining := by
  by_cases hb : l.remaining ≤ 0
  · rw [limitedReader.Read_blocked read l p hb]
    simp only [Nat.cast_zero, sub_zero]
    exact ⟨trivial, h0, le_refl _⟩
  · rw [limitedReader.Read_open read l p (by omega)]
    simp only
    have hn := hw l.r (if (p : Int) > l.remaining then l.remaining.toNat else p)
    have hp : ((if (p : Int) > l.remaining then l.remaining.toNat else p : Nat) : Int)
        ≤ l.remaining := by
      by_cases hc : (p : Int) > l.remaining
      · rw [if_pos hc, Int.toNat_of_nonneg h0]
      · rw [if_neg hc]; omega
    have hn2 : ((read l.r (if (p : Int) > l.remaining then l.remaining.toNat else p)).1.n : Int)
        ≤ l.remaining := le_trans (by exact_mod_cast hn) hp
    rw [wrapInt64_of_range _ (by omega) (by omega)]
    omega

theorem limitedReader.after_remaining {σ : Type} (read : Reader σ)
    (hw : ∀ st k, (read st k).1.n ≤ k) (ps : List Nat) :
    ∀ l : limitedReader σ, 0 ≤ l.remaining → l.remaining < 9223372036854775808 →
      (l.after read ps).remaining = l.remaining - (totalRead (l.readAll read ps) : Int) ∧
      0 ≤ (l.after read ps).remaining := by
  induction ps with
  | nil =>
    intro l h0 _
    simp [limitedReader.after, limitedReader.readAll, totalRead, h0]
  | cons p ps ih =>
    intro l h0 h1
    obtain ⟨e1, e2, e3⟩ := limitedReader.Read_remaining read hw l p h0 h1
    obtain ⟨i1, i2⟩ := ih (l.Read read p).reader e2 (by omega)
    simp only [limitedReader.after, limitedReader.readAll]
    refine ⟨?_, i2⟩
    rw [i1, e1]
    simp only [totalRead, List.map_cons, List.sum_cons, Nat.cast_add]
    omega

theorem limitedReader.readAll_blocked {σ : Type} (read : Reader σ) (l : limitedReader σ)
    (h : l.remaining ≤ 0) (more : List Nat) :
    (∀ o ∈ l.readAll read more,
      o.result = ⟨0, [], some .requestTooLarge⟩ ∧ o.underlying = none ∧ o.reader = l) ∧
    l.after read more = l := by
  induction more with
  | nil => simp [limitedReader.readAll, limitedReader.after]
  | cons p ps ih =>
    simp only [limitedReader.readAll, limitedReader.after,
      limitedReader.Read_blocked read l p h, List.mem_cons]
    refine ⟨fun o ho => ?_, ih.2⟩
    rcases ho with ho | ho
    · rw [ho]; exact ⟨rfl, rfl, rfl⟩
    · exact ih.1 o ho

theorem bodyRead_n_le (grain : Nat) (eofWithData : Bool) (data : List Nat) (p : Nat) :
    (bodyRead grain eofWithData data p).1.n ≤ p := by
  simp only [bodyRead]
  split_ifs <;> simp

theorem bodyRead_step (grain : Nat) (eofWithData : Bool) (hg : 0 < grain) (p : Nat)
    (hp : 0 < p) (data : List Nat) (rem : Int) (hd : data ≠ []) (hr : (data.length : Int) ≤ rem)
    (hr1 : rem < 9223372036854775808) :
    ∃ n : Nat, 0 < n ∧ n ≤ data.length ∧
      (limitedReader.Read (bodyRead grain eofWithData) ⟨data, rem⟩ p).result
        = ⟨n, data.take n,
            if eofWithData = true ∧ n = data.length then some .EOF else none⟩ ∧
      (limitedReader.Read (bodyRead grain eofWithData) ⟨data, rem⟩ p).reader
        = ⟨data.drop n, rem - (n : Int)⟩ := by
  have hlen : 0 < data.length := List.length_pos.mpr hd
  have hrem : 0 < rem := by omega
  rw [limitedReader.Read_open _ _ _ hrem]
  simp only
  have hp1 : 0 < (if (p : Int) > rem then rem.toNat else p) := by
    by_cases hc : (p : Int) > rem
    · rw [if_pos hc]; omega
    · rw [if_neg hc]; exact hp
  generalize (if (p : Int) > rem then rem.toNat else p) = p1 at hp1
  simp only [bodyRead]
  rw [if_neg hd, if_neg (by omega)]
  simp only
  refine ⟨min p1 (min grain data.length), by omega, by omega, rfl, ?_⟩
  rw [wrapInt64_of_range _ (by omega) (by omega)]

theorem readToEnd_body (grain : Nat) (eofWithData : Bool) (hg : 0 < grain) (p : Nat)
    (hp : 0 < p) :
    ∀ (m : Nat) (data : List Nat) (rem : Int) (acc : List Nat) (fuel : Nat),
      data.length ≤ m → m + 1 ≤ fuel → (data.length : Int) ≤ rem →
      rem < 9223372036854775808 →
      readToEnd (bodyRead grain eofWithData) p fuel ⟨data, rem⟩ acc
        = (acc ++ data,
            if (data.length : Int) < rem ∨ (eofWithData = true ∧ data ≠ []) then some .EOF
            else some .requestTooLarge) := by
  intro m
  induction m with
  | zero =>
    intro data rem acc fuel hm hf hr hr1
    have hd : data = [] := List.length_eq_zero.mp (by omega)
    subst hd
    obtain ⟨f, rfl⟩ : ∃ f, fuel = f + 1 := ⟨fuel - 1, by omega⟩
    simp only [readToEnd]
    by_cases h0 : rem ≤ 0
    · rw [limitedReader.Read_blocked _ _ _ h0]
      simp only [List.length_nil, Nat.cast_zero, ne_eq, not_true_eq_false, and_false, or_false]
      rw [if_neg (by omega)]
    · rw [limitedReader.Read_open _ _ _ (show 0 < (⟨[], rem⟩ : limitedReader (List Nat)).remaining by show 0 < rem; omega)]
      simp only [bodyRead, if_true, List.length_nil, Nat.cast_zero, ne_eq, not_true_eq_false,
        and_false, or_false]
      rw [if_pos (by omega)]
  | succ m ih =>
    intro data rem acc fuel hm hf hr hr1
    obtain ⟨f, rfl⟩ : ∃ f, fuel = f + 1 := ⟨fuel - 1, by omega⟩
    by_cases hd : data = []
    · subst hd
      simp only [readToEnd]
      by_cases h0 : rem ≤ 0
      · rw [limitedReader.Read_blocked _ _ _ h0]
        simp only [List.length_nil, Nat.cast_zero, ne_eq, not_true_eq_false, and_false, or_false]
        rw [if_neg (by omega)]
      · rw [limitedReader.Read_open _ _ _ (show 0 < (⟨[], rem⟩ : limitedReader (List Nat)).remaining by show 0 < rem; omega)]
        simp only [bodyRead, if_true, List.length_nil, Nat.cast_zero, ne_eq, not_true_eq_false,
          and_false, or_false]
        rw [if_pos (by omega)]
    · obtain ⟨n, hn0, hn1, e1, e2⟩ :=
        bodyRead_step grain eofWithData hg p hp data rem hd hr hr1
      simp only [readToEnd]
      rw [e1, e2]
      simp only
      by_cases he : eofWithData = true ∧ n = data.length
      · rw [if_pos he]
        simp only
        rw [he.2, List.take_length, if_pos (Or.inr ⟨he.1, hd⟩)]
      · rw [if_neg he]
        simp only
        rw [ih (data.drop n) (rem - n) (acc ++ data.take n) f
          (by rw [List.length_drop]; omega) (by omega)
          (by rw [List.length_drop]; omega) (by omega)]
        rw [List.append_assoc, List.take_append_drop]
        have hcond : ((((data.drop n).length : Int) < rem - n) ∨
            (eofWithData = true ∧ data.drop n ≠ [])) ↔
            (((data.length : Int) < rem) ∨ (eofWithData = true ∧ data ≠ [])) := by
          rw [List.length_drop]
          constructor
          · rintro (h | h)
            · left; omega
            · right; exact ⟨h.1, hd⟩
          · rintro (h | h)
            · left; omega
            · right
              refine ⟨h.1, ?_⟩
              intro hnil
              have hl := congrArg List.length hnil
              rw [List.length_drop, List.length_nil] at hl
              exact he ⟨h.1, by omega⟩
        by_cases hc : ((data.length : Int) < rem) ∨ (eofWithData = true ∧ data ≠ [])
        · rw [if_pos hc, if_pos (hcond.mpr hc)]
        · rw [if_neg hc, if_neg (fun h => hc (hcond.mp h))]

theorem Written.isSuccess_mk (status : Int) (data : Option Json) :
    Written.isSuccess ⟨status, ⟨true, data, none⟩⟩ status data := by
  refine ⟨rfl, rfl, rfl, rfl, ?_, ?_⟩
  · simp [Response.toJson]
  · simp only [Response.toJson, standardEnvelope]
    exact ⟨true, data, none, by simp⟩

theorem Written.isError_mk (status : Int) (code message details : GoString) :
    Written.isError ⟨status, ⟨false, none, some ⟨code, message, details⟩⟩⟩ status code message
      details := by
  refine ⟨rfl, rfl, rfl, rfl, ?_, ?_⟩
  · simp [Response.toJson, ErrorInfo.toJson]
  · simp only [Response.toJson, ErrorInfo.toJson, standardEnvelope, encString]
    by_cases hd : details = []
    · exact ⟨false, none, some (toValidUTF8 code, toValidUTF8 message, none), by simp [hd]⟩
    · exact ⟨false, none,
        some (toValidUTF8 code, toValidUTF8 message, some (toValidUTF8 details)), by simp [hd]⟩

theorem splitSlash_ne_nil (s : GoString) : splitSlash s ≠ [] := by
  induction s with
  | nil => simp [splitSlash]
  | cons b rest ih =>
    simp only [splitSlash]
    by_cases hb : b = 47
    · rw [if_pos hb]; simp
    · rw [if_neg hb]
      cases hs : splitSlash rest with
      | nil => simp
      | cons c cs => simp

theorem splitSlash_mem (s : GoString) : ∀ c ∈ splitSlash s, ∀ b ∈ c, b ∈ s := by
  induction s with
  | nil =>
    intro c hc b hb
    simp only [splitSlash, List.mem_singleton] at hc
    rw [hc] at hb
    exact hb
  | cons x rest ih =>
    intro c hc b hb
    simp only [splitSlash] at hc
    by_cases hx : x = 47
    · rw [if_pos hx] at hc
      rcases List.mem_cons.mp hc with h0 | h1
      · rw [h0] at hb; simp at hb
      · exact List.mem_cons_of_mem _ (ih c h1 b hb)
    · rw [if_neg hx] at hc
      cases hs : splitSlash rest with
      | nil => exact absurd hs (splitSlash_ne_nil rest)
      | cons d ds =>
        rw [hs] at hc ih
        simp only at hc
        rcases List.mem_cons.mp hc with h0 | h1
        · rw [h0] at hb
          rcases List.mem_cons.mp hb with hb0 | hb1
          · rw [hb0]; exact List.mem_cons_self _ _
          · exact List.mem_cons_of_mem _ (ih d (List.mem_cons_self _ _) b hb1)
        · exact List.mem_cons_of_mem _ (ih c (List.mem_cons_of_mem _ h1) b hb)

theorem foldl_cleanStep_prefix (comps : List GoString)
    (hc : ∀ c ∈ comps, c ≠ [46] ∧ c ≠ [46, 46]) :
    ∀ base : Path, ∃ rest, comps.foldl cleanStep base = base ++ rest := by
  induction comps with
  | nil => intro base; exact ⟨[], by simp⟩
  | cons c cs ih =>
    intro base
    have h1 := hc c (List.mem_cons_self _ _)
    have ih2 := ih (fun d hd => hc d (List.mem_cons_of_mem _ hd))
    rw [List.foldl_cons]
    simp only [cleanStep]
    by_cases he : c = [] ∨ c = [46]
    · rw [if_pos he]
      exact ih2 base
    · rw [if_neg he, if_neg h1.2]
      obtain ⟨rest, hr⟩ := ih2 (base ++ [c])
      exact ⟨c :: rest, by rw [hr]; simp⟩

theorem ReplaceAll_not_mem (s : GoString) (old new : Nat) (h : old ≠ new) :
    old ∉ ReplaceAll s old new := by
  intro hm
  simp only [ReplaceAll, List.mem_map] at hm
  obtain ⟨c, _, hc⟩ := hm
  by_cases hx : c = old
  · rw [if_pos hx] at hc
    exact h hc.symm
  · rw [if_neg hx] at hc
    exact hx hc

theorem joinPath_no_dot (base : Path) (s : GoString) (h : 46 ∉ s) :
    ∃ rest, joinPath base [s] = base ++ rest := by
  simp only [joinPath, List.flatMap_cons, List.flatMap_nil, List.append_nil]
  refine foldl_cleanStep_prefix _ (fun c hc => ?_) base
  constructor
  · intro e
    exact h (splitSlash_mem s c hc 46 (by rw [e]; simp))
  · intro e
    exact h (splitSlash_mem s c hc 46 (by rw [e]; simp))

theorem find_filter_keep (keep : Path → Bool) (fs : FS) (q : Path) (h : keep q = true) :
    (fs.filter (fun e => keep e.1)).find? (fun e => e.1 == q) = fs.find? (fun e => e.1 == q) := by
  induction fs with
  | nil => rfl
  | cons e rest ih =>
    by_cases hq : e.1 = q
    · have hk : keep e.1 = true := by rw [hq]; exact h
      rw [List.filter_cons_of_pos (by simpa using hk),
        List.find?_cons_of_pos _ (by simp [hq]), List.find?_cons_of_pos _ (by simp [hq])]
    · rw [List.find?_cons_of_neg _ (by simp [hq])]
      by_cases hk : keep e.1 = true
      · rw [List.filter_cons_of_pos (by simpa using hk),
          List.find?_cons_of_neg _ (by simp [hq]), ih]
      · rw [List.filter_cons_of_neg (by simpa using hk), ih]

theorem FS.node_filter_keep (keep : Path → Bool) (fs : FS) (q : Path) (h : keep q = true) :
    FS.node (fs.filter (fun e => keep e.1)) q = fs.node q := by
  simp only [FS.node, find_filter_keep keep fs q h]

theorem FS.checkDirs_filter_keep (keep : Path → Bool) (fs : FS) (qs : List Path)
    (h : ∀ q ∈ qs, keep q = true) :
    FS.checkDirs (fs.filter (fun e => keep e.1)) qs = fs.checkDirs qs := by
  induction qs with
  | nil => rfl
  | cons q rest ih =>
    simp only [FS.checkDirs]
    rw [FS.node_filter_keep keep fs q (h q (List.mem_cons_self _ _)),
      ih (fun r hr => h r (List.mem_cons_of_mem _ hr))]

theorem FS.readFile_filter_keep (keep : Path → Bool) (fs : FS) (p : Path)
    (h : ∀ q, q <+: p → keep q = true) :
    FS.readFile (fs.filter (fun e => keep e.1)) p = fs.readFile p := by
  simp only [FS.readFile]
  rw [FS.checkDirs_filter_keep keep fs _
      (fun q hq => h q ((List.mem_inits _ _).mp (List.mem_of_mem_dropLast hq))),
    FS.node_filter_keep keep fs p (h p (List.prefix_refl _))]

theorem FS.readFile_removeAll (stuck : Path → Bool) (fs : FS) (target p : Path)
    (h : ¬ target <+: p) :
    FS.readFile (fs.removeAll stuck target).2 p = fs.readFile p := by
  simp only [FS.removeAll]
  refine FS.readFile_filter_keep (fun q => !(target.isPrefixOf q) ||
    fs.any (fun e => q.isPrefixOf e.1 && target.isPrefixOf e.1 && stuck e.1)) fs p
    (fun q hq => ?_)
  have hn : target.isPrefixOf q = false := by
    rw [Bool.eq_false_iff]
    intro ht
    exact h (List.IsPrefix.trans (List.isPrefixOf_iff_prefix.mp ht) hq)
  simp [hn]

theorem splitSlash_plain (name : GoString) (h : 47 ∉ name) : splitSlash name = [name] := by
  induction name with
  | nil => rfl
  | cons b rest ih =>
    have hb : b ≠ 47 := fun e => h (by rw [e]; exact List.mem_cons_self _ _)
    have hr : 47 ∉ rest := fun e => h (List.mem_cons_of_mem _ e)
    simp only [splitSlash]
    rw [if_neg hb, ih hr]

theorem joinPath_plain (base : Path) (id : GoString) (h : plainName id) :
    joinPath base [id] = base ++ [id] :=
  joinPath_simple base id (splitSlash_plain id h.2.1) h.1 h.2.2.1 h.2.2.2

theorem Delete_readFile (stuck : Path → Bool) (s : SnapshotService) (fs : FS) (id : GoString)
    (p : Path) (c : Text) (hr : fs.readFile p = .ok c)
    (h : ¬ joinPath s.snapshotsDir [id] <+: p ∨ joinPath s.snapshotsDir [id] = p) :
    FS.readFile (s.Delete stuck fs id).2 p = .ok c := by
  simp only [SnapshotService.Delete]
  by_cases hd : DirExists fs (joinPath s.snapshotsDir [id]) = false
  · rw [if_pos hd]
    exact hr
  · rw [if_neg hd]
    rcases h with h | h
    · have := FS.readFile_removeAll stuck fs (joinPath s.snapshotsDir [id]) p h
      rcases hrm : fs.removeAll stuck (joinPath s.snapshotsDir [id]) with ⟨ok, fs1⟩
      rw [hrm] at this
      cases ok <;> simp only <;> rw [this, hr]
    · exfalso
      apply hd
      rw [h]
      simp only [FS.readFile] at hr
      cases hc : fs.checkDirs p.inits.dropLast with
      | some e => rw [hc] at hr; simp at hr
      | none =>
        rw [hc] at hr
        simp only at hr
        cases hn : fs.node p with
        | none => rw [hn] at hr; simp at hr
        | some nd =>
          cases nd with
          | dir => rw [hn] at hr; simp at hr
          | file c2 n => simp [DirExists, hn]

/-! ## The claims -/

set_option maxRecDepth 100000 in
/-- C1, counterexample: two instants one nanosecond apart inside the same UTC second
(2024-01-01T00:00:00Z) get ids whose order is the reverse of their creation order, because the
hash suffix `7c3efd4a` of the earlier one sorts after the suffix `4fcae676` of the later one. -/
theorem snapshotID_not_monotone :
    unixTime 1704067200 0 < unixTime 1704067200 1 ∧
    snapshotID (unixTime 1704067200 0) = ascii "2024-01-01T00-00-00Z_7c3efd4a" ∧
    snapshotID (unixTime 1704067200 1) = ascii "2024-01-01T00-00-00Z_4fcae676" ∧
    strLess (snapshotID (unixTime 1704067200 0)) (snapshotID (unixTime 1704067200 1)) = false := by
  decide

/-- C1 (amended): instants that fall in different UTC seconds, up to the end of year 9999, get
snapshot ids in creation order under Go's bytewise string comparison: the 20-character
timestamp prefix already decides the order. -/
theorem snapshotID_less_of_second_lt (t1 t2 : Time)
    (h : t1 / 1000000000 < t2 / 1000000000) (hy : t2 < 315537897600000000000) :
    strLess (snapshotID t1) (snapshotID t2) = true := by
  unfold snapshotID
  exact formatStamp_less _ _ h hy

set_option maxRecDepth 100000 in
/-- C1, witness: the last nanosecond of one second and the first of the next. -/
theorem snapshotID_less_of_second_lt_witness :
    strLess (snapshotID (unixTime 1704067200 999999999)) (snapshotID (unixTime 1704067201 0)) = true :=
  snapshotID_less_of_second_lt _ _ (by decide) (by decide)

set_option maxRecDepth 1000000 in
/-- C2, counterexample: a snapshot whose backup of the managed sysctl file holds the three bytes
`23 E9 0A` (a Latin-1 comment, not valid UTF-8) is saved without error, and Get returns it with
the backup changed to `23 EF BF BD 0A`: the JSON encoder replaced the byte `E9` by U+FFFD. -/
theorem Get_saveSnapshot_changes_backup :
    ((SnapshotService.mk [ascii "snap"]).saveSnapshot (exampleEnv WriteFaults.none) []
      (exampleSnapshot [0x23, 0xE9, 0x0A])).1 = none ∧
    (SnapshotService.mk [ascii "snap"]).Get
      ((SnapshotService.mk [ascii "snap"]).saveSnapshot (exampleEnv WriteFaults.none) []
        (exampleSnapshot [0x23, 0xE9, 0x0A])).2 (exampleSnapshot [0x23, 0xE9, 0x0A]).ID
      = .ok (exampleSnapshot [0x23, 0xEF, 0xBF, 0xBD, 0x0A]) ∧
    exampleSnapshot [0x23, 0xEF, 0xBF, 0xBD, 0x0A] ≠ exampleSnapshot [0x23, 0xE9, 0x0A] := by
  decide

/-- C2 (amended): for every snapshot all of whose strings are valid UTF-8 (id, map keys and
values, backup contents, strings inside metadata and qdisc parameters), whenever saveSnapshot
succeeds, Get of its id on the resulting file system returns a snapshot equal to it in every
field; in particular each backup value comes back byte for byte. -/
theorem Get_saveSnapshot_roundtrip (s : SnapshotService) (env : Env) (fs fs1 : FS)
    (snapshot : Snapshot) (hv : snapshot.textual)
    (hs : s.saveSnapshot env fs snapshot = (none, fs1)) :
    s.Get fs1 snapshot.ID = .ok snapshot := by
  simp only [SnapshotService.saveSnapshot, joinPath_state] at hs
  cases hj : snapshot.toJson with
  | none => rw [hj] at hs; simp at hs
  | some doc =>
    rw [hj] at hs
    simp only at hs
    obtain ⟨_, a2, _⟩ := AtomicWriteFile_spec env.write env.tmpSuffix fs
      (joinPath s.snapshotsDir [snapshot.ID]) (ascii "state.json") (.json doc) (env.jsonLen doc)
      (tmp_ne_state _)
    cases hw : AtomicWriteFile env.write env.tmpSuffix fs
        (joinPath s.snapshotsDir [snapshot.ID] ++ [ascii "state.json"]) (.json doc)
        (env.jsonLen doc) with
    | mk ok fsw =>
      rw [hw] at hs a2
      cases ok with
      | false => simp at hs
      | true =>
        simp only [Prod.mk.injEq, true_and] at hs
        subst hs
        obtain ⟨n1, n2⟩ := a2 rfl
        have hc : fsw.checkDirs
            (joinPath s.snapshotsDir [snapshot.ID] ++ [ascii "state.json"]).inits.dropLast
            = none := by
          rw [inits_snoc, List.dropLast_concat, FS.checkDirs_eq_none]
          exact n2
        simp only [SnapshotService.Get, joinPath_state, FS.readFile, hc, n1,
          snapshot_fromJson_toJson snapshot doc hv hj]

set_option maxRecDepth 1000000 in
/-- C2, witness: the example snapshot with the ASCII backup `a = 1` and a newline. -/
theorem Get_saveSnapshot_roundtrip_witness :
    (SnapshotService.mk [ascii "snap"]).Get
      ((SnapshotService.mk [ascii "snap"]).saveSnapshot (exampleEnv WriteFaults.none) []
        (exampleSnapshot (ascii "a = 1\n"))).2 (exampleSnapshot (ascii "a = 1\n")).ID
      = .ok (exampleSnapshot (ascii "a = 1\n")) :=
  Get_saveSnapshot_roundtrip ⟨[ascii "snap"]⟩ (exampleEnv WriteFaults.none) [] _
    (exampleSnapshot (ascii "a = 1\n"))
    ⟨by decide, fun st h => by
        cases h
        exact ⟨⟨by decide, by decide⟩,
          ⟨by decide, fun kv hkv => by
            simp only [List.mem_singleton] at hkv
            subst hkv
            exact ⟨by decide, fun q hq => by
              cases hq
              exact ⟨by decide, by decide, List.Pairwise.nil, fun _ h => by simp at h⟩⟩⟩,
          ⟨by decide, by decide⟩, ⟨List.Pairwise.nil, fun _ h => by simp at h⟩⟩,
      ⟨by decide, by decide⟩, ⟨by decide, by decide⟩⟩
    (by decide)

set_option maxRecDepth 1000000 in
/-- C3, counterexample: when writing the bytes of `state.json` fails (a full disk, say),
Create returns the "failed to write snapshot" error and the snapshot directory it made is still
there, with its `backups` sub-directory and without `state.json`. -/
theorem Create_error_leaves_directory :
    ((SnapshotService.mk [ascii "snap"]).Create
      (exampleEnv ⟨false, true, false, false, false, false, false⟩) []).1
      = .error .writeSnapshot ∧
    ((SnapshotService.mk [ascii "snap"]).Create
      (exampleEnv ⟨false, true, false, false, false, false, false⟩) []).2.node
      [ascii "snap", ascii "2024-01-01T00-00-00Z_7c3efd4a"] = some .dir ∧
    ((SnapshotService.mk [ascii "snap"]).Create
      (exampleEnv ⟨false, true, false, false, false, false, false⟩) []).2.node
      [ascii "snap", ascii "2024-01-01T00-00-00Z_7c3efd4a", ascii "backups"] = some .dir ∧
    ((SnapshotService.mk [ascii "snap"]).Create
      (exampleEnv ⟨false, true, false, false, false, false, false⟩) []).2.node
      [ascii "snap", ascii "2024-01-01T00-00-00Z_7c3efd4a", ascii "state.json"] = none := by
  decide

/-- C3 (amended): Create never leaves a partial `state.json`. When it returns an error the node
at `state.json` of the generated id is what it was before the call (absent for a fresh id) and,
unless the directory could not be made at all, the snapshot directory is left in place; when it
succeeds, `state.json` holds the complete encoding of the returned snapshot. -/
theorem Create_state_json_complete_or_untouched (s : SnapshotService) (env : Env) (fs : FS) :
    (∀ e fs1, s.Create env fs = (.error e, fs1) →
      fs1.node (joinPath s.snapshotsDir [snapshotID env.now] ++ [ascii "state.json"])
        = fs.node (joinPath s.snapshotsDir [snapshotID env.now] ++ [ascii "state.json"]) ∧
      (e ≠ .createSnapshotDir →
        fs1.node (joinPath s.snapshotsDir [snapshotID env.now]) = some .dir)) ∧
    (∀ snapshot fs1, s.Create env fs = (.ok snapshot, fs1) →
      snapshot.ID = snapshotID env.now ∧
      ∃ doc, snapshot.toJson = some doc ∧
        fs1.node (joinPath s.snapshotsDir [snapshotID env.now] ++ [ascii "state.json"])
          = some (.file (.json doc) (env.jsonLen doc))) := by
  obtain ⟨d, hd⟩ : ∃ d, d = joinPath s.snapshotsDir [snapshotID env.now] := ⟨_, rfl⟩
  rw [← hd]
  simp only [SnapshotService.Create, ← hd]
  cases hm : (if env.mkdirSnapshotFails = true then none else EnsureDir fs d) with
  | none =>
    simp only [Prod.mk.injEq]
    refine ⟨fun e fs1 h => ?_, fun snapshot fs1 h => ?_⟩
    · obtain ⟨h1, h2⟩ := h
      subst h2
      exact ⟨rfl, fun hne => absurd (Except.error.inj h1).symm hne⟩
    · exact absurd h.1 (by simp)
  | some fs0 =>
    have hfs0 : EnsureDir fs d = some fs0 := by
      split at hm
      · exact absurd hm (by simp)
      · exact hm
    obtain ⟨m1, m2, m3⟩ := FS.mkdirAll_spec _ fs fs0 hfs0
    have hP0 : fs0.node (d ++ [ascii "state.json"]) = fs.node (d ++ [ascii "state.json"]) :=
      m2 _ (not_mem_inits_snoc d _)
    have hD0 : fs0.node d = some .dir := m1 d ((List.mem_inits _ _).mpr (List.prefix_refl d))
    obtain ⟨b1, b2⟩ := createBackups_node env fs0 d
    simp only [SnapshotService.saveSnapshot, ← hd, joinPath_state]
    generalize (createBackups env fs0 d).2 = fsb at b1 b2
    generalize (createBackups env fs0 d).1 = bk
    cases hj : Snapshot.toJson ⟨snapshotID env.now, env.now, some (collectCurrentState env.host),
        bk, [(ascii "created_by", .str (ascii "nettune"))]⟩ with
    | none =>
      simp only [Prod.mk.injEq]
      refine ⟨fun e fs1 h => ?_, fun snapshot fs1 h => absurd h.1 (by simp)⟩
      obtain ⟨_, h2⟩ := h
      subst h2
      exact ⟨b1.trans hP0, fun _ => b2 d hD0⟩
    | some doc =>
      obtain ⟨a1, a2, a3⟩ := AtomicWriteFile_spec env.write env.tmpSuffix fsb d
        (ascii "state.json") (.json doc) (env.jsonLen doc) (tmp_ne_state _)
      have hdP : d ≠ d ++ [ascii "state.json"] := by
        intro e
        have := congrArg List.length e
        simp at this
      simp only
      cases hw : AtomicWriteFile env.write env.tmpSuffix fsb (d ++ [ascii "state.json"])
          (.json doc) (env.jsonLen doc) with
      | mk ok fsw =>
        rw [hw] at a1 a2 a3
        simp only at a1 a2 a3
        cases ok with
        | false =>
          simp only [Prod.mk.injEq]
          refine ⟨fun e fs1 h => ?_, fun snapshot fs1 h => absurd h.1 (by simp)⟩
          obtain ⟨_, h2⟩ := h
          subst h2
          exact ⟨(a1 rfl).trans (b1.trans hP0), fun _ => a3 d (b2 d hD0) hdP⟩
        | true =>
          simp only [Prod.mk.injEq]
          refine ⟨fun e fs1 h => absurd h.1 (by simp), fun snapshot fs1 h => ?_⟩
          obtain ⟨h1, h2⟩ := h
          subst h2
          have h1' := Except.ok.inj h1
          subst h1'
          exact ⟨rfl, doc, hj, (a2 rfl).1⟩

set_option maxRecDepth 1000000 in
/-- C3, witness: with the rename failing on an empty store, `state.json` of the new id is absent
afterwards as it was before, and the directory is left behind. -/
theorem Create_state_json_complete_or_untouched_witness :
    ((SnapshotService.mk [ascii "snap"]).Create
        (exampleEnv ⟨false, false, false, false, false, true, false⟩) []).2.node
        (joinPath [ascii "snap"] [snapshotID (unixTime 1704067200 0)] ++ [ascii "state.json"])
      = FS.node [] (joinPath [ascii "snap"] [snapshotID (unixTime 1704067200 0)]
          ++ [ascii "state.json"]) ∧
    ((SnapshotService.mk [ascii "snap"]).Create
        (exampleEnv ⟨false, false, false, false, false, true, false⟩) []).2.node
        (joinPath [ascii "snap"] [snapshotID (unixTime 1704067200 0)]) = some .dir :=
  have h := (Create_state_json_complete_or_untouched ⟨[ascii "snap"]⟩
    (exampleEnv ⟨false, false, false, false, false, true, false⟩) []).1 .writeSnapshot
    ((SnapshotService.mk [ascii "snap"]).Create
      (exampleEnv ⟨false, false, false, false, false, true, false⟩) []).2 (by decide)
  ⟨h.1, h.2 (by decide)⟩

set_option maxRecDepth 100000 in
/-- C4, counterexample: in the example store the directory `c` holds a `state.json` that is not
JSON; Get returns the "failed to parse snapshot" error for it, not ErrSnapshotNotFound, which it
returns for the directory `d` without `state.json` and for the missing directory `z`. -/
theorem Get_unparseable_is_not_NotFound :
    (SnapshotService.mk [ascii "snap"]).Get exampleStore (ascii "c") = .error .parseSnapshot ∧
    (SnapshotService.mk [ascii "snap"]).Get exampleStore (ascii "d")
      = .error .ErrSnapshotNotFound ∧
    (SnapshotService.mk [ascii "snap"]).Get exampleStore (ascii "z")
      = .error .ErrSnapshotNotFound := by
  decide

/-- C4 (amended): for an existing directory `snapshotsDir/id`, Get returns ErrSnapshotNotFound
when `state.json` is missing; when `state.json` is there but is a directory, is not JSON, or is
JSON that does not decode into a snapshot, Get returns another error ("failed to read
snapshot", "failed to parse snapshot") and no snapshot; whenever Get fails, the listing loop
yields no meta for that directory entry. -/
theorem Get_incomplete_directory (s : SnapshotService) (fs : FS) (id : GoString)
    (hdir : fs.checkDirs (joinPath s.snapshotsDir [id]).inits = none) :
    (fs.node (joinPath s.snapshotsDir [id] ++ [ascii "state.json"]) = none →
      s.Get fs id = .error .ErrSnapshotNotFound) ∧
    (fs.node (joinPath s.snapshotsDir [id] ++ [ascii "state.json"]) = some .dir →
      s.Get fs id = .error .readSnapshot) ∧
    (∀ b n, fs.node (joinPath s.snapshotsDir [id] ++ [ascii "state.json"])
        = some (.file (.other b) n) → s.Get fs id = .error .parseSnapshot) ∧
    (∀ doc n, fs.node (joinPath s.snapshotsDir [id] ++ [ascii "state.json"])
        = some (.file (.json doc) n) → Snapshot.fromJson doc = none →
      s.Get fs id = .error .parseSnapshot) ∧
    (∀ err isDir, s.Get fs id = .error err → s.metaOf fs ⟨id, isDir⟩ = none) := by
  have hc : fs.checkDirs (joinPath s.snapshotsDir [id] ++ [ascii "state.json"]).inits.dropLast
      = none := by
    rw [inits_snoc, List.dropLast_concat]; exact hdir
  refine ⟨fun h => ?_, fun h => ?_, fun b n h => ?_, fun doc n h hd => ?_, fun err isDir h => ?_⟩
  · simp only [SnapshotService.Get, joinPath_state, FS.readFile, hc, h]
  · simp only [SnapshotService.Get, joinPath_state, FS.readFile, hc, h]
  · simp only [SnapshotService.Get, joinPath_state, FS.readFile, hc, h]
  · simp only [SnapshotService.Get, joinPath_state, FS.readFile, hc, h, hd]
  · simp only [SnapshotService.metaOf, h]
    split <;> rfl

set_option maxRecDepth 100000 in
/-- C4, witness: the directories `c` (state.json not JSON) and `d` (no state.json) of the
example store. -/
theorem Get_incomplete_directory_witness :
    (SnapshotService.mk [ascii "snap"]).Get exampleStore (ascii "c") = .error .parseSnapshot ∧
    (SnapshotService.mk [ascii "snap"]).metaOf exampleStore ⟨ascii "c", true⟩ = none ∧
    (SnapshotService.mk [ascii "snap"]).Get exampleStore (ascii "d")
      = .error .ErrSnapshotNotFound :=
  ⟨(Get_incomplete_directory ⟨[ascii "snap"]⟩ exampleStore (ascii "c") (by decide)).2.2.1
      (ascii "\x7b\"id\": \"c") 10 (by decide),
    (Get_incomplete_directory ⟨[ascii "snap"]⟩ exampleStore (ascii "c") (by decide)).2.2.2.2
      .parseSnapshot true (by decide),
    (Get_incomplete_directory ⟨[ascii "snap"]⟩ exampleStore (ascii "d") (by decide)).1
      (by decide)⟩

/-- C5: when the snapshot root can be read, SnapshotService.List returns a list that is a
rearrangement of the metas of the root's directory entries taken once each, where an entry
yields a meta exactly when it is a directory whose snapshot Get can load (the meta carrying that
snapshot's id and creation time); the list is ordered by CreatedAt descending, every element's
CreatedAt being at least that of every later element. -/
theorem listSnapshots_complete_sorted (s : SnapshotService) (fs : FS) (entries : List DirEntry)
    (h : fs.readDir s.snapshotsDir = .ok entries) :
    ∃ metas, s.listSnapshots fs = .ok metas ∧
      entries.Perm (fs.children s.snapshotsDir) ∧
      metas.Perm (entries.filterMap (s.metaOf fs)) ∧
      (∀ e : DirEntry, (∃ m, s.metaOf fs e = some m) ↔
        (e.IsDir = true ∧ ∃ snapshot, s.Get fs e.Name = .ok snapshot)) ∧
      (∀ (e : DirEntry) (m : SnapshotMeta), s.metaOf fs e = some m →
        ∃ snapshot, s.Get fs e.Name = .ok snapshot ∧ m.ID = snapshot.ID ∧
          m.CreatedAt = snapshot.CreatedAt) ∧
      metas.Pairwise (fun a b => b.CreatedAt ≤ a.CreatedAt) := by
  exact ⟨_, listSnapshots_of_readDir s fs entries h, readDir_perm fs _ entries h,
    sortSlice_perm _ _, metaOf_isSome_iff s fs, metaOf_some s fs,
    sortSlice_sorted (fun m : SnapshotMeta => m.CreatedAt) _⟩

set_option maxRecDepth 100000 in
/-- C5, witness: the example store lists `b` (newer) then `a`; the directories `c` and `d`
and the file `e` are left out. -/
theorem listSnapshots_complete_sorted_witness :
    (SnapshotService.mk [ascii "snap"]).listSnapshots exampleStore
      = .ok [⟨ascii "b", unixTime 1704153600 0, 90⟩, ⟨ascii "a", unixTime 1704067200 0, 90⟩] ∧
    ∃ metas, (SnapshotService.mk [ascii "snap"]).listSnapshots exampleStore = .ok metas ∧
      metas.Pairwise (fun a b => b.CreatedAt ≤ a.CreatedAt) :=
  ⟨by decide,
    (listSnapshots_complete_sorted ⟨[ascii "snap"]⟩ exampleStore
      [⟨ascii "a", true⟩, ⟨ascii "b", true⟩, ⟨ascii "c", true⟩, ⟨ascii "d", true⟩,
        ⟨ascii "e", false⟩] (by decide)).imp (fun _ h => ⟨h.1, h.2.2.2.2.2⟩)⟩

set_option maxRecDepth 100000 in
/-- C6, counterexample: in a store whose only directory `x` holds a `state.json` with the
recorded id `a`, List returns one snapshot (it loads by directory name and reports the recorded
id), yet GetLatest returns ErrSnapshotNotFound: it looks the recorded id `a` up as a directory
name, and there is no directory `a`. -/
theorem GetLatest_not_found_with_listed_snapshot :
    (SnapshotService.mk [ascii "snap"]).listSnapshots renamedStore
      = .ok [⟨ascii "a", unixTime 1704067200 0, 90⟩] ∧
    (SnapshotService.mk [ascii "snap"]).Get renamedStore (ascii "x")
      = .ok ⟨ascii "a", unixTime 1704067200 0, none, [], []⟩ ∧
    (SnapshotService.mk [ascii "snap"]).GetLatest renamedStore
      = .error .ErrSnapshotNotFound := by
  decide

/-- C6 (amended): in a store where the id recorded in every readable snapshot is the name of its
directory (as Create writes it), GetLatest returns ErrSnapshotNotFound exactly when List returns
the empty list; when List returns `m :: rest` it returns the snapshot whose id is `m.ID`, and
that snapshot's CreatedAt is at least the CreatedAt of every listed (readable) snapshot. -/
theorem GetLatest_first_of_list (s : SnapshotService) (fs : FS) (inv : s.idsMatchDirs fs) :
    (s.GetLatest fs = .error .ErrSnapshotNotFound ↔ s.listSnapshots fs = .ok []) ∧
    (∀ (m : SnapshotMeta) (rest : List SnapshotMeta), s.listSnapshots fs = .ok (m :: rest) →
      ∃ snapshot, s.GetLatest fs = .ok snapshot ∧ snapshot.ID = m.ID ∧
        snapshot.CreatedAt = m.CreatedAt ∧
        ∀ m' ∈ m :: rest, m'.CreatedAt ≤ snapshot.CreatedAt) := by
  have key : ∀ (m : SnapshotMeta) (rest : List SnapshotMeta),
      s.listSnapshots fs = .ok (m :: rest) →
      ∃ snapshot, s.Get fs m.ID = .ok snapshot ∧ snapshot.ID = m.ID ∧
        snapshot.CreatedAt = m.CreatedAt ∧
        ∀ m' ∈ m :: rest, m'.CreatedAt ≤ snapshot.CreatedAt := by
    intro m rest hl
    cases hr : fs.readDir s.snapshotsDir with
    | error e =>
      simp only [SnapshotService.listSnapshots, hr] at hl
      cases e <;> simp at hl
    | ok entries =>
      have h1 := listSnapshots_of_readDir s fs entries hr
      rw [hl] at h1
      have h2 := readDir_perm fs _ entries hr
      have h3 : (m :: rest).Perm (entries.filterMap (s.metaOf fs)) := by
        rw [Except.ok.inj h1]; exact sortSlice_perm _ _
      have h5 := metaOf_some s fs
      have h6 : (m :: rest).Pairwise (fun a b => b.CreatedAt ≤ a.CreatedAt) := by
        rw [Except.ok.inj h1]
        exact sortSlice_sorted (fun m : SnapshotMeta => m.CreatedAt) _
      have hm : m ∈ entries.filterMap (s.metaOf fs) := h3.subset (List.mem_cons_self _ _)
      obtain ⟨e, he, hme⟩ := List.mem_filterMap.mp hm
      obtain ⟨snap, hg, hid, hc⟩ := h5 e m hme
      have hname : snap.ID = e.Name := inv e (h2.subset he) snap hg
      refine ⟨snap, ?_, hid.symm, hc.symm, ?_⟩
      · rw [hid, hname]; exact hg
      · intro m' hm'
        rw [← hc]
        rcases List.mem_cons.mp hm' with rfl | hm'
        · exact le_refl _
        · exact (List.pairwise_cons.mp h6).1 m' hm'
  constructor
  · constructor
    · intro h
      cases hl : s.listSnapshots fs with
      | error e =>
        simp only [SnapshotService.GetLatest, hl] at h
        simp only [SnapshotService.listSnapshots] at hl
        cases hr : fs.readDir s.snapshotsDir with
        | error e' => rw [hr] at hl; cases e' <;> simp at hl; subst hl; simp at h
        | ok entries => rw [hr] at hl; simp at hl
      | ok metas =>
        cases metas with
        | nil => rfl
        | cons m rest =>
          obtain ⟨snap, hg, _⟩ := key m rest hl
          simp only [SnapshotService.GetLatest, hl, hg] at h
          exact absurd h (by simp)
    · intro h
      simp only [SnapshotService.GetLatest, h]
  · intro m rest hl
    obtain ⟨snap, hg, h2, h3, h4⟩ := key m rest hl
    exact ⟨snap, by simp only [SnapshotService.GetLatest, hl, hg], h2, h3, h4⟩

set_option maxRecDepth 100000 in
/-- C6, witness: in the example store GetLatest returns snapshot `b`, the newest one. -/
theorem GetLatest_first_of_list_witness :
    (SnapshotService.mk [ascii "snap"]).listSnapshots exampleStore ≠ .ok [] ∧
    ∃ snapshot, (SnapshotService.mk [ascii "snap"]).GetLatest exampleStore = .ok snapshot ∧
      snapshot.ID = ascii "b" ∧ snapshot.CreatedAt = unixTime 1704153600 0 ∧
        ∀ m' ∈ [(⟨ascii "b", unixTime 1704153600 0, 90⟩ : SnapshotMeta),
          ⟨ascii "a", unixTime 1704067200 0, 90⟩], m'.CreatedAt ≤ snapshot.CreatedAt :=
  have inv : (SnapshotService.mk [ascii "snap"]).idsMatchDirs exampleStore := by
    have chk : ∀ entry ∈ exampleStore.children [ascii "snap"],
        (match (SnapshotService.mk [ascii "snap"]).Get exampleStore entry.Name with
          | .ok snapshot => decide (snapshot.ID = entry.Name)
          | .error _ => true) = true := by decide
    intro entry he snapshot hg
    have := chk entry he
    rw [hg] at this
    exact of_decide_eq_true this
  ⟨by decide,
    (GetLatest_first_of_list ⟨[ascii "snap"]⟩ exampleStore inv).2
      ⟨ascii "b", unixTime 1704153600 0, 90⟩ [⟨ascii "a", unixTime 1704067200 0, 90⟩]
      (by decide)⟩


/-- C7: for a journal with lines `lines`, whose parseable entries in file order are
`lines.filterMap unmarshalEntry` (e1..en), GetRecentEntries returns for `limit > 0` the first
`min limit n` entries of the reversed list (the most recently appended ones, newest first),
and for `limit ≤ 0` the whole reversed list. -/
theorem GetRecentEntries_newest_first (lines : List Text) (limit : Int) :
    GetRecentEntries (some lines) limit =
      if limit > 0 then
        (lines.filterMap unmarshalEntry).reverse.take
          (min limit.toNat (lines.filterMap unmarshalEntry).length)
      else (lines.filterMap unmarshalEntry).reverse := by
  rw [GetRecentEntries_eq]
  generalize lines.filterMap unmarshalEntry = es
  by_cases hl : limit > 0
  · rw [if_pos hl, if_pos hl, List.take_reverse]
    congr 2
    omega
  · rw [if_neg hl, if_neg hl]

/-- C8: a service constructed over a journal whose parsed entries are, in file order,
`lines.filterMap unmarshalEntry` has as last apply the newest entry with action "apply" and
success among the 100 most recently appended ones (its profile id and timestamp copied), and
nil when none of these 100 is such an entry or when the journal file does not exist. -/
theorem NewHistoryService_last_apply (lines : List Text) :
    NewHistoryService false none = some ⟨none⟩ ∧
    ((∀ x ∈ (lines.filterMap unmarshalEntry).drop ((lines.filterMap unmarshalEntry).length - 100),
        ¬ (x.Action = ascii "apply" ∧ x.Success = true)) →
      NewHistoryService false (some lines) = some ⟨none⟩) ∧
    (∀ (older newer : List HistoryEntry) (e : HistoryEntry),
      (lines.filterMap unmarshalEntry).drop ((lines.filterMap unmarshalEntry).length - 100)
        = older ++ e :: newer →
      e.Action = ascii "apply" → e.Success = true →
      (∀ x ∈ newer, ¬ (x.Action = ascii "apply" ∧ x.Success = true)) →
      NewHistoryService false (some lines) = some ⟨some ⟨e.ProfileID, e.Timestamp, true⟩⟩) := by
  refine ⟨rfl, fun h => ?_, fun older newer e hw ha hs hn => ?_⟩
  · exact loadLastApply_missing lines (fun x hx => by
      simpa [HistoryEntry.isSuccessfulApply] using h x hx)
  · exact loadLastApply_found lines older newer e hw
      (by simp [HistoryEntry.isSuccessfulApply, ha, hs])
      (fun x hx => by simpa [HistoryEntry.isSuccessfulApply] using hn x hx)

/-- C8, witness: a journal holding a successful apply of profile `p1`, a failed apply of `p2`
and one line that is not JSON loads `p1`. -/
theorem NewHistoryService_last_apply_witness :
    NewHistoryService false (some
      [.json (.obj [(ascii "timestamp", .str (ascii "2024-01-01T00:00:00Z")),
          (ascii "action", .str (ascii "apply")), (ascii "profile_id", .str (ascii "p1")),
          (ascii "success", .bool true)]),
        .other (ascii "\x7b\"timest"),
        .json (.obj [(ascii "timestamp", .str (ascii "2024-01-01T00:00:05Z")),
          (ascii "action", .str (ascii "apply")), (ascii "profile_id", .str (ascii "p2")),
          (ascii "success", .bool false)])])
      = some ⟨some ⟨ascii "p1", unixTime 1704067200 0, true⟩⟩ :=
  (NewHistoryService_last_apply _).2.2 []
    [⟨unixTime 1704067205 0, ascii "apply", ascii "p2", [], false, []⟩]
    ⟨unixTime 1704067200 0, ascii "apply", ascii "p1", [], true, []⟩
    (by decide) (by decide) (by decide) (by decide)

set_option maxRecDepth 1000000 in
/-- C9, counterexample: on a fresh history directory, one successful RecordApply of profile
`bbr` followed by 100 RecordSnapshot calls leaves the running service with last apply `bbr`,
while a service constructed afterwards over the same journal reports none: loadLastApply reads
only the 100 most recent entries. -/
theorem last_apply_lost_after_100_entries :
    NewHistoryService false none = some ⟨none⟩ ∧
    (HistoryService.run (⟨none⟩, none)
      (Call.apply (unixTime 1704067200 0) (ascii "bbr") (ascii "s0") true ::
        (List.range 100).map (fun i => Call.snapshot (unixTime (1704067201 + i) 0) (ascii "s1")))
      ).1.GetLastApply = some ⟨ascii "bbr", unixTime 1704067200 0, true⟩ ∧
    NewHistoryService false (HistoryService.run (⟨none⟩, none)
      (Call.apply (unixTime 1704067200 0) (ascii "bbr") (ascii "s0") true ::
        (List.range 100).map (fun i => Call.snapshot (unixTime (1704067201 + i) 0) (ascii "s1")))
      ).2 = some ⟨none⟩ := by
  decide

/-- C9 (amended): when all journal writes succeed (timestamps before year 10000) and the profile
id is valid UTF-8, a sequence of calls whose last successful RecordApply is followed by fewer
than 100 further calls leaves a journal from which a new service loads the same last apply as
the running one (non-nil, same profile id); and on a fresh history directory a sequence with no
successful RecordApply leaves the last apply nil on both. -/
theorem last_apply_survives_restart :
    (∀ (svc0 : HistoryService) (journal0 : Journal) (pre post : List Call) (now : Time)
      (p sn : GoString),
      (∀ c ∈ pre ++ Call.apply now p sn true :: post, c.now < year10000) →
      validUTF8 p = true →
      (∀ c ∈ post, c.isSuccessfulApply = false) → post.length < 100 →
      ∃ svc1 info0 info1,
        NewHistoryService false
          (HistoryService.run (svc0, journal0) (pre ++ Call.apply now p sn true :: post)).2
          = some svc1 ∧
        (HistoryService.run (svc0, journal0)
          (pre ++ Call.apply now p sn true :: post)).1.GetLastApply = some info0 ∧
        svc1.GetLastApply = some info1 ∧ info0.ProfileID = p ∧ info1.ProfileID = p) ∧
    (∀ calls : List Call,
      (∀ c ∈ calls, c.now < year10000) → (∀ c ∈ calls, c.isSuccessfulApply = false) →
      (HistoryService.run (⟨none⟩, none) calls).1.GetLastApply = none ∧
      NewHistoryService false (HistoryService.run (⟨none⟩, none) calls).2 = some ⟨none⟩) := by
  constructor
  · intro svc0 journal0 pre post now p sn hw hp hpost hlen
    obtain ⟨h1, h2⟩ := reload_after_run (svc0, journal0) pre post now p sn hw hp hpost hlen
    exact ⟨_, ⟨p, now, true⟩, ⟨p, now, true⟩, h1, by rw [h2]; rfl, rfl, rfl, rfl⟩
  · intro calls hw hns
    constructor
    · rw [run_service_unchanged _ _ hns]; rfl
    · obtain ⟨lines, h1, h2⟩ := run_journal calls (⟨none⟩, none) hw
      rw [NewHistoryService_getD, h1]
      apply loadLastApply_missing
      intro x hx
      have hx' := List.mem_of_mem_drop hx
      simp only [Option.getD_none, List.nil_append, h2] at hx'
      obtain ⟨c, hc, rfl⟩ := List.mem_map.mp hx'
      rw [readBack_isSuccessfulApply]
      exact hns c hc

set_option maxRecDepth 100000 in
/-- C9, witness: a successful apply of `bbr`, then a rollback and a failed apply. -/
theorem last_apply_survives_restart_witness :
    ∃ svc1 info0 info1,
      NewHistoryService false
        (HistoryService.run (⟨none⟩, none) ([] ++ Call.apply (unixTime 1704067200 0)
          (ascii "bbr") (ascii "s0") true ::
          [Call.rollback (unixTime 1704067260 0) (ascii "s0") true,
            Call.apply (unixTime 1704067300 0) (ascii "cake") (ascii "s1") false])).2
        = some svc1 ∧
      (HistoryService.run (⟨none⟩, none) ([] ++ Call.apply (unixTime 1704067200 0)
          (ascii "bbr") (ascii "s0") true ::
          [Call.rollback (unixTime 1704067260 0) (ascii "s0") true,
            Call.apply (unixTime 1704067300 0) (ascii "cake") (ascii "s1") false])
        ).1.GetLastApply = some info0 ∧
      svc1.GetLastApply = some info1 ∧ info0.ProfileID = ascii "bbr" ∧
        info1.ProfileID = ascii "bbr" :=
  last_apply_survives_restart.1 ⟨none⟩ none []
    [Call.rollback (unixTime 1704067260 0) (ascii "s0") true,
      Call.apply (unixTime 1704067300 0) (ascii "cake") (ascii "s1") false]
    (unixTime 1704067200 0) (ascii "bbr") (ascii "s0") (by decide) (by decide) (by decide)
    (by decide)

/-- C10: RecordApply with `success = false` leaves GetLastApply as it was (nil on a fresh
service), and RecordRollback and RecordSnapshot do too; RecordApply with `success = true` sets
it to the given profile with Success true. When the append succeeds (no injected failure,
timestamp before year 10000) the failed apply still adds exactly one line to the journal, which
reads back as an "apply" entry with success false and becomes the newest recent entry. -/
theorem RecordApply_last_apply (svc : HistoryService) (af : AppendFaults) (now : Time)
    (journal : Journal) (p sn : GoString) (ok : Bool) (hnow : now < year10000) :
    (svc.RecordApply af now journal p sn false).1.GetLastApply = svc.GetLastApply ∧
    ((⟨none⟩ : HistoryService).RecordApply af now journal p sn false).1.GetLastApply = none ∧
    (svc.RecordRollback af now journal sn ok).1.GetLastApply = svc.GetLastApply ∧
    (svc.RecordSnapshot af now journal sn).1.GetLastApply = svc.GetLastApply ∧
    (svc.RecordApply af now journal p sn true).1.GetLastApply = some ⟨p, now, true⟩ ∧
    (∃ line e,
      (svc.RecordApply ⟨false, false⟩ now journal p sn false).2
        = some (journal.getD [] ++ [line]) ∧
      unmarshalEntry line = some e ∧ e.Action = ascii "apply" ∧ e.Success = false ∧
      e.Timestamp = now ∧
      GetRecentEntries (svc.RecordApply ⟨false, false⟩ now journal p sn false).2 0
        = e :: GetRecentEntries journal 0) := by
  refine ⟨rfl, rfl, rfl, rfl, rfl, ?_⟩
  obtain ⟨doc, hdoc⟩ := toJson_isSome (Call.apply now p sn false).entry hnow
  have hj := step_journal (svc, journal) (Call.apply now p sn false) doc hdoc
  have hu := unmarshalEntry_line _ doc (Call.apply now p sn false).entry_details hdoc
  simp only [HistoryService.step] at hj
  have ha : toValidUTF8 (ascii "apply") = ascii "apply" := by decide
  refine ⟨.json doc, _, hj, hu, ha, rfl, rfl, ?_⟩
  rw [hj, GetRecentEntries_eq, if_neg (by decide), GetRecentEntries_getD journal,
    GetRecentEntries_eq, if_neg (by decide), List.filterMap_append]
  simp [hu]

set_option maxRecDepth 100000 in
/-- C10, witness: a failed apply of `bad-profile` on a fresh service with no journal. -/
theorem RecordApply_last_apply_witness :
    ((⟨none⟩ : HistoryService).RecordApply ⟨false, false⟩ (unixTime 1704067200 0) none
      (ascii "bad-profile") (ascii "snapshot-123") false).1.GetLastApply = none ∧
    (GetRecentEntries ((⟨none⟩ : HistoryService).RecordApply ⟨false, false⟩
      (unixTime 1704067200 0) none (ascii "bad-profile") (ascii "snapshot-123") false).2 0).map
        (fun e => (e.Action, e.ProfileID, e.Success))
      = [(ascii "apply", ascii "bad-profile", false)] :=
  ⟨(RecordApply_last_apply ⟨none⟩ ⟨false, false⟩ (unixTime 1704067200 0) none
      (ascii "bad-profile") (ascii "snapshot-123") false (by decide)).1, by decide⟩

/-- C11: every operation of the history service keeps the journal append-only. After any
operation the previous lines are a prefix of the journal and at most one line was added; the
reads (GetRecentEntries, GetLastApply) and the construction of a service leave the journal as
it was; a recording call (RecordApply, RecordRollback, RecordSnapshot) whose append succeeds
adds exactly one line, the JSON encoding of its entry, written as the bytes of `json.Marshal`
followed by one newline, and no byte of the encoding itself is a newline. -/
theorem journal_append_only (af : AppendFaults) (st : HistoryService × Journal) (op : Op) :
    (∃ added, (HistoryService.exec af st op).2.getD [] = st.2.getD [] ++ added ∧
      added.length ≤ 1) ∧
    (∀ limit, (HistoryService.exec af st (.getRecentEntries limit)).2 = st.2) ∧
    (HistoryService.exec af st .getLastApply).2 = st.2 ∧
    (∀ mkdirFails, (HistoryService.exec af st (.construct mkdirFails)).2 = st.2) ∧
    (∀ c : Call, c.now < year10000 →
      ∃ doc data, c.entry.toJson = some doc ∧ c.entry.marshal = some data ∧
        c.entry.line = some (data ++ [10]) ∧ (∀ b ∈ data, b ≠ 10) ∧
        (HistoryService.exec ⟨false, false⟩ st (.record c)).2
          = some (st.2.getD [] ++ [.json doc])) := by
  refine ⟨?_, fun _ => rfl, rfl, fun _ => rfl, fun c hc => ?_⟩
  · cases op with
    | record c =>
      simp only [HistoryService.exec, record_journal]
      exact appendEntry_prefix af st.2 c.entry
    | getRecentEntries limit => exact ⟨[], by simp [HistoryService.exec], by simp⟩
    | getLastApply => exact ⟨[], by simp [HistoryService.exec], by simp⟩
    | construct m => exact ⟨[], by simp [HistoryService.exec], by simp⟩
  · obtain ⟨doc, hdoc⟩ := toJson_isSome c.entry hc
    obtain ⟨data, hdata⟩ := marshal_isSome c.entry hc
    refine ⟨doc, data, hdoc, hdata, by simp [HistoryEntry.line, hdata],
      marshal_ne_newline c.entry (Call.entry_details c) data hdata, ?_⟩
    simp only [HistoryService.exec, record_journal, appendEntry_ok st.2 c.entry doc hdoc]

/-- C11, witness: a RecordSnapshot on a fresh history directory adds the one line
of its entry, whose encoding holds no newline. -/
theorem journal_append_only_witness :
    ∃ doc data,
      (Call.snapshot (unixTime 1704067200 0) (ascii "s1")).entry.toJson = some doc ∧
      (Call.snapshot (unixTime 1704067200 0) (ascii "s1")).entry.marshal = some data ∧
      (Call.snapshot (unixTime 1704067200 0) (ascii "s1")).entry.line = some (data ++ [10]) ∧
      (∀ b ∈ data, b ≠ 10) ∧
      (HistoryService.exec ⟨false, false⟩ (⟨none⟩, none)
        (.record (Call.snapshot (unixTime 1704067200 0) (ascii "s1")))).2
        = some ((none : Journal).getD [] ++ [.json doc]) :=
  (journal_append_only ⟨false, false⟩ (⟨none⟩, none) .getLastApply).2.2.2.2
    (Call.snapshot (unixTime 1704067200 0) (ascii "s1")) (by decide)

set_option maxRecDepth 100000 in
/-- C12, the code at a journal with an overlong line: the file holds a snapshot entry, then a
line of 70000 bytes `x`, then a successful apply of profile `bbr`. Both entry lines parse, yet
GetRecentEntries returns the first entry only: at the long line `scanner.Scan()` returns false
(the line does not fit the scanner's buffer), the loop ends, and the apply on the later line is
dropped without an error. -/
theorem GetRecentEntriesOfFile_stops_at_long_line :
    (FileLine.ofBytes (List.replicate 70000 120)).size = 70000 ∧
    ([FileLine.ofEntry ⟨unixTime 1704067200 0, ascii "snapshot", [], ascii "s1", true, []⟩,
        FileLine.ofBytes (List.replicate 70000 120),
        FileLine.ofEntry ⟨unixTime 1704067260 0, ascii "apply", ascii "bbr", ascii "s1", true, []⟩
      ].map FileLine.text).filterMap unmarshalEntry
      = [⟨unixTime 1704067200 0, ascii "snapshot", [], ascii "s1", true, []⟩,
          ⟨unixTime 1704067260 0, ascii "apply", ascii "bbr", ascii "s1", true, []⟩] ∧
    GetRecentEntriesOfFile (some
      [FileLine.ofEntry ⟨unixTime 1704067200 0, ascii "snapshot", [], ascii "s1", true, []⟩,
        FileLine.ofBytes (List.replicate 70000 120),
        FileLine.ofEntry ⟨unixTime 1704067260 0, ascii "apply", ascii "bbr", ascii "s1", true, []⟩
      ]) 0
      = [⟨unixTime 1704067200 0, ascii "snapshot", [], ascii "s1", true, []⟩] := by
  have h : ¬ (70000 < 64 * 1024) := by decide
  refine ⟨by simp only [FileLine.ofBytes, List.length_replicate], ?_, ?_⟩
  · simp only [FileLine.ofBytes, FileLine.ofEntry, List.map_cons, List.map_nil,
      List.filterMap_cons, unmarshalEntry]
    decide
  · simp only [GetRecentEntriesOfFile, Option.map_some', scanLines, FileLine.ofBytes,
      List.length_replicate, MaxScanTokenSize, h, if_false]
    decide

/-- C13: normalizeSysctlValue (trim, and collapse every run of white space to one space)
returns the white-space-separated fields of its argument joined by single spaces. Its result
neither starts nor ends with white space, holds no white space other than the space (so no
tab) and no two adjacent spaces; two values with the same fields normalise to the same string,
as `4096  87380<tab>16777216` and `4096 87380 16777216` do; and normalising twice gives the
same as normalising once. -/
theorem normalizeSysctlValue_fields (s t : GoString) :
    normalizeSysctlValue s = joinWith [32] (fields s) ∧
    (∀ c, (normalizeSysctlValue s).head? = some c → isSpace c = false) ∧
    (∀ c, (normalizeSysctlValue s).getLast? = some c → isSpace c = false) ∧
    (∀ c ∈ normalizeSysctlValue s, isSpace c = true → c = 32) ∧
    (∀ c ∈ normalizeSysctlValue s, c ≠ 9) ∧
    (normalizeSysctlValue s).Chain' (fun a b => ¬ (a = 32 ∧ b = 32)) ∧
    (fields s = fields t → normalizeSysctlValue s = normalizeSysctlValue t) ∧
    normalizeSysctlValue (ascii "4096  87380\t16777216")
      = normalizeSysctlValue (ascii "4096 87380 16777216") ∧
    normalizeSysctlValue (ascii "4096  87380\t16777216") = ascii "4096 87380 16777216" ∧
    normalizeSysctlValue (normalizeSysctlValue s) = normalizeSysctlValue s := by
  have hj : ∀ u, normalizeSysctlValue u = joinWith [32] (fields u) := by
    intro u
    rw [normalizeSysctlValue_eq, fields, joinWith_fieldsAux u []]
    simp
  have h32 : isSpace 32 = true := by decide
  have h9 : isSpace 9 = true := by decide
  refine ⟨hj s, ?_, ?_, ?_, ?_, ?_, ?_, by decide, by decide, ?_⟩
  · rw [normalizeSysctlValue_eq]
    exact head_collapse_inRun s
  · rw [normalizeSysctlValue_eq]
    exact collapse_last s true
  · rw [normalizeSysctlValue_eq]
    exact collapse_spaces s true
  · rw [normalizeSysctlValue_eq]
    intro c hc h
    subst h
    have := collapse_spaces s true 9 hc h9
    omega
  · rw [normalizeSysctlValue_eq]
    refine List.Chain'.imp ?_ (collapse_chain s true)
    intro a b hab h
    apply hab
    rw [h.1, h.2]
    exact ⟨h32, h32⟩
  · intro h
    rw [hj s, hj t, h]
  · rw [normalizeSysctlValue_eq (normalizeSysctlValue s), normalizeSysctlValue_eq s]
    exact (collapse_fixed _ (collapse_spaces s true) (collapse_last s true)
      (collapse_chain s true)).2 (head_collapse_inRun s)

/-- C14: for a limiter with capacity `rate = n ≥ 1` and a key that has no bucket yet, when the
calls after the first all come less than `interval` after the first one, the answers to
`m` Allow calls are `min m n` times true followed by false for every later call. -/
theorem allowAll_first_burst (r : RateLimiter) (key : GoString) (t1 : Time) (rest : List Time)
    (hn : 1 ≤ r.rate) (hmax : r.rate ≤ 9223372036854775807)
    (hfresh : r.requests.get? key = none)
    (hw : ∀ t ∈ rest, t1 ≤ t ∧ (t : Int) - (t1 : Int) < r.interval) :
    (r.allowAll key (t1 :: rest)).1
      = List.replicate (min (rest.length + 1) r.rate.toNat) true
        ++ List.replicate (rest.length + 1 - r.rate.toNat) false := by
  obtain ⟨n, hn'⟩ : ∃ n : Nat, r.rate = ((n + 1 : Nat) : Int) := ⟨(r.rate - 1).toNat, by omega⟩
  have ew : wrapInt64 (r.rate - 1) = (n : Int) := by
    rw [wrapInt64_of_range _ (by omega) (by omega)]
    omega
  simp only [RateLimiter.allowAll, RateLimiter.Allow, hfresh, ew]
  rw [allowAll_bucket key t1 rest ⟨GoMap.insert key ⟨(n : Int), t1⟩ r.requests, r.rate, r.interval⟩
    n (GoMap.get?_insert_self key _ _) (by omega) hw]
  have e2 : r.rate.toNat = n + 1 := by omega
  rw [e2, Nat.succ_min_succ, List.replicate_succ, List.cons_append, Nat.add_sub_add_right]

/-- C14, witness: a limiter of 5 requests per second answers six calls inside one second with
five times true, then false. -/
theorem allowAll_first_burst_witness :
    ((NewRateLimiter 5 1000000000).allowAll (ascii "test-client")
      [1000, 2000, 3000, 4000, 5000, 6000]).1 = [true, true, true, true, true, false] :=
  allowAll_first_burst (NewRateLimiter 5 1000000000) (ascii "test-client") 1000
    [2000, 3000, 4000, 5000, 6000] (by decide) (by decide) (by decide) (by decide)

/-- C15: for a key that has a bucket, an Allow call at an instant at least `interval` after the
bucket's lastReset returns true and replaces the bucket by a full one for a window starting at
that call: tokens `rate - 1` (in `int` arithmetic, which is `rate - 1` for every rate but the
least `int`) and lastReset the instant of the call; rate and interval stay. Before that, an
exhausted bucket (no token left) refuses every call inside its window. -/
theorem Allow_after_interval (r : RateLimiter) (key : GoString) (b : Bucket) (now : Time)
    (hb : r.requests.get? key = some b) (hi : r.interval ≤ 9223372036854775807)
    (hlate : (now : Int) - (b.lastReset : Int) ≥ r.interval) :
    (r.Allow now key).1 = true ∧
    (r.Allow now key).2.requests.get? key = some ⟨wrapInt64 (r.rate - 1), now⟩ ∧
    (-9223372036854775808 < r.rate → r.rate ≤ 9223372036854775807 →
      (r.Allow now key).2.requests.get? key = some ⟨r.rate - 1, now⟩) ∧
    (r.Allow now key).2.rate = r.rate ∧ (r.Allow now key).2.interval = r.interval ∧
    (b.tokens ≤ 0 → ∀ t : Time, ¬ (Time.Sub t b.lastReset ≥ r.interval) →
      r.Allow t key = (false, r)) := by
  have hs := Time.Sub_ge now b.lastReset r.interval hi hlate
  have e : r.Allow now key
      = (true, { r with requests := r.requests.insert key ⟨wrapInt64 (r.rate - 1), now⟩ }) := by
    simp only [RateLimiter.Allow, hb, if_pos hs]
  rw [e]
  refine ⟨rfl, GoMap.get?_insert_self key _ _, fun h1 h2 => ?_, rfl, rfl, fun h0 t ht => ?_⟩
  · rw [wrapInt64_of_range (r.rate - 1) (by omega) (by omega)]
    exact GoMap.get?_insert_self key _ _
  · simp only [RateLimiter.Allow, hb, if_neg ht]
    rw [if_neg (by omega)]

/-- C15, witness: a limiter of 2 requests per 100 ms whose key `test` was exhausted by calls at
0, 1 and 2 ms allows the call at 150 ms and starts a window there. -/
theorem Allow_after_interval_witness :
    (((NewRateLimiter 2 100000000).allowAll (ascii "test") [0, 1000000, 2000000]).1
      = [true, true, false]) ∧
    ((((NewRateLimiter 2 100000000).allowAll (ascii "test") [0, 1000000, 2000000]).2).Allow
      150000000 (ascii "test")).1 = true ∧
    ((((NewRateLimiter 2 100000000).allowAll (ascii "test") [0, 1000000, 2000000]).2).Allow
      150000000 (ascii "test")).2.requests.get? (ascii "test") = some ⟨1, 150000000⟩ :=
  ⟨by decide,
    (Allow_after_interval
      ((NewRateLimiter 2 100000000).allowAll (ascii "test") [0, 1000000, 2000000]).2
      (ascii "test") ⟨0, 0⟩ 150000000 (by decide) (by decide) (by decide)).1,
    (Allow_after_interval
      ((NewRateLimiter 2 100000000).allowAll (ascii "test") [0, 1000000, 2000000]).2
      (ascii "test") ⟨0, 0⟩ 150000000 (by decide) (by decide) (by decide)).2.2.1
        (by decide) (by decide)⟩

/-- C16: each key has its own bucket. For distinct keys `a` and `b`, a call Allow(a) leaves the
bucket of `b` (and rate and interval) as they were, so a following Allow(b) answers and updates
the bucket of `b` exactly as without the call for `a`; and in any sequence of calls, the
answers to the keys other than `a` are the same as when the calls for `a` are left out. -/
theorem Allow_other_key (r : RateLimiter) (a b : GoString) (t : Time) (h : a ≠ b) :
    (r.Allow t a).2.requests.get? b = r.requests.get? b ∧
    (r.Allow t a).2.rate = r.rate ∧ (r.Allow t a).2.interval = r.interval ∧
    (∀ t' : Time, ((r.Allow t a).2.Allow t' b).1 = (r.Allow t' b).1 ∧
      ((r.Allow t a).2.Allow t' b).2.requests.get? b = (r.Allow t' b).2.requests.get? b) ∧
    (∀ calls : List (Time × GoString),
      (r.serve calls).1.filter (fun x => decide (x.1 ≠ a))
        = (r.serve (calls.filter (fun c => decide (c.2 ≠ a)))).1) := by
  have hba : b ≠ a := fun e => h e.symm
  have c := Allow_config r t a
  refine ⟨Allow_get?_ne r t a b hba, c.1, c.2, fun t' => ?_, fun calls => ?_⟩
  · exact Allow_congr _ _ t' b c.1 c.2 (Allow_get?_ne r t a b hba)
  · exact serve_without a calls r r rfl rfl (fun _ _ => rfl)

/-- C16, witness: with 2 requests per second, `client-a` is exhausted by two calls and refused
at the fourth, while `client-b` is allowed in between. -/
theorem Allow_other_key_witness :
    ((NewRateLimiter 2 1000000000).serve [(0, ascii "client-a"), (1, ascii "client-a"),
      (2, ascii "client-b"), (3, ascii "client-a")]).1.map Prod.snd = [true, true, true, false] ∧
    ((NewRateLimiter 2 1000000000).Allow 0 (ascii "client-a")).2.requests.get? (ascii "client-b")
      = (NewRateLimiter 2 1000000000).requests.get? (ascii "client-b") :=
  ⟨by decide,
    (Allow_other_key (NewRateLimiter 2 1000000000) (ascii "client-a") (ascii "client-b") 0
      (by decide)).1⟩

/-- C17: BearerAuth(expectedKey) passes the request on to the next handler exactly when the
Authorization header is the string `Bearer ` followed by expectedKey; then it writes no
response and does not abort. For every other header (none, empty, another scheme, no space,
another key) it answers 401 with `success` false and error code UNAUTHORIZED, aborts the chain
and does not call the next handler. -/
theorem BearerAuth_iff (expectedKey : GoString) (authorization : Option GoString) :
    ((BearerAuth expectedKey authorization).next = true
      ↔ authorization = some (ascii "Bearer " ++ expectedKey)) ∧
    (authorization = some (ascii "Bearer " ++ expectedKey) →
      BearerAuth expectedKey authorization = ⟨none, false, true⟩) ∧
    (authorization ≠ some (ascii "Bearer " ++ expectedKey) →
      ∃ message, BearerAuth expectedKey authorization
        = ⟨some ⟨401, errorBody (ascii "UNAUTHORIZED") message⟩, true, false⟩) := by
  have hB : ascii "Bearer " ++ expectedKey = ascii "Bearer" ++ 32 :: expectedKey := by
    have : ascii "Bearer " = ascii "Bearer" ++ [32] := by decide
    rw [this, List.append_assoc]
    rfl
  have hn : (32 : Nat) ∉ ascii "Bearer" := by decide
  have pass : authorization = some (ascii "Bearer " ++ expectedKey) →
      BearerAuth expectedKey authorization = ⟨none, false, true⟩ := by
    intro h
    subst h
    have hs : SplitN2 (ascii "Bearer " ++ expectedKey) 32 = [ascii "Bearer", expectedKey] :=
      (SplitN2_eq_pair _ _ _ 32).mpr ⟨hB, hn⟩
    have hne : ascii "Bearer " ++ expectedKey ≠ [] := by
      rw [hB]
      intro e
      have := congrArg List.length e
      simp [ascii] at this
    simp only [BearerAuth, Option.getD_some, hs, if_neg hne]
    have hc : ConstantTimeCompare expectedKey expectedKey = 1 :=
      (ConstantTimeCompare_eq_one _ _).mpr rfl
    simp [hc]
  have fail : authorization ≠ some (ascii "Bearer " ++ expectedKey) →
      ∃ message, BearerAuth expectedKey authorization
        = ⟨some ⟨401, errorBody (ascii "UNAUTHORIZED") message⟩, true, false⟩ := by
    intro h
    simp only [BearerAuth]
    by_cases h0 : authorization.getD [] = []
    · rw [if_pos h0]
      exact ⟨_, rfl⟩
    · rw [if_neg h0]
      by_cases h1 : (SplitN2 (authorization.getD []) 32).length ≠ 2
          ∨ (SplitN2 (authorization.getD []) 32).getD 0 [] ≠ ascii "Bearer"
      · rw [if_pos h1]
        exact ⟨_, rfl⟩
      · rw [if_neg h1]
        by_cases h2 : ConstantTimeCompare ((SplitN2 (authorization.getD []) 32).getD 1 [])
            expectedKey ≠ 1
        · rw [if_pos h2]
          exact ⟨_, rfl⟩
        · exfalso
          apply h
          simp only [not_or, not_not] at h1 h2
          have hk := (ConstantTimeCompare_eq_one _ _).mp h2
          have hp : SplitN2 (authorization.getD []) 32 = [ascii "Bearer", expectedKey] := by
            match hq : SplitN2 (authorization.getD []) 32, h1.1 with
            | [a, b], _ =>
              rw [hq] at h1 hk
              simp only [List.getD_cons_zero, List.getD_cons_succ] at h1 hk
              rw [h1.2, hk]
          have hh := ((SplitN2_eq_pair _ _ _ 32).mp hp).1
          cases authorization with
          | none => exact absurd rfl h0
          | some v =>
            simp only [Option.getD_some] at hh
            rw [hh, hB]
  refine ⟨⟨fun h => ?_, fun h => by rw [pass h]⟩, pass, fail⟩
  by_contra hne
  obtain ⟨m, hm⟩ := fail hne
  rw [hm] at h
  exact absurd h (by simp)

/-- C18: the download handler answers 400 with error code INVALID_REQUEST exactly when the
`bytes` value (`10485760` when the parameter is absent) is not the text of a base-10 signed
64-bit integer between 1 and 524288000; for every text of an integer in that range, the bound
included, it sends the headers with that Content-Length and streams. -/
theorem Download_rejects_iff (fuel : Nat) (sink : Nat → Int → Option Int)
    (bytes : Option GoString) :
    ((∃ resp, ProbeHandler.Download fuel sink bytes = .rejected resp) ↔
      ¬ ∃ v, IsInt64Text (bytes.getD (ascii "10485760")) v ∧ 1 ≤ v ∧ v ≤ 524288000) ∧
    (∀ resp, ProbeHandler.Download fuel sink bytes = .rejected resp →
      resp.status = 400 ∧ ∃ message, resp.body = errorBody (ascii "INVALID_REQUEST") message) ∧
    (∀ v, IsInt64Text (bytes.getD (ascii "10485760")) v → 1 ≤ v → v ≤ 524288000 →
      ∃ ending written chunks,
        ProbeHandler.Download fuel sink bytes = .streamed (sprintfD v) ending written chunks) ∧
    ProbeHandler.Download fuel sink none
      = ProbeHandler.Download fuel sink (some (ascii "10485760")) ∧
    IsInt64Text (ascii "10485760") 10485760 ∧ IsInt64Text (ascii "524288000") 524288000 ∧
    (∃ resp, ProbeHandler.Download fuel sink (some (ascii "524288001")) = .rejected resp) ∧
    (∃ resp, ProbeHandler.Download fuel sink (some (ascii "0")) = .rejected resp) := by
  have hmax : MaxDownloadBytes = 524288000 := by decide
  have p1 : ParseInt (ascii "10485760") = .ok 10485760 := by decide
  have p2 : ParseInt (ascii "524288000") = .ok 524288000 := by decide
  have p3 : ParseInt (ascii "524288001") = .ok 524288001 := by decide
  have p4 : ParseInt (ascii "0") = .ok 0 := by decide
  have uniq : ∀ s v n, ParseInt s = .ok n → IsInt64Text s v → v = n := by
    intro s v n hn hv
    have := (ParseInt_ok_iff s v).mpr hv
    rw [hn] at this
    injection this with this
    exact this.symm
  refine ⟨?_, ?_, ?_, rfl, (ParseInt_ok_iff _ _).mp p1, (ParseInt_ok_iff _ _).mp p2, ?_, ?_⟩
  · simp only [ProbeHandler.Download]
    cases hp : ParseInt (bytes.getD (ascii "10485760")) with
    | error e =>
      simp only
      refine ⟨fun _ => ?_, fun _ => ⟨_, rfl⟩⟩
      rintro ⟨v, hv, _⟩
      have := (ParseInt_ok_iff _ v).mpr hv
      rw [hp] at this
      exact absurd this (by simp)
    | ok n =>
      simp only [hmax]
      by_cases h0 : n ≤ 0
      · rw [if_pos h0]
        refine ⟨fun _ => ?_, fun _ => ⟨_, rfl⟩⟩
        rintro ⟨v, hv, h1, _⟩
        have := uniq _ v n hp hv
        omega
      · rw [if_neg h0]
        by_cases h1 : n > 524288000
        · rw [if_pos h1]
          refine ⟨fun _ => ?_, fun _ => ⟨_, rfl⟩⟩
          rintro ⟨v, hv, _, h2⟩
          have := uniq _ v n hp hv
          omega
        · rw [if_neg h1]
          constructor
          · rintro ⟨resp, hr⟩
            exact absurd hr (by simp)
          · intro h
            exfalso
            exact h ⟨n, (ParseInt_ok_iff _ n).mp hp, by omega, by omega⟩
  · intro resp hr
    simp only [ProbeHandler.Download] at hr
    cases hp : ParseInt (bytes.getD (ascii "10485760")) with
    | error e =>
      rw [hp] at hr
      simp only [DownloadOutcome.rejected.injEq] at hr
      subst hr
      exact ⟨rfl, _, rfl⟩
    | ok n =>
      rw [hp] at hr
      simp only at hr
      split_ifs at hr
      · simp only [DownloadOutcome.rejected.injEq] at hr
        subst hr
        exact ⟨rfl, _, rfl⟩
      · simp only [DownloadOutcome.rejected.injEq] at hr
        subst hr
        exact ⟨rfl, _, rfl⟩
  · intro v hv h1 h2
    have hp := (ParseInt_ok_iff _ v).mpr hv
    simp only [ProbeHandler.Download, hp, hmax]
    rw [if_neg (by omega), if_neg (by omega)]
    exact ⟨_, _, _, rfl⟩
  · simp only [ProbeHandler.Download, Option.getD_some, p3, hmax]
    exact ⟨_, rfl⟩
  · simp only [ProbeHandler.Download, Option.getD_some, p4]
    exact ⟨_, rfl⟩

/-- C19: for every accepted `N` (the `bytes` value is a text of `N`, `1 ≤ N ≤ 524288000`), when
every write reports the full chunk length and none fails, the streaming loop ends, given fuel
for `⌈N / 65536⌉` iterations, having written exactly `N` bytes, the number in the Content-Length
header, in `⌈N / 65536⌉` chunks of at most 65536 bytes each, all but the last of 65536 bytes. -/
theorem Download_streams_exactly (fuel : Nat) (sink : Nat → Int → Option Int) (s : GoString)
    (N : Int) (hs : IsInt64Text s N) (h1 : 1 ≤ N) (h2 : N ≤ 524288000)
    (hsink : ∀ i n, sink i n = some n) (hfuel : (N.toNat + 65535) / 65536 ≤ fuel) :
    ∃ chunks, ProbeHandler.Download fuel sink (some s) = .streamed (sprintfD N) .done N chunks ∧
      chunks.sum = N ∧ chunks.length = (N.toNat + 65535) / 65536 ∧
      (∀ c ∈ chunks, 1 ≤ c ∧ c ≤ 65536) ∧ (∀ c ∈ chunks.dropLast, c = 65536) := by
  have hmax : MaxDownloadBytes = 524288000 := by decide
  have hp := (ParseInt_ok_iff s N).mpr hs
  have hl := streamLoop_full sink hsink N (by omega) fuel 0 0 [] (by omega) (by omega)
    (by simpa using hfuel)
  simp only [ProbeHandler.Download, Option.getD_some, hp, hmax]
  rw [if_neg (by omega), if_neg (by omega), hl]
  simp only [sub_zero, List.nil_append]
  refine ⟨_, rfl, ?_, ?_, ?_, ?_⟩
  · by_cases hr : N.toNat % 65536 = 0
    · simp only [hr, if_true, List.append_nil, List.sum_replicate, smul_eq_mul, nsmul_eq_mul]
      push_cast
      omega
    · simp only [hr, if_false, List.sum_append, List.sum_replicate, nsmul_eq_mul,
        List.sum_singleton]
      push_cast
      omega
  · by_cases hr : N.toNat % 65536 = 0
    · simp only [hr, if_true, List.append_nil, List.length_replicate]
      omega
    · simp only [hr, if_false, List.length_append, List.length_replicate, List.length_singleton]
      omega
  · intro c hc
    simp only [List.mem_append, List.mem_replicate] at hc
    rcases hc with hc | hc
    · omega
    · split_ifs at hc with hr
      · simp at hc
      · simp only [List.mem_singleton] at hc
        omega
  · intro c hc
    by_cases hr : N.toNat % 65536 = 0
    · simp only [hr, if_true, List.append_nil] at hc
      exact (List.mem_replicate.mp (List.dropLast_subset _ hc)).2
    · simp only [hr, if_false, List.dropLast_concat] at hc
      exact (List.mem_replicate.mp hc).2

/-- C19, witness: 200000 bytes are streamed in three chunks of 65536 bytes and one of 3392. -/
theorem Download_streams_exactly_witness :
    ∃ chunks, ProbeHandler.Download 4 fullSink (some (ascii "200000"))
        = .streamed (sprintfD 200000) .done 200000 chunks ∧
      chunks.sum = 200000 ∧ chunks.length = ((200000 : Int).toNat + 65535) / 65536 ∧
      (∀ c ∈ chunks, 1 ≤ c ∧ c ≤ 65536) ∧ (∀ c ∈ chunks.dropLast, c = 65536) :=
  Download_streams_exactly 4 fullSink (ascii "200000") 200000
    ⟨ascii "200000", by decide, by decide, Or.inl ⟨Or.inl rfl, by decide⟩, by decide, by decide⟩
    (by decide) (by decide) (fun _ _ => rfl) (by decide)

/-- C20, counterexample: the body `{"mode":"commit","profile_id":5}` is valid JSON and its mode
is `commit`, yet the handler answers 400 INVALID_REQUEST and does not invoke the apply
service: the number does not decode into the string field `profile_id`, so binding fails. -/
theorem Apply_valid_json_not_invoked :
    (SystemHandler.Apply (fun _ => .ok .null) (ascii "json: cannot unmarshal number")
      (.json (.obj [(ascii "mode", .str (ascii "commit")),
        (ascii "profile_id", .num (ascii "5"))]))).calls = [] ∧
    (SystemHandler.Apply (fun _ => .ok .null) (ascii "json: cannot unmarshal number")
      (.json (.obj [(ascii "mode", .str (ascii "commit")),
        (ascii "profile_id", .num (ascii "5"))]))).response.status = 400 ∧
    (SystemHandler.Apply (fun _ => .ok .null) (ascii "json: cannot unmarshal number")
      (.json (.obj [(ascii "mode", .str (ascii "commit")),
        (ascii "profile_id", .num (ascii "5"))]))).response.body
      = errorBody (ascii "INVALID_REQUEST") (ascii "json: cannot unmarshal number") := by
  decide

/-- C20 (amended): the apply handler invokes the apply service exactly once, with the decoded
request, when the body decodes into an ApplyRequest whose mode is exactly `dry_run` or
`commit`; in every other case (the body does not decode, or the mode is anything else, absent
and empty included) it answers 400 INVALID_REQUEST without invoking the service. -/
theorem Apply_mode_validation (applyService : ApplyRequest → Except ApplyError Json)
    (errText : GoString) (body : Text) :
    (∀ req, ShouldBindJSON body = some req →
      (req.Mode = ascii "dry_run" ∨ req.Mode = ascii "commit") →
      (SystemHandler.Apply applyService errText body).calls = [req]) ∧
    ((¬ ∃ req, ShouldBindJSON body = some req ∧
        (req.Mode = ascii "dry_run" ∨ req.Mode = ascii "commit")) →
      (SystemHandler.Apply applyService errText body).calls = [] ∧
      (SystemHandler.Apply applyService errText body).response.status = 400 ∧
      ∃ message, (SystemHandler.Apply applyService errText body).response.body
        = errorBody (ascii "INVALID_REQUEST") message) := by
  constructor
  · intro req hb hm
    simp only [SystemHandler.Apply, hb]
    rw [if_neg (by tauto)]
    cases applyService req with
    | error e =>
      simp only
      split_ifs <;> rfl
    | ok r => rfl
  · intro h
    simp only [SystemHandler.Apply]
    cases hb : ShouldBindJSON body with
    | none => exact ⟨rfl, rfl, _, rfl⟩
    | some req =>
      have hm : req.Mode ≠ ascii "dry_run" ∧ req.Mode ≠ ascii "commit" := by
        constructor
        · intro e; exact h ⟨req, hb, Or.inl e⟩
        · intro e; exact h ⟨req, hb, Or.inr e⟩
      simp only
      rw [if_pos hm]
      exact ⟨rfl, rfl, _, rfl⟩

/-- C20, witness: a commit request for profile `bbr` reaches the service once; a body without
mode, with an empty mode or with the mode `DRY_RUN` is answered 400 and reaches it never. -/
theorem Apply_mode_validation_witness :
    (SystemHandler.Apply (fun _ => .ok .null) []
      (.json (.obj [(ascii "profile_id", .str (ascii "bbr")),
        (ascii "mode", .str (ascii "commit"))]))).calls = [⟨ascii "bbr", ascii "commit", 0⟩] ∧
    (SystemHandler.Apply (fun _ => .ok .null) []
      (.json (.obj [(ascii "profile_id", .str (ascii "bbr"))]))).calls = [] ∧
    (SystemHandler.Apply (fun _ => .ok .null) []
      (.json (.obj [(ascii "profile_id", .str (ascii "bbr")),
        (ascii "mode", .str (ascii ""))]))).response.status = 400 ∧
    (SystemHandler.Apply (fun _ => .ok .null) []
      (.json (.obj [(ascii "profile_id", .str (ascii "bbr")),
        (ascii "mode", .str (ascii "DRY_RUN"))]))).response.status = 400 :=
  ⟨(Apply_mode_validation (fun _ => .ok .null) []
      (.json (.obj [(ascii "profile_id", .str (ascii "bbr")),
        (ascii "mode", .str (ascii "commit"))]))).1 ⟨ascii "bbr", ascii "commit", 0⟩
      (by decide) (by decide),
    by decide, by decide, by decide⟩

/-- C21: for a request that binds (`req` is the decoded body), the rollback handler answers 400
without invoking a rollback exactly when `rollback_last` is false and `snapshot_id` is empty, and
the answer then carries the code INVALID_REQUEST. With `rollback_last` true it rolls back to the
id of the snapshot GetLatest returns (to nothing when GetLatest fails, which is answered 404 or
500); otherwise, with a non-empty `snapshot_id`, it rolls back to that id. -/
theorem Rollback_request_validation (s : SnapshotService) (fs : FS)
    (rollback : GoString → Option ApplyError) (host : Host) (errText : GoString)
    (storeText : SvcError → GoString) (body : Text) (req : RollbackRequest)
    (hb : bindRollbackRequest body = some req) :
    (((SystemHandler.Rollback s fs rollback host errText storeText body).response.status = 400 ∧
        (SystemHandler.Rollback s fs rollback host errText storeText body).calls = [])
      ↔ (req.RollbackLast = false ∧ req.SnapshotID = [])) ∧
    (req.RollbackLast = false → req.SnapshotID = [] →
      (SystemHandler.Rollback s fs rollback host errText storeText body).response
        = ⟨400, errorBody (ascii "INVALID_REQUEST")
            (ascii "either snapshot_id or rollback_last is required")⟩) ∧
    (req.RollbackLast = true → ∀ snapshot, s.GetLatest fs = .ok snapshot →
      (SystemHandler.Rollback s fs rollback host errText storeText body).calls
        = [snapshot.ID]) ∧
    (req.RollbackLast = true → ∀ e, s.GetLatest fs = .error e →
      (SystemHandler.Rollback s fs rollback host errText storeText body).calls = [] ∧
      ((SystemHandler.Rollback s fs rollback host errText storeText body).response.status = 404
        ∨ (SystemHandler.Rollback s fs rollback host errText storeText body).response.status
          = 500)) ∧
    (req.RollbackLast = false → req.SnapshotID ≠ [] →
      (SystemHandler.Rollback s fs rollback host errText storeText body).calls
        = [req.SnapshotID]) := by
  have hlast : req.RollbackLast = true → ∀ snapshot, s.GetLatest fs = .ok snapshot →
      SystemHandler.Rollback s fs rollback host errText storeText body
        = rollbackTo rollback host snapshot.ID := by
    intro h snapshot hg
    simp only [SystemHandler.Rollback, hb, h, if_true, hg]
  have hfail : req.RollbackLast = true → ∀ e, s.GetLatest fs = .error e →
      (SystemHandler.Rollback s fs rollback host errText storeText body).calls = [] ∧
      ((SystemHandler.Rollback s fs rollback host errText storeText body).response.status = 404
        ∨ (SystemHandler.Rollback s fs rollback host errText storeText body).response.status
          = 500) := by
    intro h e hg
    simp only [SystemHandler.Rollback, hb, h, if_true, hg]
    cases e <;> simp [notFound, internalError]
  have hid : req.RollbackLast = false → req.SnapshotID ≠ [] →
      SystemHandler.Rollback s fs rollback host errText storeText body
        = rollbackTo rollback host req.SnapshotID := by
    intro h hn
    simp only [SystemHandler.Rollback, hb, h, Bool.false_eq_true, if_false, hn, ne_eq,
      not_false_eq_true, if_true]
  have hnone : req.RollbackLast = false → req.SnapshotID = [] →
      SystemHandler.Rollback s fs rollback host errText storeText body
        = ⟨badRequest (ascii "either snapshot_id or rollback_last is required"), []⟩ := by
    intro h hn
    simp only [SystemHandler.Rollback, hb, h, Bool.false_eq_true, if_false, hn, ne_eq,
      not_true_eq_false]
  refine ⟨⟨fun h => ?_, fun h => ?_⟩, fun h1 h2 => by rw [hnone h1 h2]; rfl,
    fun h snapshot hg => by rw [hlast h snapshot hg, rollbackTo_calls], hfail,
    fun h hn => by rw [hid h hn, rollbackTo_calls]⟩
  · cases hl : req.RollbackLast with
    | true =>
      exfalso
      cases hg : s.GetLatest fs with
      | ok snapshot =>
        rw [hlast hl snapshot hg, rollbackTo_calls] at h
        exact absurd h.2 (by simp)
      | error e =>
        have := (hfail hl e hg).2
        rw [h.1] at this
        omega
    | false =>
      refine ⟨rfl, ?_⟩
      by_contra hn
      rw [hid hl hn, rollbackTo_calls] at h
      exact absurd h.2 (by simp)
  · rw [hnone h.1 h.2]
    exact ⟨rfl, rfl⟩

/-- C21, witness: on the example store, the empty request `{}` is answered 400 without a
rollback, `{"rollback_last":true}` rolls back to the newest snapshot `b`, and
`{"snapshot_id":"a"}` to `a`. -/
theorem Rollback_request_validation_witness :
    (SystemHandler.Rollback ⟨[ascii "snap"]⟩ exampleStore (fun _ => none)
      (exampleEnv WriteFaults.none).host [] (fun _ => []) (.json (.obj []))).response.status = 400 ∧
    (SystemHandler.Rollback ⟨[ascii "snap"]⟩ exampleStore (fun _ => none)
      (exampleEnv WriteFaults.none).host [] (fun _ => []) (.json (.obj []))).calls = [] ∧
    (SystemHandler.Rollback ⟨[ascii "snap"]⟩ exampleStore (fun _ => none)
      (exampleEnv WriteFaults.none).host [] (fun _ => [])
      (.json (.obj [(ascii "rollback_last", .bool true)]))).calls = [ascii "b"] ∧
    (SystemHandler.Rollback ⟨[ascii "snap"]⟩ exampleStore (fun _ => none)
      (exampleEnv WriteFaults.none).host [] (fun _ => [])
      (.json (.obj [(ascii "snapshot_id", .str (ascii "a"))]))).calls = [ascii "a"] :=
  ⟨((Rollback_request_validation ⟨[ascii "snap"]⟩ exampleStore (fun _ => none)
      (exampleEnv WriteFaults.none).host [] (fun _ => []) (.json (.obj [])) ⟨[], false⟩
      (by decide)).1.mpr ⟨rfl, rfl⟩).1,
    ((Rollback_request_validation ⟨[ascii "snap"]⟩ exampleStore (fun _ => none)
      (exampleEnv WriteFaults.none).host [] (fun _ => []) (.json (.obj [])) ⟨[], false⟩
      (by decide)).1.mpr ⟨rfl, rfl⟩).2,
    by decide, by decide⟩

/-- C22, counterexample: when the apply service returns an error that is ErrSnapshotNotFound,
the apply handler answers 500 with code INTERNAL_ERROR, not 404; and when the rollback of
snapshot `a` returns an error that is ErrProfileNotFound, the rollback handler answers 500 as
well. Each handler tests for its own not-found error only. -/
theorem Apply_snapshot_not_found_is_500 :
    (SystemHandler.Apply (fun _ => .error Sentinel.ErrSnapshotNotFound.toError) []
      (.json (.obj [(ascii "profile_id", .str (ascii "bbr")),
        (ascii "mode", .str (ascii "commit"))]))).response
      = ⟨500, errorBody (ascii "INTERNAL_ERROR") (ascii "snapshot not found")⟩ ∧
    (SystemHandler.Rollback ⟨[ascii "snap"]⟩ exampleStore
      (fun _ => some Sentinel.ErrProfileNotFound.toError)
      (exampleEnv WriteFaults.none).host [] (fun _ => [])
      (.json (.obj [(ascii "snapshot_id", .str (ascii "a"))]))).response
      = ⟨500, errorBody (ascii "INTERNAL_ERROR") (ascii "profile not found")⟩ := by
  decide

/-- C22 (amended): once the request is accepted and the service is invoked, the apply handler
answers an error that is ErrProfileNotFound with 404, the rollback handler an error that is
ErrSnapshotNotFound with 404; an error that is not the handler's own not-found error and is
ErrApplyInProgress is answered 409 with code APPLY_IN_PROGRESS, and every other error (for each
handler the other handler's not-found error included) 500 with code INTERNAL_ERROR and the
error's text; no error is answered 200 with `success` true. Every error body has `success`
false. -/
theorem handlers_error_status (applyService : ApplyRequest → Except ApplyError Json)
    (s : SnapshotService) (fs : FS) (rollback : GoString → Option ApplyError) (host : Host)
    (errText : GoString) (storeText : SvcError → GoString) (body : Text) :
    (∀ req, (SystemHandler.Apply applyService errText body).calls = [req] →
      (∀ err, applyService req = .error err →
        (SystemHandler.Apply applyService errText body).response =
          if errorsIs err .ErrProfileNotFound = true then
            ⟨404, errorBody (ascii "NOT_FOUND") (ascii "profile not found")⟩
          else if errorsIs err .ErrApplyInProgress = true then
            ⟨409, errorBody (ascii "APPLY_IN_PROGRESS")
              (ascii "another apply operation is in progress")⟩
          else ⟨500, errorBody (ascii "INTERNAL_ERROR") err.message⟩) ∧
      (∀ result, applyService req = .ok result →
        (SystemHandler.Apply applyService errText body).response
          = ⟨200, successBody result⟩)) ∧
    (∀ id, (SystemHandler.Rollback s fs rollback host errText storeText body).calls = [id] →
      (∀ err, rollback id = some err →
        (SystemHandler.Rollback s fs rollback host errText storeText body).response =
          if errorsIs err .ErrSnapshotNotFound = true then
            ⟨404, errorBody (ascii "NOT_FOUND") (ascii "snapshot not found")⟩
          else if errorsIs err .ErrApplyInProgress = true then
            ⟨409, errorBody (ascii "APPLY_IN_PROGRESS")
              (ascii "another operation is in progress")⟩
          else ⟨500, errorBody (ascii "INTERNAL_ERROR") err.message⟩) ∧
      (rollback id = none →
        (SystemHandler.Rollback s fs rollback host errText storeText body).response
          = ⟨200, successBody (rollbackResultJson id (collectCurrentState host))⟩)) ∧
    (∀ code message, ∃ e, errorBody code message
      = .obj [(ascii "error", e), (ascii "success", .bool false)]) ∧
    (∀ data, successBody data = .obj [(ascii "data", data), (ascii "success", .bool true)]) := by
  refine ⟨fun req hc => ?_, fun id hc => ?_, fun _ _ => ⟨_, rfl⟩, fun _ => rfl⟩
  · simp only [SystemHandler.Apply] at hc ⊢
    cases hb : ShouldBindJSON body with
    | none => rw [hb] at hc; simp at hc
    | some r =>
      rw [hb] at hc
      simp only at hc ⊢
      by_cases hm : r.Mode ≠ ascii "dry_run" ∧ r.Mode ≠ ascii "commit"
      · rw [if_pos hm] at hc
        simp at hc
      · rw [if_neg hm] at hc ⊢
        have hr : r = req := by
          cases ha : applyService r with
          | error e =>
            rw [ha] at hc
            simp only at hc
            split_ifs at hc <;> simpa using hc
          | ok v =>
            rw [ha] at hc
            simpa using hc
        subst hr
        constructor
        · intro err he
          rw [he]
          simp only
          split_ifs <;> rfl
        · intro result he
          rw [he]
          rfl
  · have key : SystemHandler.Rollback s fs rollback host errText storeText body
        = rollbackTo rollback host id := by
      simp only [SystemHandler.Rollback] at hc ⊢
      cases hb : bindRollbackRequest body with
      | none => rw [hb] at hc; simp at hc
      | some r =>
        rw [hb] at hc
        simp only at hc ⊢
        by_cases hl : r.RollbackLast = true
        · rw [if_pos hl] at hc ⊢
          cases hg : s.GetLatest fs with
          | error e =>
            rw [hg] at hc
            cases e <;> simp at hc
          | ok snapshot =>
            rw [hg] at hc
            simp only at hc ⊢
            rw [rollbackTo_calls] at hc
            simp only [List.cons.injEq, and_true] at hc
            rw [hc]
        · rw [if_neg hl] at hc ⊢
          by_cases hn : r.SnapshotID ≠ []
          · rw [if_pos hn] at hc ⊢
            rw [rollbackTo_calls] at hc
            simp only [List.cons.injEq, and_true] at hc
            rw [hc]
          · rw [if_neg hn] at hc
            simp at hc
    rw [key]
    obtain ⟨r1, r2⟩ := rollbackTo_response rollback host id
    exact ⟨fun err he => by rw [r2 err he]; split_ifs <;> rfl, fun he => by rw [r1 he]; rfl⟩

/-- C22, witness: a commit whose apply is refused as already in progress is answered 409. -/
theorem handlers_error_status_witness :
    (SystemHandler.Apply (fun _ => .error Sentinel.ErrApplyInProgress.toError) []
      (.json (.obj [(ascii "profile_id", .str (ascii "bbr")),
        (ascii "mode", .str (ascii "commit"))]))).response
      = ⟨409, errorBody (ascii "APPLY_IN_PROGRESS")
          (ascii "another apply operation is in progress")⟩ :=
  ((handlers_error_status (fun _ => .error Sentinel.ErrApplyInProgress.toError)
    ⟨[ascii "snap"]⟩ exampleStore (fun _ => none) (exampleEnv WriteFaults.none).host []
    (fun _ => []) (.json (.obj [(ascii "profile_id", .str (ascii "bbr")),
        (ascii "mode", .str (ascii "commit"))]))).1 ⟨ascii "bbr", ascii "commit", 0⟩
    (by decide)).1 Sentinel.ErrApplyInProgress.toError rfl

/-- C23: SetMultiple calls Set once for every entry, in the order of the loop and whatever the
earlier calls returned; it returns nil exactly when every one of those calls (each made in the
state the earlier calls left) succeeded; otherwise it returns one error whose text is
`failed to set some sysctl values: ` followed by the items joined with `; `, where every entry
contributes the item `key: error` when its Set failed and nothing when it succeeded. -/
theorem SetMultiple_attempts_all {σ : Type} (h : SysctlHost σ) (st : σ)
    (values : List (GoString × GoString)) :
    (SysctlManager.SetMultiple h st values).calls = values ∧
    (SysctlManager.SetMultiple h st values).state = stateAfter h st values ∧
    ((SysctlManager.SetMultiple h st values).err = none ↔
      ∀ pre entry post, values = pre ++ entry :: post →
        (SysctlManager.Set h (stateAfter h st pre) entry.1 entry.2).1 = none) ∧
    (SysctlManager.SetMultiple h st values).err =
      (if failedItems h st values = [] then none
       else some (ascii "failed to set some sysctl values: "
        ++ joinWith (ascii "; ") (failedItems h st values))) ∧
    (∀ pre entry post, values = pre ++ entry :: post →
      failedItems h st values = failedItems h st pre ++
        (match (SysctlManager.Set h (stateAfter h st pre) entry.1 entry.2).1 with
          | some err => [entry.1 ++ ascii ": " ++ err]
          | none => []) ++
        failedItems h (stateAfter h st (pre ++ [entry])) post) := by
  have key : (SysctlManager.SetMultiple h st values).err =
      (if failedItems h st values = [] then none
       else some (ascii "failed to set some sysctl values: "
        ++ joinWith (ascii "; ") (failedItems h st values))) := by
    simp only [SysctlManager.SetMultiple, setEntry_foldl, List.nil_append]
    by_cases hf : failedItems h st values = []
    · rw [if_pos hf, hf]
      rfl
    · rw [if_neg hf, if_pos (List.length_pos.mpr hf)]
  refine ⟨?_, ?_, ?_, key, ?_⟩
  · simp only [SysctlManager.SetMultiple, setEntry_foldl, List.nil_append]
    split_ifs <;> rfl
  · simp only [SysctlManager.SetMultiple, setEntry_foldl, List.nil_append]
    split_ifs <;> rfl
  · rw [key, ← failedItems_eq_nil]
    by_cases hf : failedItems h st values = []
    · simp [hf]
    · simp [hf]
  · intro pre entry post hv
    rw [hv, failedItems_append, stateAfter_append]
    cases hs : (SysctlManager.Set h (stateAfter h st pre) entry.1 entry.2).1 <;>
      simp [failedItems, failedItem, stateAfter, hs]

set_option maxRecDepth 100000 in
/-- C23, witness: four entries on the example host, where the second and the fourth Set fail:
all four calls are made, the first and third take effect, and the error lists the two failed
keys. -/
theorem SetMultiple_attempts_all_witness :
    (SysctlManager.SetMultiple exampleSysctlHost []
      [(ascii "net.core.rmem_max", ascii "1"), (ascii "a.b", ascii "x"),
        (ascii "net.ipv4.tcp_congestion_control", ascii "bbr"), (ascii "c", ascii "y")]).calls
      = [(ascii "net.core.rmem_max", ascii "1"), (ascii "a.b", ascii "x"),
        (ascii "net.ipv4.tcp_congestion_control", ascii "bbr"), (ascii "c", ascii "y")] ∧
    (SysctlManager.SetMultiple exampleSysctlHost []
      [(ascii "net.core.rmem_max", ascii "1"), (ascii "a.b", ascii "x"),
        (ascii "net.ipv4.tcp_congestion_control", ascii "bbr"), (ascii "c", ascii "y")]).state
      = [(ascii "/proc/sys/net/core/rmem_max", ascii "1"),
          (ascii "sysctl", ascii "net.ipv4.tcp_congestion_control=bbr")] ∧
    (SysctlManager.SetMultiple exampleSysctlHost []
      [(ascii "net.core.rmem_max", ascii "1"), (ascii "a.b", ascii "x"),
        (ascii "net.ipv4.tcp_congestion_control", ascii "bbr"), (ascii "c", ascii "y")]).err
      = some (ascii ("failed to set some sysctl values: "
          ++ "a.b: sysctl -w a.b=x failed: exit status 255\noutput: sysctl: cannot stat\n; "
          ++ "c: sysctl -w c=y failed: exit status 255\noutput: sysctl: cannot stat\n")) :=
  ⟨(SetMultiple_attempts_all exampleSysctlHost [] _).1, by decide, by decide⟩

/-- C24, the code on a host that has the setup script: whatever the host, the state that
collectCurrentState captures has no `file_hashes` entry for
`/usr/local/bin/nettune-qdisc-setup.sh`, and so has the state of every snapshot that Create
returns. On the example host both managed files exist: `file_hashes` holds the digest of the
sysctl file only, while createBackups of the same snapshot backs up both files. -/
theorem collectCurrentState_omits_script :
    (∀ h : Host, GoMap.get? (collectCurrentState h).FileHashes NettuneQdiscScriptPath = none) ∧
    (∀ (s : SnapshotService) (env : Env) (fs : FS) (snapshot : Snapshot),
      (s.Create env fs).1 = .ok snapshot →
        ∃ st, snapshot.State = some st ∧
          GoMap.get? st.FileHashes NettuneQdiscScriptPath = none) ∧
    scriptEnv.host.file NettuneQdiscScriptPath
      = .content (ascii "#!/bin/sh\ntc qdisc replace dev eth0 root fq\n") ∧
    (collectCurrentState scriptEnv.host).FileHashes
      = [(sysctlConfPath, hexEncode (sha256 (ascii "net.core.default_qdisc = fq\n")))] ∧
    (createBackups scriptEnv exampleStore [ascii "snap", ascii "n"]).1
      = [(sysctlConfPath, ascii "net.core.default_qdisc = fq\n"),
          (NettuneQdiscScriptPath, ascii "#!/bin/sh\ntc qdisc replace dev eth0 root fq\n")] := by
  have gen : ∀ h : Host,
      GoMap.get? (collectCurrentState h).FileHashes NettuneQdiscScriptPath = none := by
    intro h
    simp only [collectCurrentState, List.foldl_cons, List.foldl_nil]
    cases h.file sysctlConfPath with
    | absent => rfl
    | unreadable => rfl
    | content b =>
      simp only
      rw [GoMap.get?_insert_ne _ _ _ _ (by decide)]
      rfl
  refine ⟨gen, ?_, by decide, rfl, by decide⟩
  intro s env fs snapshot hc
  simp only [SnapshotService.Create] at hc
  split at hc
  · simp at hc
  · split at hc
    · simp at hc
    · simp only [Except.ok.injEq] at hc
      rw [← hc]
      exact ⟨_, rfl, gen _⟩

/-- C25, counterexample: 10 bytes over 3 connections are three transfers of 3 bytes, 9 bytes in
all; 1 byte over 2 connections is two transfers of 0 bytes. -/
theorem TestDownload_ten_over_three :
    TestDownload 10 3 = [3, 3, 3] ∧ (TestDownload 10 3).sum = 9 ∧
    TestUpload 10 3 = [3, 3, 3] ∧
    TestDownload 1 2 = [0, 0] ∧ TestUpload 1 2 = [0, 0] := by
  decide

/-- C25 (amended): for bytes > 0 and parallel > 0 the throughput test starts exactly `parallel`
connections, each for the quotient of `bytes` by `parallel` rounded down; the amounts sum to
`bytes` less the remainder of that division, which is more than `bytes - parallel` and equals
`bytes` exactly when `parallel` divides `bytes`; each amount is at least 1 exactly when
`parallel` is at most `bytes`. -/
theorem TestDownload_split (bytes parallel : Int) (hb : 0 < bytes) (hp : 0 < parallel) :
    TestDownload bytes parallel = List.replicate parallel.toNat (bytes / parallel) ∧
    TestUpload bytes parallel = List.replicate parallel.toNat (bytes / parallel) ∧
    ((TestDownload bytes parallel).length : Int) = parallel ∧
    (TestDownload bytes parallel).sum = bytes - bytes % parallel ∧
    bytes - parallel < (TestDownload bytes parallel).sum ∧
    (TestDownload bytes parallel).sum ≤ bytes ∧
    ((TestDownload bytes parallel).sum = bytes ↔ parallel ∣ bytes) ∧
    ((∀ amount ∈ TestDownload bytes parallel, 1 ≤ amount) ↔ parallel ≤ bytes) := by
  have e : TestDownload bytes parallel = List.replicate parallel.toNat (bytes / parallel) := by
    simp only [TestDownload, throughputPlan_pos bytes parallel hb hp]
    exact startLoop_replicate _ _ _ 0 (by rw [Int.toNat_of_nonneg (by omega)]; omega)
  have e2 : TestUpload bytes parallel = List.replicate parallel.toNat (bytes / parallel) := e
  have hs : (TestDownload bytes parallel).sum = bytes - bytes % parallel := by
    rw [e, List.sum_replicate, nsmul_eq_mul, Int.toNat_of_nonneg (by omega)]
    have := Int.emod_add_ediv bytes parallel
    omega
  have hm1 : 0 ≤ bytes % parallel := Int.emod_nonneg _ (by omega)
  have hm2 : bytes % parallel < parallel := Int.emod_lt_of_pos _ hp
  refine ⟨e, e2, ?_, hs, ?_, ?_, ?_, ?_⟩
  · rw [e, List.length_replicate, Int.toNat_of_nonneg (by omega)]
  · rw [hs]; omega
  · rw [hs]; omega
  · rw [hs, Int.dvd_iff_emod_eq_zero]
    omega
  · rw [e]
    have hn : parallel.toNat ≠ 0 := by
      intro h0
      have := Int.toNat_of_nonneg (le_of_lt hp)
      omega
    constructor
    · intro h
      have h1 : 1 ≤ bytes / parallel :=
        h _ (List.mem_replicate.mpr ⟨hn, rfl⟩)
      have := Int.emod_add_ediv bytes parallel
      nlinarith
    · intro h amount ha
      rw [(List.mem_replicate.mp ha).2]
      exact Int.le_ediv_of_mul_le hp (by omega)

/-- C25, witness: 10 bytes over 2 connections are two transfers of 5 bytes. -/
theorem TestDownload_split_witness :
    (0 : Int) < 10 ∧ (0 : Int) < 2 ∧ TestDownload 10 2 = List.replicate 2 5 ∧
    (TestDownload 10 2).sum = 10 - 10 % 2 :=
  ⟨by decide, by decide, (TestDownload_split 10 2 (by decide) (by decide)).1,
    (TestDownload_split 10 2 (by decide) (by decide)).2.2.2.1⟩

/-- C26: for a limitedReader created with a limit `L` that is not negative, over a reader that
never reports more bytes than the buffer it was given, after any sequence of Read calls the
total of the counts returned is at most `L`, the field `remaining` is `L` less that total and
is not negative; and once the total is `L`, every further Read returns 0 bytes and the
`request body too large` error without calling the underlying reader. -/
theorem limitedReader_never_exceeds {σ : Type} (read : Reader σ) (r0 : σ) (L : Int)
    (hL0 : 0 ≤ L) (hL1 : L < 9223372036854775808) (hw : ∀ st k, (read st k).1.n ≤ k)
    (ps : List Nat) :
    (totalRead ((newLimitedReader r0 L).readAll read ps) : Int) ≤ L ∧
    ((newLimitedReader r0 L).after read ps).remaining
      = L - (totalRead ((newLimitedReader r0 L).readAll read ps) : Int) ∧
    0 ≤ ((newLimitedReader r0 L).after read ps).remaining ∧
    ((totalRead ((newLimitedReader r0 L).readAll read ps) : Int) = L →
      ∀ more : List Nat, ∀ o ∈ ((newLimitedReader r0 L).after read ps).readAll read more,
        o.result = ⟨0, [], some .requestTooLarge⟩ ∧ o.underlying = none ∧
        requestTooLargeError.Error = ascii "request body too large") := by
  obtain ⟨e1, e2⟩ := limitedReader.after_remaining read hw ps (newLimitedReader r0 L) hL0 hL1
  have e1' : ((newLimitedReader r0 L).after read ps).remaining
      = L - (totalRead ((newLimitedReader r0 L).readAll read ps) : Int) := e1
  refine ⟨by omega, e1', e2, fun ht more o ho => ?_⟩
  have hb : ((newLimitedReader r0 L).after read ps).remaining ≤ 0 := by omega
  obtain ⟨h1, h2, _⟩ := (limitedReader.readAll_blocked read _ hb more).1 o ho
  exact ⟨h1, h2, rfl⟩

/-- C26, witness: the reader of the test `read exceeds limit`: a body of 34 bytes, limit 10,
three reads with a buffer of 5 bytes. The first two reads return 5 bytes each, the third
returns the error. -/
theorem limitedReader_never_exceeds_witness :
    ((newLimitedReader (ascii "hello world this is a long message") 10).readAll
        (bodyRead 100 false) [5, 5, 5]).map (fun o => (o.result, o.underlying))
      = [(⟨5, ascii "hello", none⟩, some 5), (⟨5, ascii " worl", none⟩, some 5),
          (⟨0, [], some .requestTooLarge⟩, none)] ∧
    (totalRead ((newLimitedReader (ascii "hello world this is a long message") 10).readAll
        (bodyRead 100 false) [5, 5, 5]) : Int) ≤ 10 :=
  ⟨by decide, (limitedReader_never_exceeds (bodyRead 100 false)
    (ascii "hello world this is a long message") 10 (by decide) (by decide)
    (bodyRead_n_le 100 false) [5, 5, 5]).1⟩

/-- C27, counterexample: a body of exactly 3 bytes behind a limit of 3, whose reader reports
end of stream in a Read of its own: the first two reads deliver the three bytes, and the next
Read yields `request body too large` instead of end of stream. An empty body behind a limit of
0 yields the error at the first Read. -/
theorem readToEnd_body_of_limit_length :
    readToEnd (bodyRead 100 false) 2 10 (newLimitedReader [1, 2, 3] 3) []
      = ([1, 2, 3], some .requestTooLarge) ∧
    readToEnd (bodyRead 100 true) 2 10 (newLimitedReader [] 0) []
      = ([], some .requestTooLarge) := by
  decide

/-- C27 (amended): for every body whose length is at most the limit `L`, reading it through the
limitedReader (with buffers of `p > 0` bytes, the underlying reader delivering at most
`grain > 0` bytes per call) until a Read returns an error delivers all of its bytes unchanged.
The reading ends with end of stream when the body is shorter than `L`, or is not empty and its
reader reports end of stream together with the last bytes; otherwise (length exactly `L`, end
of stream reported by a separate Read, or the empty body with `L = 0`) it ends with the
`request body too large` error. -/
theorem readToEnd_within_limit (grain p : Nat) (hg : 0 < grain) (hp : 0 < p)
    (eofWithData : Bool) (body : List Nat) (L : Int) (hL : (body.length : Int) ≤ L)
    (hL1 : L < 9223372036854775808) (fuel : Nat) (hf : body.length + 1 ≤ fuel) :
    readToEnd (bodyRead grain eofWithData) p fuel (newLimitedReader body L) []
      = (body,
          if (body.length : Int) < L ∨ (eofWithData = true ∧ body ≠ []) then some .EOF
          else some .requestTooLarge) := by
  have h := readToEnd_body grain eofWithData hg p hp body.length body L [] fuel (le_refl _) hf
    hL hL1
  rw [List.nil_append] at h
  exact h

/-- C27, witness: the body of the test `read within limit`, 11 bytes behind a limit of 100,
read with a buffer of 20 bytes. -/
theorem readToEnd_within_limit_witness :
    readToEnd (bodyRead 100 false) 20 12 (newLimitedReader (ascii "hello world") 100) []
      = (ascii "hello world", some .EOF) :=
  (readToEnd_within_limit 100 20 (by decide) (by decide) false (ascii "hello world") 100
    (by decide) (by decide) 12 (by decide)).trans (by decide)

/-- C28: every response of the api helpers has the standard envelope. Success and
SuccessWithStatus write `success` true with the given data and no error (status 200, or the
given one); Error, ErrorWithDetails and ErrorFromAPIError (for an error that is not nil) write
the given status with `success` false, no data, and an error object with exactly the given
code, message and details; Unauthorized, BadRequest, NotFound and InternalError do so with
status 401, 400, 404, 500 and the codes UNAUTHORIZED, INVALID_REQUEST, NOT_FOUND,
INTERNAL_ERROR. -/
theorem api_helpers_envelope (status : Int) (data : Option Json)
    (code message details : GoString) (err : APIError) :
    (api.Success data).isSuccess 200 data ∧
    (api.SuccessWithStatus status data).isSuccess status data ∧
    (api.Error status code message).isError status code message [] ∧
    (api.ErrorWithDetails status code message details).isError status code message details ∧
    (∃ w, api.ErrorFromAPIError status (some err) = some w ∧
      w.isError status err.Code err.Message err.Details) ∧
    (api.Unauthorized message).isError 401 (ascii "UNAUTHORIZED") message [] ∧
    (api.BadRequest message).isError 400 (ascii "INVALID_REQUEST") message [] ∧
    (api.NotFound message).isError 404 (ascii "NOT_FOUND") message [] ∧
    (api.InternalError message).isError 500 (ascii "INTERNAL_ERROR") message [] :=
  ⟨Written.isSuccess_mk 200 data, Written.isSuccess_mk status data,
    Written.isError_mk status code message [],
    Written.isError_mk status code message details,
    ⟨_, rfl, Written.isError_mk status err.Code err.Message err.Details⟩,
    Written.isError_mk 401 _ message [], Written.isError_mk 400 _ message [],
    Written.isError_mk 404 _ message [], Written.isError_mk 500 _ message []⟩

/-- C28, examples: the responses of the tests TestError and TestErrorWithDetails, encoded. -/
theorem api_helpers_envelope_witness :
    (api.Error 400 (ascii "INVALID_INPUT") (ascii "bad request")).body.toJson
      = .obj [(ascii "success", .bool false),
          (ascii "error", .obj [(ascii "code", .str (ascii "INVALID_INPUT")),
            (ascii "message", .str (ascii "bad request"))])] ∧
    (api.ErrorWithDetails 400 (ascii "VALIDATION_ERROR") (ascii "validation failed")
        (ascii "field \x27name\x27 is required")).body.toJson
      = .obj [(ascii "success", .bool false),
          (ascii "error", .obj [(ascii "code", .str (ascii "VALIDATION_ERROR")),
            (ascii "message", .str (ascii "validation failed")),
            (ascii "details", .str (ascii "field \x27name\x27 is required"))])] ∧
    (api.Error 400 (ascii "INVALID_INPUT") (ascii "bad request")).isError 400
      (ascii "INVALID_INPUT") (ascii "bad request") [] :=
  ⟨by decide, by decide,
    (api_helpers_envelope 400 none (ascii "INVALID_INPUT") (ascii "bad request") []
      ⟨[], [], []⟩).2.2.1⟩

/-- C29: for every key, the path that keyToPath derives is `/proc/sys` itself or begins with
`/proc/sys/`; as a cleaned path it is `proc`, `sys` followed by further components. -/
theorem keyToPath_under_proc_sys (key : GoString) :
    (keyToPath key = ascii "/proc/sys" ∨ ascii "/proc/sys/" <+: keyToPath key) ∧
    [ascii "proc", ascii "sys"] <+: joinPath [ascii "proc", ascii "sys"] [ReplaceAll key 46 47] := by
  obtain ⟨rest, hr⟩ := joinPath_no_dot [ascii "proc", ascii "sys"] (ReplaceAll key 46 47)
    (ReplaceAll_not_mem key 46 47 (by decide))
  refine ⟨?_, ⟨rest, hr.symm⟩⟩
  simp only [keyToPath, hr]
  cases rest with
  | nil => left; decide
  | cons c cs =>
    right
    refine ⟨c ++ cs.flatMap (fun c => 47 :: c), ?_⟩
    simp only [renderPath]
    rw [if_neg (by simp)]
    simp only [List.flatMap_append, List.flatMap_cons, List.flatMap_nil, List.cons_append,
      List.nil_append, List.append_nil]
    have e1 : ascii "/proc/sys/" = 47 :: (ascii "proc" ++ 47 :: (ascii "sys" ++ [47])) := by decide
    rw [e1]
    simp

/-- C29, examples: an ordinary key, a key that is only dots, and a key with `/`, `..`-like
runs of dots and empty segments. -/
theorem keyToPath_under_proc_sys_witness :
    keyToPath (ascii "net.core.rmem_max") = ascii "/proc/sys/net/core/rmem_max" ∧
    keyToPath (ascii "..") = ascii "/proc/sys" ∧
    keyToPath (ascii "../../etc/passwd") = ascii "/proc/sys/etc/passwd" ∧
    (keyToPath (ascii "../../etc/passwd") = ascii "/proc/sys" ∨
      ascii "/proc/sys/" <+: keyToPath (ascii "../../etc/passwd")) :=
  ⟨by decide, by decide, by decide, (keyToPath_under_proc_sys (ascii "../../etc/passwd")).1⟩

/-- C30, counterexample: in the example store under `/snap`, Delete of the empty id succeeds
and removes the whole store: the directory it removes is the snapshot root itself, and the
snapshot `a`, readable before, is not found afterwards. The id `..` does the same from one
level higher. -/
theorem Delete_empty_id_removes_store :
    SnapshotService.Get ⟨[ascii "snap"]⟩ exampleStore (ascii "a")
      = .ok ⟨ascii "a", unixTime 1704067200 0, none, [], []⟩ ∧
    (SnapshotService.Delete (fun _ => false) ⟨[ascii "snap"]⟩ exampleStore []).1 = none ∧
    SnapshotService.Get ⟨[ascii "snap"]⟩
      (SnapshotService.Delete (fun _ => false) ⟨[ascii "snap"]⟩ exampleStore []).2 (ascii "a")
      = .error .ErrSnapshotNotFound ∧
    (SnapshotService.Delete (fun _ => false) ⟨[ascii "snap"]⟩ exampleStore (ascii "..")).1
      = none ∧
    SnapshotService.Get ⟨[ascii "snap"]⟩
      (SnapshotService.Delete (fun _ => false) ⟨[ascii "snap"]⟩ exampleStore (ascii "..")).2
      (ascii "a") = .error .ErrSnapshotNotFound := by
  refine ⟨by decide, by decide, by decide, by decide, by decide⟩

/-- C30 (amended): Delete(id) leaves readable, with the same content, every snapshot whose
directory is neither the directory `filepath.Join(snapshotsDir, id)` that Delete addresses nor
below it; this holds whether Delete succeeds, returns ErrSnapshotNotFound, or fails part-way.
In particular it holds for two different ids that are plain directory names (not empty,
without `/`, not `.` or `..`). -/
theorem Delete_keeps_other_snapshots (stuck : Path → Bool) (s : SnapshotService) (fs : FS)
    (id other : GoString) (snapshot : Snapshot) (hg : s.Get fs other = .ok snapshot)
    (hp : ¬ joinPath s.snapshotsDir [id] <+: joinPath s.snapshotsDir [other] ∨
      (plainName id ∧ plainName other ∧ id ≠ other)) :
    s.Get (s.Delete stuck fs id).2 other = .ok snapshot := by
  have hp2 : ¬ joinPath s.snapshotsDir [id] <+: joinPath s.snapshotsDir [other] := by
    rcases hp with hp | ⟨h1, h2, h3⟩
    · exact hp
    · rw [joinPath_plain _ _ h1, joinPath_plain _ _ h2, List.prefix_append_right_inj]
      intro hpre
      have hl := List.IsPrefix.eq_of_length hpre rfl
      simp only [List.cons.injEq, and_true] at hl
      exact h3 hl
  have hread : ∀ c, fs.readFile (joinPath (joinPath s.snapshotsDir [other]) [ascii "state.json"])
      = .ok c →
      FS.readFile (s.Delete stuck fs id).2
        (joinPath (joinPath s.snapshotsDir [other]) [ascii "state.json"]) = .ok c := by
    intro c hc
    refine Delete_readFile stuck s fs id _ c hc ?_
    rw [joinPath_state]
    by_cases he : joinPath s.snapshotsDir [id]
        = joinPath s.snapshotsDir [other] ++ [ascii "state.json"]
    · right; exact he
    · left
      intro hpre
      rcases List.prefix_concat_iff.mp hpre with h | h
      · exact he h
      · exact hp2 h
  simp only [SnapshotService.Get] at hg ⊢
  cases hc : fs.readFile (joinPath (joinPath s.snapshotsDir [other]) [ascii "state.json"]) with
  | error e =>
    rw [hc] at hg
    cases e <;> simp at hg
  | ok c =>
    rw [hread c hc]
    rw [hc] at hg
    exact hg

/-- C30, witness: deleting snapshot `b` of the example store leaves snapshot `a` readable. -/
theorem Delete_keeps_other_snapshots_witness :
    SnapshotService.Get ⟨[ascii "snap"]⟩
      (SnapshotService.Delete (fun _ => false) ⟨[ascii "snap"]⟩ exampleStore (ascii "b")).2
      (ascii "a")
      = .ok ⟨ascii "a", unixTime 1704067200 0, none, [], []⟩ ∧
    SnapshotService.Get ⟨[ascii "snap"]⟩
      (SnapshotService.Delete (fun _ => false) ⟨[ascii "snap"]⟩ exampleStore (ascii "b")).2
      (ascii "b") = .error .ErrSnapshotNotFound :=
  ⟨Delete_keeps_other_snapshots (fun _ => false) ⟨[ascii "snap"]⟩ exampleStore (ascii "b")
    (ascii "a") ⟨ascii "a", unixTime 1704067200 0, none, [], []⟩ (by decide)
    (Or.inr ⟨⟨by decide, by decide, by decide, by decide⟩,
      ⟨by decide, by decide, by decide, by decide⟩, by decide⟩), by decide⟩

end Nettune
